import Mathlib

/-!
CS_net: a shallow embedding of the protocol stack.

The C sources (`utils.c`, `ip.c`, `icmp.c`, `udp.c`) are embedded as Lean functions.
Machine integers are natural numbers reduced modulo `2^w` where the C type truncates;
a byte of memory is a `Fin 256`.  The host is little-endian (the code byte-swaps every
multi-byte wire field with `swap16`), so a `uint16_t` at address `a` is
`mem[a] + 256 * mem[a+1]`.  Global variables are the fields of `net_t`; what a function
hands to a layer that is not embedded here (the ARP resolver, the dispatch registry, a
UDP handler) is appended to the trace of the state.
-/

namespace CSNet

/-! ## Bytes and memory -/

/-- A C `uint8_t`. -/
abbrev uint8_t := Fin 256

/-- Conversion to `uint8_t` (truncation to the low 8 bits). -/
def u8 (n : Nat) : uint8_t := ⟨n % 256, Nat.mod_lt _ (by decide)⟩

/-- Byte-addressed storage. -/
abbrev mem_t := Int → uint8_t

/-- An IPv4 address, `uint8_t ip[NET_IP_LEN]`. -/
abbrev ip_t := Fin 4 → uint8_t

/-- Read of a `uint8_t`. -/
def load8 (m : mem_t) (a : Int) : Nat := (m a).val

/-- Read of a `uint16_t` on the little-endian host. -/
def load16 (m : mem_t) (a : Int) : Nat := (m a).val + 256 * (m (a + 1)).val

/-- Write of a `uint8_t` (the value is truncated to 8 bits). -/
def store8 (m : mem_t) (a : Int) (v : Nat) : mem_t :=
  fun i => if i = a then u8 v else m i

/-- Write of a `uint16_t` on the little-endian host (the value is truncated to 16 bits). -/
def store16 (m : mem_t) (a : Int) (v : Nat) : mem_t :=
  store8 (store8 m a v) (a + 1) (v / 256)

/-- The C library `memcpy(dst, src, n)` between two storages (or two disjoint regions). -/
def memcpy (dm : mem_t) (dst : Int) (sm : mem_t) (src : Int) (n : Nat) : mem_t :=
  fun i => if dst ≤ i ∧ i < dst + n then sm (src + (i - dst)) else dm i

/-- The C library `memset(dst, 0, n)`. -/
def memset0 (dm : mem_t) (dst : Int) (n : Nat) : mem_t :=
  fun i => if dst ≤ i ∧ i < dst + n then 0 else dm i

/-- Copy of an IP address given by pointer, `memcpy(dst, ip, NET_IP_LEN)`. -/
def memcpy_ip (dm : mem_t) (dst : Int) (ip : ip_t) : mem_t :=
  fun i => if i = dst + 3 then ip 3 else if i = dst + 2 then ip 2
    else if i = dst + 1 then ip 1 else if i = dst then ip 0 else dm i

/-- The `n` bytes stored from address `a` on, as numbers. -/
def bytes (m : mem_t) (a : Int) (n : Nat) : List Nat :=
  (List.range n).map (fun (k : Nat) => (m (a + (k : Int))).val)

/-- A storage holding the given bytes from address 0 on (zero elsewhere). -/
def ofList (l : List Nat) : mem_t :=
  fun i => if 0 ≤ i then u8 (l.getD i.toNat 0) else 0

/-- Modelled from the spec: the macro `swap16` of `utils.h`, which is not among the
sources; the spec has every multi-byte field "in network byte order", so it exchanges
the two low bytes of its argument. -/
def swap16 (x : Nat) : Nat := (x % 256) * 256 + (x / 256) % 256

/-! ## The byte-buffer container -/

/-- Modelled from the spec: the generic byte-buffer container `buf_t` (`buf.h` is not
among the sources).  A buffer is a window of `len` bytes starting at `data` inside its
storage `payload`; the spec gives it "header/tail growth, padding" and no capacity
limit, so the storage is unbounded on both sides. -/
structure buf_t where
  len : Nat
  data : Int
  payload : mem_t

/-- Modelled from the spec: `buf_init` of the byte-buffer container: a window of `len`
bytes; the bytes it holds are whatever the storage held. -/
def buf_init (buf : buf_t) (len : Nat) : buf_t :=
  { buf with len := len, data := 0 }

/-- Modelled from the spec: `buf_add_header` of the byte-buffer container ("header
growth"): the window grows by `len` bytes at the front; no byte is written. -/
def buf_add_header (buf : buf_t) (len : Nat) : buf_t :=
  { buf with len := buf.len + len, data := buf.data - len }

/-- Modelled from the spec: `buf_remove_header` of the byte-buffer container: the window
shrinks by `len` bytes at the front; a window shorter than `len` is left as it is. -/
def buf_remove_header (buf : buf_t) (len : Nat) : buf_t :=
  if buf.len < len then buf else { buf with len := buf.len - len, data := buf.data + len }

/-- Modelled from the spec: `buf_add_padding` of the byte-buffer container ("append zero
padding"): `len` zero bytes are written after the window, which grows over them. -/
def buf_add_padding (buf : buf_t) (len : Nat) : buf_t :=
  { buf with len := buf.len + len, payload := memset0 buf.payload (buf.data + buf.len) len }

/-- Modelled from the spec: `buf_remove_padding` of the byte-buffer container: the window
shrinks by `len` bytes at the tail; a window shorter than `len` is left as it is. -/
def buf_remove_padding (buf : buf_t) (len : Nat) : buf_t :=
  if buf.len < len then buf else { buf with len := buf.len - len }

/-- The bytes of the window of a buffer. -/
def buf_t.bytes (buf : buf_t) : List Nat := CSNet.bytes buf.payload buf.data buf.len

/-! ## utils.c: the checksum engine -/

/-- Steps 1 and 2 of `checksum16`: the `while (count > 1)` loop over 16-bit words and the
leftover byte, with the 32-bit accumulator `sum`. -/
def checksum16_sum (m : mem_t) : Nat → Int → Nat → Nat
  | n + 2, a, sum => checksum16_sum m n (a + 2) ((sum + load16 m a) % 4294967296)
  | 1, a, sum => (sum + load8 m a) % 4294967296
  | 0, _, sum => sum

/-- Step 3 of `checksum16`: `while (sum >> 16) sum = (sum >> 16) + (sum & 0xFFFF);`.
The first argument bounds the number of iterations. -/
def checksum16_fold : Nat → Nat → Nat
  | 0, sum => sum
  | fuel + 1, sum =>
    if sum / 65536 ≠ 0 then checksum16_fold fuel ((sum / 65536 + sum % 65536) % 4294967296)
    else sum

/-- The function `checksum16(data, len)`; `(uint16_t)~sum` is `(2^32 - 1 - sum) % 2^16`.
Every iteration of the folding loop makes `sum` smaller, so `sum` iterations are enough. -/
def checksum16 (m : mem_t) (data : Int) (len : Nat) : Nat :=
  let sum := checksum16_sum m len data 0
  let sum := checksum16_fold sum sum
  (4294967295 - sum) % 65536

/-- The size `sizeof(peso_hdr_t)` of the packed pseudo-header structure of `utils.c`:
two addresses, the placeholder, the protocol and the 16-bit length. -/
def sizeof_peso_hdr_t : Nat := 12

/-- The function `transport_checksum(protocol, buf, src_ip, dst_ip)`; the result is the
checksum together with the buffer as the function leaves it. -/
def transport_checksum (protocol : Nat) (buf : buf_t) (src_ip dst_ip : ip_t) : Nat × buf_t :=
  let paddled := if buf.len % 2 ≠ 0 then 1 else 0
  let buf := if buf.len % 2 ≠ 0 then buf_add_padding buf 1 else buf
  -- Step1
  let buf := buf_add_header buf sizeof_peso_hdr_t
  -- Step2
  let backup : mem_t := memcpy (fun _ => 0) 0 buf.payload buf.data sizeof_peso_hdr_t
  -- Step3
  let ph := buf.data
  let buf := { buf with payload := memcpy_ip buf.payload ph src_ip }
  let buf := { buf with payload := memcpy_ip buf.payload (ph + 4) dst_ip }
  let buf := { buf with payload := store8 buf.payload (ph + 8) 0 }
  let buf := { buf with payload := store8 buf.payload (ph + 9) protocol }
  let buf := { buf with
    payload := store16 buf.payload (ph + 10) (swap16 (buf.len - sizeof_peso_hdr_t - paddled)) }
  -- Step4
  let checksum := checksum16 buf.payload buf.data buf.len
  -- Step5
  let buf := { buf with payload := memcpy buf.payload buf.data backup 0 sizeof_peso_hdr_t }
  -- Step6
  let buf := buf_remove_header buf sizeof_peso_hdr_t
  let buf := if paddled ≠ 0 then buf_remove_padding buf 1 else buf
  (checksum, buf)

/-! ## Constants of the headers that are not among the sources -/

/-- Modelled from the spec: `sizeof(ip_hdr_t)`, the IPv4 header without options (§3). -/
def sizeof_ip_hdr_t : Nat := 20
/-- Modelled from the spec: `sizeof(icmp_hdr_t)`: type, code, checksum and the 4-byte
type-specific field (§3). -/
def sizeof_icmp_hdr_t : Nat := 8
/-- Modelled from the spec: `sizeof(udp_hdr_t)`: four 2-byte fields (§3). -/
def sizeof_udp_hdr_t : Nat := 8
/-- Modelled from the spec: `IP_VERSION_4` ("version (4 bits, must be 4)"). -/
def IP_VERSION_4 : Nat := 4
/-- Modelled from the spec: `IP_HDR_LEN_PER_BYTE` ("header length in 4-byte words"). -/
def IP_HDR_LEN_PER_BYTE : Nat := 4
/-- Modelled from the spec: `IP_MORE_FRAGMENT`, the more-fragments bit of the
flags + fragment-offset word, just above the 13-bit offset. -/
def IP_MORE_FRAGMENT : Nat := 8192
/-- Modelled from the spec: `ETHERNET_MAX_TRANSPORT_UNIT`, the link MTU. -/
def ETHERNET_MAX_TRANSPORT_UNIT : Nat := 1500
/-- Modelled from the spec: protocol number of ICMP in the dispatch registry. -/
def NET_PROTOCOL_ICMP : Nat := 1
/-- Modelled from the spec: protocol number of UDP in the dispatch registry. -/
def NET_PROTOCOL_UDP : Nat := 17
/-- Modelled from the spec: ICMP type "echo request". -/
def ICMP_TYPE_ECHO_REQUEST : Nat := 8
/-- Modelled from the spec: ICMP type "echo reply". -/
def ICMP_TYPE_ECHO_REPLY : Nat := 0
/-- Modelled from the spec: ICMP type "destination unreachable". -/
def ICMP_TYPE_UNREACH : Nat := 3
/-- Modelled from the spec: ICMP code "protocol unreachable". -/
def ICMP_CODE_PROTOCOL_UNREACH : Nat := 2
/-- Modelled from the spec: ICMP code "port unreachable". -/
def ICMP_CODE_PORT_UNREACH : Nat := 3

/-! ## The state of the stack and what it hands on -/

/-- What the embedded layers hand to their collaborators. -/
inductive Event where
  /-- The call `arp_out(buf, ip)`: a packet handed to the ARP resolver. -/
  | arp_out (buf : buf_t) (ip : ip_t)
  /-- The call `(*handle)(buf->data, buf->len, src_ip, src_port)` of a registered UDP
  handler. -/
  | udp_handler (handle : Nat) (buf : buf_t) (src_ip : ip_t) (src_port : Nat)
  /-- The call `net_in(buf, protocol, src)`: a payload handed to the dispatch registry. -/
  | net_in (buf : buf_t) (protocol : Nat) (src : ip_t)

/-- The globals the embedded functions use. -/
structure net_t where
  /-- The local address `net_if_ip`. -/
  net_if_ip : ip_t
  /-- The port table `udp_table`: the handler registered for a port, if any. -/
  udp_table : Nat → Option Nat
  /-- The `static int fragment_id` of `ip_out`. -/
  fragment_id : Nat
  /-- The transmit buffer `txbuf`. -/
  txbuf : buf_t
  /-- The storage of the automatic `buf_t` objects of `ip_out` before `buf_init`. -/
  frag_buf : buf_t
  /-- The calls made to collaborators so far, oldest first. -/
  trace : List Event

/-- The address read through a pointer `uint8_t *` into a storage. -/
def load_ip (m : mem_t) (a : Int) : ip_t := fun k => m (a + k.val)

/-! ## ip.c: sending -/

/-- The function `ip_fragment_out(buf, ip, protocol, id, offset, mf)`.  The header is
`ip_hdr_t`: byte 0 holds `hdr_len` (low 4 bits) and `version` (high 4 bits), then `tos`,
`total_len16`, `id16`, `flags_fragment16`, `ttl`, `protocol`, `hdr_checksum16`, `src_ip`,
`dst_ip`.  The parameter `offset` is a `uint16_t`. -/
def ip_fragment_out (s : net_t) (buf : buf_t) (ip : ip_t) (protocol : Nat) (id : Nat)
    (offset : Nat) (mf : Nat) : net_t :=
  let offset := offset % 65536
  -- Step1
  let buf := buf_add_header buf sizeof_ip_hdr_t
  -- Step2
  let ip_hdr := buf.data
  let total_len := buf.len % 65536
  let ihl := (sizeof_ip_hdr_t / 4) % 256
  let buf := { buf with
    payload := store8 buf.payload ip_hdr (load8 buf.payload ip_hdr % 16 + 16 * (4 % 16)) }
  let buf := { buf with
    payload := store8 buf.payload ip_hdr (load8 buf.payload ip_hdr / 16 * 16 + ihl % 16) }
  let buf := { buf with payload := store8 buf.payload (ip_hdr + 1) 0 }
  let buf := { buf with payload := store16 buf.payload (ip_hdr + 2) (swap16 total_len) }
  let buf := { buf with payload := store16 buf.payload (ip_hdr + 4) (swap16 id) }
  let flags_fragment := (if mf ≠ 0 then IP_MORE_FRAGMENT else 0) ||| (offset >>> 3)
  let buf := { buf with payload := store16 buf.payload (ip_hdr + 6) (swap16 flags_fragment) }
  let buf := { buf with payload := store8 buf.payload (ip_hdr + 8) 64 }
  let buf := { buf with payload := store8 buf.payload (ip_hdr + 9) protocol }
  let buf := { buf with payload := store16 buf.payload (ip_hdr + 10) 0 }
  let buf := { buf with payload := memcpy_ip buf.payload (ip_hdr + 12) s.net_if_ip }
  let buf := { buf with payload := memcpy_ip buf.payload (ip_hdr + 16) ip }
  -- Step3
  let buf := { buf with
    payload := store16 buf.payload (ip_hdr + 10) (checksum16 buf.payload ip_hdr (ihl * 4)) }
  -- Step4
  { s with trace := s.trace ++ [Event.arp_out buf ip] }

/-- The fragment `buf_init(&frag, n); memcpy(frag.data, buf->data + offset, n);` that
`ip_out` builds in an automatic `buf_t`. -/
def ip_out_frag (s : net_t) (buf : buf_t) (offset n : Nat) : buf_t :=
  let frag_buf := buf_init s.frag_buf n
  { frag_buf with
      payload := memcpy frag_buf.payload frag_buf.data buf.payload (buf.data + offset) n }

/-- The loop `while (remaining > fragment_payload_len)` of `ip_out` followed by the
sending of the last fragment, with `buf` the value that `*buf` has when `ip_out` is
called: the loop as it runs when no call made in it writes `*buf`.  The loop that reads
`*buf` again in every iteration is `ByRef.ip_out_loop` below.  The first argument bounds
the number of iterations; every iteration takes `fragment_payload_len` bytes off
`remaining`. -/
def ip_out_loop (buf : buf_t) (ip : ip_t) (protocol id fragment_payload_len : Nat) :
    Nat → net_t → Nat → Nat → net_t
  | 0, s, _, _ => s
  | fuel + 1, s, offset, remaining =>
    if remaining > fragment_payload_len then
      let frag_buf := ip_out_frag s buf offset fragment_payload_len
      let s := ip_fragment_out s frag_buf ip protocol id offset 1
      ip_out_loop buf ip protocol id fragment_payload_len fuel s
        (offset + fragment_payload_len) (remaining - fragment_payload_len)
    else
      let last_frag := ip_out_frag s buf offset remaining
      ip_fragment_out s last_frag ip protocol id offset 0

/-- The function `ip_out(buf, ip, protocol)` with `buf` the value of `*buf` at the call
(see `ip_out_loop`); `max_payload_len & ~7` is `max_payload_len / 8 * 8`. -/
def ip_out (s : net_t) (buf : buf_t) (ip : ip_t) (protocol : Nat) : net_t :=
  let ip_header_len := sizeof_ip_hdr_t
  let max_total_len := ETHERNET_MAX_TRANSPORT_UNIT
  let max_payload_len := max_total_len - ip_header_len
  if buf.len > max_payload_len then
    let id := s.fragment_id
    let s := { s with fragment_id := s.fragment_id + 1 }
    let fragment_payload_len := max_payload_len / 8 * 8
    ip_out_loop buf ip protocol id fragment_payload_len (buf.len + 1) s 0 buf.len
  else
    ip_fragment_out s buf ip protocol 0 0 0

/-! ## icmp.c -/

/-- The function `icmp_resp(req_buf, src_ip)`.  The header is `icmp_hdr_t`: `type`,
`code`, `checksum16`, `id16`, `seq16`. -/
def icmp_resp (s : net_t) (req_buf : buf_t) (src_ip : ip_t) : net_t :=
  -- Step1
  let total_len := req_buf.len
  let txbuf := buf_init s.txbuf total_len
  let txbuf := { txbuf with
    payload := memcpy txbuf.payload txbuf.data req_buf.payload req_buf.data total_len }
  let icmp_hdr := txbuf.data
  let txbuf := { txbuf with payload := store8 txbuf.payload icmp_hdr ICMP_TYPE_ECHO_REPLY }
  let txbuf := { txbuf with payload := store16 txbuf.payload (icmp_hdr + 2) 0 }
  -- Step2
  let txbuf := { txbuf with
    payload := store16 txbuf.payload (icmp_hdr + 2) (checksum16 txbuf.payload txbuf.data total_len) }
  -- Step3
  ip_out { s with txbuf := txbuf } txbuf src_ip NET_PROTOCOL_ICMP

/-- The function `icmp_in(buf, src_ip)`. -/
def icmp_in (s : net_t) (buf : buf_t) (src_ip : ip_t) : net_t :=
  if buf.len < sizeof_icmp_hdr_t then s
  else
    let icmp_hdr := buf.data
    if load8 buf.payload icmp_hdr = ICMP_TYPE_ECHO_REQUEST then icmp_resp s buf src_ip
    else s

/-- The function `icmp_unreachable(recv_buf, src_ip, code)`. -/
def icmp_unreachable (s : net_t) (recv_buf : buf_t) (src_ip : ip_t) (code : Nat) : net_t :=
  let orig_ip_hdr := recv_buf.data
  let orig_ip_hdr_len := (load8 recv_buf.payload orig_ip_hdr % 16) * 4
  let icmp_data_len := orig_ip_hdr_len + 8
  let total_len := sizeof_icmp_hdr_t + icmp_data_len
  -- Step1
  let txbuf := buf_init s.txbuf total_len
  let icmp_hdr := txbuf.data
  let txbuf := { txbuf with payload := store8 txbuf.payload icmp_hdr ICMP_TYPE_UNREACH }
  let txbuf := { txbuf with payload := store8 txbuf.payload (icmp_hdr + 1) code }
  let txbuf := { txbuf with payload := store16 txbuf.payload (icmp_hdr + 2) 0 }
  let txbuf := { txbuf with payload := store16 txbuf.payload (icmp_hdr + 4) 0 }
  let txbuf := { txbuf with payload := store16 txbuf.payload (icmp_hdr + 6) 0 }
  -- Step2
  let icmp_data : Int := txbuf.data + (sizeof_icmp_hdr_t : Nat)
  let txbuf := { txbuf with
    payload := memcpy txbuf.payload icmp_data recv_buf.payload recv_buf.data orig_ip_hdr_len }
  let rest : Int := recv_buf.data + orig_ip_hdr_len
  let txbuf := { txbuf with
    payload := memcpy txbuf.payload (icmp_data + orig_ip_hdr_len) recv_buf.payload rest 8 }
  let txbuf := { txbuf with
    payload := store16 txbuf.payload (icmp_hdr + 2) (checksum16 txbuf.payload txbuf.data total_len) }
  -- Step3
  ip_out { s with txbuf := txbuf } txbuf src_ip NET_PROTOCOL_ICMP

/-! ## udp.c: receiving -/

/-- The function `udp_in(buf, src_ip)`; the result is the new state together with the
buffer as the function leaves it.  The header is `udp_hdr_t`: `src_port16`, `dst_port16`,
`total_len16`, `checksum16`. -/
def udp_in (s : net_t) (buf : buf_t) (src_ip : ip_t) : net_t × buf_t :=
  -- Step1
  if buf.len < sizeof_udp_hdr_t then (s, buf)
  else
    let hdr := buf.data
    let src_p := swap16 (load16 buf.payload hdr)
    let src_d := swap16 (load16 buf.payload (hdr + 2))
    let udp_len := swap16 (load16 buf.payload (hdr + 4))
    if udp_len > buf.len then (s, buf)
    else
      -- Step2
      let recv_sum := load16 buf.payload (hdr + 6)
      let buf := { buf with payload := store16 buf.payload (hdr + 6) 0 }
      let r := transport_checksum NET_PROTOCOL_UDP buf src_ip s.net_if_ip
      let calc_sum := r.1
      let buf := r.2
      if recv_sum ≠ 0 ∧ recv_sum ≠ calc_sum then (s, buf)
      else
        let buf := { buf with payload := store16 buf.payload (hdr + 6) recv_sum }
        match s.udp_table src_d with
        | none =>
          let buf := buf_add_header buf sizeof_ip_hdr_t
          (icmp_unreachable s buf src_ip ICMP_CODE_PORT_UNREACH, buf)
        | some handle =>
          let buf := buf_remove_header buf sizeof_udp_hdr_t
          ({ s with trace := s.trace ++ [Event.udp_handler handle buf src_ip src_p] }, buf)

/-! ## ip.c: receiving -/

/-- Modelled from the spec: the dispatch registry `net_in(buf, protocol, src)` of `net.h`
for the protocol numbers of the IP layer, with the handlers that `icmp_init` and
`udp_init` register.  The call is recorded in the trace; the result is the new state, the
buffer as the handler leaves it, and 0, or -1 when no handler is registered ("protocol
not found"). -/
def net_in (s : net_t) (buf : buf_t) (protocol : Nat) (src : ip_t) : net_t × buf_t × Int :=
  let s := { s with trace := s.trace ++ [Event.net_in buf protocol src] }
  if protocol = NET_PROTOCOL_ICMP then (icmp_in s buf src, buf, 0)
  else if protocol = NET_PROTOCOL_UDP then ((udp_in s buf src).1, (udp_in s buf src).2, 0)
  else (s, buf, -1)

/-- The function `ip_in(buf, src_mac)` (`src_mac` is not used); the result is the new
state together with the buffer as the function leaves it. -/
def ip_in (s : net_t) (buf : buf_t) : net_t × buf_t :=
  -- Step1
  if buf.len < sizeof_ip_hdr_t then (s, buf)
  else
    let ip_hdr := buf.data
    -- Step2
    let total_len := swap16 (load16 buf.payload (ip_hdr + 2))
    if load8 buf.payload ip_hdr / 16 ≠ IP_VERSION_4 ∨ total_len > buf.len
        ∨ load8 buf.payload ip_hdr % 16 < 5 then (s, buf)
    else
      -- Step3
      let original_checksum := load16 buf.payload (ip_hdr + 10)
      let buf := { buf with payload := store16 buf.payload (ip_hdr + 10) 0 }
      let calculated_checksum :=
        checksum16 buf.payload ip_hdr (load8 buf.payload ip_hdr % 16 * 4)
      if calculated_checksum ≠ original_checksum then (s, buf)
      else
        let buf := { buf with payload := store16 buf.payload (ip_hdr + 10) original_checksum }
        -- Step4
        if load_ip buf.payload (ip_hdr + 16) ≠ s.net_if_ip then (s, buf)
        else
          -- Step5
          let buf := if buf.len > total_len then buf_remove_padding buf (buf.len - total_len)
            else buf
          let protocol := load8 buf.payload (ip_hdr + 9)
          let src_ip := load_ip buf.payload (ip_hdr + 12)
          let header_len := (load8 buf.payload ip_hdr % 16 * IP_HDR_LEN_PER_BYTE) % 256
          -- Step6
          let buf := buf_remove_header buf header_len
          -- Step7
          let r := net_in s buf protocol src_ip
          if r.2.2 = -1 then
            -- Step8
            let buf := buf_add_header r.2.1 header_len
            (icmp_unreachable r.1 buf src_ip ICMP_CODE_PROTOCOL_UNREACH, buf)
          else (r.1, r.2.1)
/-- The exact sum that steps 1 and 2 of `checksum16` accumulate: the 16-bit words in host
order and the leftover byte, without reduction modulo `2^32`. -/
def word_sum (m : mem_t) : Nat → Int → Nat
  | n + 2, a => load16 m a + word_sum m n (a + 2)
  | 1, a => load8 m a
  | 0, _ => 0

/-- The end-around-carry fold in closed form: the value in `1..65535` congruent to a
positive sum modulo `65535`, and `0` for the sum `0`. -/
def ones_fold (s : Nat) : Nat := if s = 0 then 0 else (s - 1) % 65535 + 1

/-- Reference (RFC 1071): the sum of a byte sequence read as big-endian 16-bit words, an
odd final byte being the high byte of a word padded with a zero byte. -/
def rfc1071_sum : List Nat → Nat
  | b0 :: b1 :: rest => (256 * b0 + b1) + rfc1071_sum rest
  | [b0] => 256 * b0
  | [] => 0

/-- Reference (RFC 1071): the end-around-carry fold, adding the carry above bit 15 back
into the low 16 bits until none remains; the first argument bounds the iterations. -/
def rfc1071_fold : Nat → Nat → Nat
  | 0, s => s
  | fuel + 1, s => if 65536 ≤ s then rfc1071_fold fuel (s / 65536 + s % 65536) else s

/-- Reference (RFC 1071): the Internet checksum of a byte sequence, the bitwise complement
of the folded sum as a 16-bit number. -/
def rfc1071 (l : List Nat) : Nat := 65535 - rfc1071_fold (rfc1071_sum l) (rfc1071_sum l)

/-- Reference (spec §3): the 12-byte pseudo-header: source IP, destination IP, one zero
byte, the protocol number and the segment length in network byte order. -/
def pseudo_header (src_ip dst_ip : ip_t) (protocol n : Nat) : List Nat :=
  [(src_ip 0).val, (src_ip 1).val, (src_ip 2).val, (src_ip 3).val,
   (dst_ip 0).val, (dst_ip 1).val, (dst_ip 2).val, (dst_ip 3).val,
   0, protocol, n / 256, n % 256]

/-- Reference (spec §3): the 20 bytes of an IPv4 header without options: version 4 and
header length 5, TOS 0, total length, identification and flags + fragment offset in
network byte order, TTL 64, protocol, the checksum as `checksum16` returns it stored in
host order, source and destination address. -/
def ip_header (src_ip dst_ip : ip_t) (total_len id flags_fragment protocol checksum : Nat) :
    List Nat :=
  [69, 0, total_len / 256, total_len % 256, id / 256 % 256, id % 256,
   flags_fragment / 256, flags_fragment % 256, 64, protocol, checksum % 256, checksum / 256,
   (src_ip 0).val, (src_ip 1).val, (src_ip 2).val, (src_ip 3).val,
   (dst_ip 0).val, (dst_ip 1).val, (dst_ip 2).val, (dst_ip 3).val]

/-- Reference: the IPv4 packet carrying `payload` as the fragment at byte offset `offset`:
the header, whose checksum is `checksum16` of the header taken with a zero checksum
field, followed by the payload. -/
def ip_packet (src_ip dst_ip : ip_t) (protocol id offset mf : Nat) (payload : List Nat) :
    List Nat :=
  let total_len := 20 + payload.length
  let flags_fragment := (if mf ≠ 0 then 8192 else 0) + offset / 8
  ip_header src_ip dst_ip total_len id flags_fragment protocol
      (checksum16 (ofList (ip_header src_ip dst_ip total_len id flags_fragment protocol 0)) 0 20)
    ++ payload

/-- The packets handed to the ARP resolver in a trace, oldest first: the bytes of each
packet and the destination address given with it. -/
def sent : List Event → List (List Nat × ip_t)
  | [] => []
  | Event.arp_out buf ip :: t => (buf.bytes, ip) :: sent t
  | Event.udp_handler _ _ _ _ :: t => sent t
  | Event.net_in _ _ _ :: t => sent t

/-- The invocations of UDP handlers in a trace, oldest first: the handler, the bytes and
the length given to it, the source address and the source port. -/
def handled : List Event → List (Nat × List Nat × Nat × ip_t × Nat)
  | [] => []
  | Event.arp_out _ _ :: t => handled t
  | Event.udp_handler h buf src_ip src_port :: t =>
    (h, buf.bytes, buf.len, src_ip, src_port) :: handled t
  | Event.net_in _ _ _ :: t => handled t

/-- The payloads handed to the dispatch registry in a trace, oldest first: the bytes, the
protocol number and the source address. -/
def dispatched : List Event → List (List Nat × Nat × ip_t)
  | [] => []
  | Event.arp_out _ _ :: t => dispatched t
  | Event.udp_handler _ _ _ _ :: t => dispatched t
  | Event.net_in buf protocol src :: t => (buf.bytes, protocol, src) :: dispatched t

/-- A state of the stack used in examples: local address 192.168.1.2, no UDP port open,
zeroed buffers, empty trace. -/
def example_state : net_t :=
  ⟨![192, 168, 1, 2], fun _ => none, 0, ⟨0, 0, fun _ => 0⟩, ⟨0, 0, fun _ => 0⟩, []⟩

/-- The buffer whose window holds the given bytes, used in examples. -/
def example_buf (l : List Nat) : buf_t := ⟨l.length, 0, ofList l⟩

/-! ## utils.c: address comparison -/

/-- The inner loop `for (j = 0; j < 8; j++)` of `ip_prefix_match` with the `uint8_t`
variables `flag` and `count`; the first argument is the number of iterations left.  The
result says whether the function returned from inside the loop, and gives `count`. -/
def ip_prefix_match_byte : Nat → Nat → Nat → Bool × Nat
  | 0, _, count => (false, count)
  | j + 1, flag, count =>
    if flag &&& (1 <<< 7) ≠ 0 then (true, count)
    else ip_prefix_match_byte j ((flag <<< 1) % 256) ((count + 1) % 256)

/-- The outer loop `for (i = 0; i < 4; i++)` of `ip_prefix_match` over the bytes still to
be compared. -/
def ip_prefix_match_loop (ipa ipb : ip_t) : List (Fin 4) → Nat → Nat
  | [], count => count
  | i :: rest, count =>
    let flag := (ipa i).val ^^^ (ipb i).val
    let r := ip_prefix_match_byte 8 flag count
    if r.1 then r.2 else ip_prefix_match_loop ipa ipb rest r.2

/-- The function `ip_prefix_match(ipa, ipb)`. -/
def ip_prefix_match (ipa ipb : ip_t) : Nat :=
  ip_prefix_match_loop ipa ipb [0, 1, 2, 3] 0

/-- Reference: bit `k` of an address, counted from the most significant bit of byte 0. -/
def ip_bit (a : ip_t) (k : Nat) : Bool :=
  (a ⟨k / 8 % 4, Nat.mod_lt _ (by decide)⟩).val.testBit (7 - k % 8)

/-- Reference: the number of bits from bit `k` on, at most `n`, in which two addresses
agree before the first bit in which they differ. -/
def agree_from (a b : ip_t) : Nat → Nat → Nat
  | 0, _ => 0
  | n + 1, k => if ip_bit a k = ip_bit b k then 1 + agree_from a b n (k + 1) else 0

/-- The number of leading zero bits among bits `7 - j`, ..., of a byte, at most `n`. -/
def leading_zeros (f : Nat) : Nat → Nat → Nat
  | 0, _ => 0
  | n + 1, j => if f.testBit (7 - j) then 0 else 1 + leading_zeros f n (j + 1)

/-! ## udp.c: sending -/

/-- Steps 1 to 3 of `udp_out(buf, src_port, dst_ip, dst_port)`: the segment that is
handed to the IP layer.  The automatic `udp_hdr_t hdr` is a storage of its own, copied
over the first 8 bytes of the buffer before and after the checksum is computed. -/
def udp_out_buf (s : net_t) (buf : buf_t) (src_port : Nat) (dst_ip : ip_t) (dst_port : Nat) :
    buf_t :=
  -- Step1
  let buf := buf_add_header buf sizeof_udp_hdr_t
  -- Step2
  let hdr : mem_t := fun _ => 0
  let hdr := store16 hdr 0 (swap16 src_port)
  let hdr := store16 hdr 2 (swap16 dst_port)
  let hdr := store16 hdr 4 (swap16 buf.len)
  let hdr := store16 hdr 6 0
  let buf := { buf with payload := memcpy buf.payload buf.data hdr 0 sizeof_udp_hdr_t }
  -- Step3
  let r := transport_checksum NET_PROTOCOL_UDP buf s.net_if_ip dst_ip
  let cksum := r.1
  let buf := r.2
  let hdr := store16 hdr 6 cksum
  { buf with payload := memcpy buf.payload buf.data hdr 0 sizeof_udp_hdr_t }

/-- The function `udp_out(buf, src_port, dst_ip, dst_port)`: step 4 hands the segment to
`ip_out`. -/
def udp_out (s : net_t) (buf : buf_t) (src_port : Nat) (dst_ip : ip_t) (dst_port : Nat) :
    net_t :=
  ip_out s (udp_out_buf s buf src_port dst_ip dst_port) dst_ip NET_PROTOCOL_UDP

/-- Reference (spec §3): the 8 bytes of a UDP header: source port, destination port and
total length in network byte order, and the checksum as `transport_checksum` returns it
stored in host order. -/
def udp_header (src_port dst_port total_len checksum : Nat) : List Nat :=
  [src_port / 256, src_port % 256, dst_port / 256, dst_port % 256,
   total_len / 256, total_len % 256, checksum % 256, checksum / 256]

/-- A second state used in examples: local address 10.0.0.1, handler 7 registered for
UDP port 53, zeroed buffers, empty trace. -/
def example_state_open : net_t :=
  ⟨![10, 0, 0, 1], fun port => if port = 53 then some 7 else none, 0,
    ⟨0, 0, fun _ => 0⟩, ⟨0, 0, fun _ => 0⟩, []⟩

/-! ## The link layer: ethernet.c and arp.c -/

/-- A MAC address, `uint8_t mac[NET_MAC_LEN]`. -/
abbrev mac_t := Fin 6 → uint8_t

/-- Modelled from the spec: `sizeof(ether_hdr_t)`: two MAC addresses and the 2-byte
protocol type (§3). -/
def sizeof_ether_hdr_t : Nat := 14
/-- Modelled from the spec: `sizeof(arp_pkt_t)`: hardware type (2), protocol type (2),
hardware length (1), protocol length (1), opcode (2), sender MAC (6), sender IP (4),
target MAC (6), target IP (4), in this order (§3). -/
def sizeof_arp_pkt_t : Nat := 28
/-- Modelled from the spec: `ETHERNET_MIN_TRANSPORT_UNIT`, the least frame payload (§3). -/
def ETHERNET_MIN_TRANSPORT_UNIT : Nat := 46
/-- Modelled from the spec: protocol number of IPv4 in the dispatch registry. -/
def NET_PROTOCOL_IP : Nat := 2048
/-- Modelled from the spec: protocol number of ARP in the dispatch registry. -/
def NET_PROTOCOL_ARP : Nat := 2054
/-- Modelled from the spec: `ARP_HW_ETHER`, the hardware type Ethernet. -/
def ARP_HW_ETHER : Nat := 1
/-- Modelled from the spec: `ARP_REQUEST`, the opcode of a request. -/
def ARP_REQUEST : Nat := 1
/-- Modelled from the spec: `ARP_REPLY`, the opcode of a reply. -/
def ARP_REPLY : Nat := 2
/-- Modelled from the spec: `NET_MAC_LEN`. -/
def NET_MAC_LEN : Nat := 6
/-- Modelled from the spec: `NET_IP_LEN`. -/
def NET_IP_LEN : Nat := 4

/-- Copy of a MAC address given by pointer, `memcpy(dst, mac, NET_MAC_LEN)`. -/
def memcpy_mac (dm : mem_t) (dst : Int) (mac : mac_t) : mem_t :=
  fun i => if i = dst + 5 then mac 5 else if i = dst + 4 then mac 4
    else if i = dst + 3 then mac 3 else if i = dst + 2 then mac 2
    else if i = dst + 1 then mac 1 else if i = dst then mac 0 else dm i

/-- The MAC address read through a pointer `uint8_t *` into a storage. -/
def load_mac (m : mem_t) (a : Int) : mac_t := fun k => m (a + k.val)

/-- What the link layer hands to its collaborators. -/
inductive LinkEvent where
  /-- The call `driver_send(buf)`: a frame handed to the driver. -/
  | driver_send (buf : buf_t)
  /-- The call `net_in(buf, protocol, src_mac)` of `ethernet_in`: a frame payload handed
  to the dispatch registry. -/
  | net_in (buf : buf_t) (protocol : Nat) (src_mac : mac_t)

/-- The globals that `ethernet.c` and `arp.c` use.  Modelled from the spec: the
time-bounded maps `arp_table` and `arp_buf` hold at most one value per key; entries
expire only through the map collaborator, between calls. -/
structure link_t where
  /-- The local address `net_if_ip`, which is also the `NET_IF_IP` of `arp_init_pkt`. -/
  net_if_ip : ip_t
  /-- The local address `net_if_mac`, which is also the `NET_IF_MAC` of `arp_init_pkt`. -/
  net_if_mac : mac_t
  /-- The map `arp_table`: the MAC address known for an IP address, if any. -/
  arp_table : ip_t → Option mac_t
  /-- The map `arp_buf`: the packet waiting for an IP address to resolve, if any. -/
  arp_buf : ip_t → Option buf_t
  /-- The transmit buffer `txbuf`. -/
  txbuf : buf_t
  /-- The calls made to collaborators so far, oldest first. -/
  trace : List LinkEvent

/-- Modelled from the spec: `map_set` of the time-bounded map (the value is copied). -/
def map_set {V : Type} (m : ip_t → Option V) (key : ip_t) (value : V) : ip_t → Option V :=
  fun k => if k = key then some value else m k

/-- Modelled from the spec: `map_delete` of the time-bounded map. -/
def map_delete {V : Type} (m : ip_t → Option V) (key : ip_t) : ip_t → Option V :=
  fun k => if k = key then none else m k

/-- The function `ethernet_out(buf, mac, protocol)`; the result is the new state together
with the buffer as the function leaves it.  The header is `ether_hdr_t`: `dst`, `src`,
`protocol16`. -/
def ethernet_out (s : link_t) (buf : buf_t) (mac : mac_t) (protocol : Nat) : link_t × buf_t :=
  -- Step1
  let buf := if buf.len < ETHERNET_MIN_TRANSPORT_UNIT then
      buf_add_padding buf (ETHERNET_MIN_TRANSPORT_UNIT - buf.len)
    else buf
  -- Step2
  let buf := buf_add_header buf sizeof_ether_hdr_t
  let hdr := buf.data
  -- Step3
  let buf := { buf with payload := memcpy_mac buf.payload hdr mac }
  -- Step4
  let buf := { buf with payload := memcpy_mac buf.payload (hdr + 6) s.net_if_mac }
  -- Step5
  let buf := { buf with payload := store16 buf.payload (hdr + 12) (swap16 protocol) }
  -- Step6
  ({ s with trace := s.trace ++ [LinkEvent.driver_send buf] }, buf)

/-- The function `ethernet_in(buf)`; the result is the new state together with the buffer
as the function leaves it.  The call of the dispatch registry is recorded in the trace. -/
def ethernet_in (s : link_t) (buf : buf_t) : link_t × buf_t :=
  -- Step1
  if buf.len < sizeof_ether_hdr_t then (s, buf)
  else
    let hdr := buf.data
    let protocol := swap16 (load16 buf.payload (hdr + 12))
    let src_mac := load_mac buf.payload (hdr + 6)
    -- Step2
    let buf := buf_remove_header buf sizeof_ether_hdr_t
    -- Step3
    ({ s with trace := s.trace ++ [LinkEvent.net_in buf protocol src_mac] }, buf)

/-- The constant `arp_init_pkt` as a storage of 28 bytes from address 0 on: hardware type
Ethernet and protocol type IPv4 in network byte order, the two lengths, opcode 0, the
local MAC and IP address as sender, and zero target fields. -/
def arp_init_pkt (s : link_t) : mem_t :=
  let pkt : mem_t := fun _ => 0
  let pkt := store16 pkt 0 (swap16 ARP_HW_ETHER)
  let pkt := store16 pkt 2 (swap16 NET_PROTOCOL_IP)
  let pkt := store8 pkt 4 NET_MAC_LEN
  let pkt := store8 pkt 5 NET_IP_LEN
  let pkt := memcpy_mac pkt 8 s.net_if_mac
  memcpy_ip pkt 14 s.net_if_ip

/-- The function `arp_req(target_ip)`. -/
def arp_req (s : link_t) (target_ip : ip_t) : link_t :=
  -- Step1
  let txbuf := buf_init s.txbuf 0
  let txbuf := buf_add_header txbuf sizeof_arp_pkt_t
  -- Step2
  let pkt := txbuf.data
  let txbuf := { txbuf with
    payload := memcpy txbuf.payload pkt (arp_init_pkt s) 0 sizeof_arp_pkt_t }
  let txbuf := { txbuf with payload := store16 txbuf.payload (pkt + 6) (swap16 ARP_REQUEST) }
  let txbuf := { txbuf with payload := memcpy_ip txbuf.payload (pkt + 24) target_ip }
  let txbuf := { txbuf with payload := memset0 txbuf.payload (pkt + 18) NET_MAC_LEN }
  -- Step3
  let broadcast_mac : mac_t := fun _ => 255
  let r := ethernet_out { s with txbuf := txbuf } txbuf broadcast_mac NET_PROTOCOL_ARP
  { r.1 with txbuf := r.2 }

/-- The function `arp_resp(target_ip, target_mac)`. -/
def arp_resp (s : link_t) (target_ip : ip_t) (target_mac : mac_t) : link_t :=
  -- Step1
  let txbuf := buf_init s.txbuf 0
  let txbuf := buf_add_header txbuf sizeof_arp_pkt_t
  -- Step2
  let pkt := txbuf.data
  let txbuf := { txbuf with
    payload := memcpy txbuf.payload pkt (arp_init_pkt s) 0 sizeof_arp_pkt_t }
  let txbuf := { txbuf with payload := store16 txbuf.payload (pkt + 6) (swap16 ARP_REPLY) }
  let txbuf := { txbuf with payload := memcpy_ip txbuf.payload (pkt + 24) target_ip }
  let txbuf := { txbuf with payload := memcpy_mac txbuf.payload (pkt + 18) target_mac }
  -- Step3
  let r := ethernet_out { s with txbuf := txbuf } txbuf target_mac NET_PROTOCOL_ARP
  { r.1 with txbuf := r.2 }

/-- The function `arp_in(buf, src_mac)` (`src_mac` is not used).  The packet is
`arp_pkt_t`: `hw_type16`, `pro_type16`, `hw_len`, `pro_len`, `opcode16`, `sender_mac`,
`sender_ip`, `target_mac`, `target_ip`. -/
def arp_in (s : link_t) (buf : buf_t) : link_t :=
  -- Step1
  if buf.len < sizeof_arp_pkt_t then s
  else
    let pkt := buf.data
    let opcode := swap16 (load16 buf.payload (pkt + 6))
    -- Step2
    if swap16 (load16 buf.payload pkt) ≠ ARP_HW_ETHER
        ∨ swap16 (load16 buf.payload (pkt + 2)) ≠ NET_PROTOCOL_IP
        ∨ load8 buf.payload (pkt + 4) ≠ NET_MAC_LEN
        ∨ load8 buf.payload (pkt + 5) ≠ NET_IP_LEN
        ∨ (opcode ≠ ARP_REQUEST ∧ opcode ≠ ARP_REPLY) then s
    else
      let sender_mac := load_mac buf.payload (pkt + 8)
      let sender_ip := load_ip buf.payload (pkt + 14)
      -- Step3
      let s := { s with arp_table := map_set s.arp_table sender_ip sender_mac }
      -- Step4
      match s.arp_buf sender_ip with
      | some pending =>
        let r := ethernet_out s pending sender_mac NET_PROTOCOL_IP
        { r.1 with arp_buf := map_delete r.1.arp_buf sender_ip }
      | none =>
        if opcode = ARP_REQUEST ∧ load_ip buf.payload (pkt + 24) = s.net_if_ip then
          arp_resp s sender_ip sender_mac
        else s

/-- The function `arp_out(buf, ip)`. -/
def arp_out (s : link_t) (buf : buf_t) (ip : ip_t) : link_t :=
  -- Step1
  match s.arp_table ip with
  | some mac => (ethernet_out s buf mac NET_PROTOCOL_IP).1
  | none =>
    -- Step2
    match s.arp_buf ip with
    | some _ => s
    | none =>
      -- Step3
      arp_req { s with arp_buf := map_set s.arp_buf ip buf } ip

/-- The bytes of a MAC address. -/
def mac_bytes (mac : mac_t) : List Nat :=
  [(mac 0).val, (mac 1).val, (mac 2).val, (mac 3).val, (mac 4).val, (mac 5).val]

/-- The bytes of an IP address. -/
def ip_bytes (ip : ip_t) : List Nat := [(ip 0).val, (ip 1).val, (ip 2).val, (ip 3).val]

/-- Reference (spec §3): the Ethernet frame carrying `payload`: destination MAC, source
MAC, the protocol type in network byte order, the payload, and zero bytes up to a payload
of 46 bytes. -/
def ether_frame (dst src : mac_t) (protocol : Nat) (payload : List Nat) : List Nat :=
  mac_bytes dst ++ mac_bytes src ++ [protocol / 256, protocol % 256] ++ payload
    ++ List.replicate (46 - payload.length) 0

/-- Reference (spec §3): the 28 bytes of an ARP packet for Ethernet and IPv4 with the
given opcode. -/
def arp_packet (opcode : Nat) (sender_mac : mac_t) (sender_ip : ip_t) (target_mac : mac_t)
    (target_ip : ip_t) : List Nat :=
  [0, 1, 8, 0, 6, 4, opcode / 256, opcode % 256] ++ mac_bytes sender_mac ++ ip_bytes sender_ip
    ++ mac_bytes target_mac ++ ip_bytes target_ip

/-- The frames handed to the driver in a trace, oldest first. -/
def frames : List LinkEvent → List (List Nat)
  | [] => []
  | LinkEvent.driver_send buf :: t => buf.bytes :: frames t
  | LinkEvent.net_in _ _ _ :: t => frames t

/-- The frame payloads handed to the dispatch registry in a trace, oldest first: the
bytes, the protocol number and the source MAC address. -/
def link_dispatched : List LinkEvent → List (List Nat × Nat × mac_t)
  | [] => []
  | LinkEvent.driver_send _ :: t => link_dispatched t
  | LinkEvent.net_in buf protocol src_mac :: t =>
    (buf.bytes, protocol, src_mac) :: link_dispatched t

/-- A link-layer state used in examples: local address 192.168.1.2 with MAC
02:00:00:00:00:02, empty ARP table and pending cache, zeroed `txbuf`, empty trace. -/
def example_link : link_t :=
  ⟨![192, 168, 1, 2], ![2, 0, 0, 0, 0, 2], fun _ => none, fun _ => none,
    ⟨0, 0, fun _ => 0⟩, []⟩

/-! ## The sending path with the layers linked: buffers passed by reference

Above, a `buf_t *` argument is the value of the buffer at the call, and the call of
`arp_out` at the end of `ip_fragment_out` is an event.  That describes a function up to
its hand-over.  `ip_out` goes on reading `*buf` after `ip_fragment_out` has returned, and
`arp_out` calls `arp_req`, which writes the global `txbuf`; so below the argument is a
pointer and `arp_out` is the function of arp.c. -/

/-- The object that a `buf_t *` argument points to. -/
inductive buf_ptr where
  /-- The global `txbuf`: the argument `&txbuf` of the calls of `ip_out` in icmp.c and of
  `udp_out` in udp.c. -/
  | txbuf
  /-- An object of its own, such as the automatic `frag_buf` and `last_frag` of `ip_out`,
  reached only through the pointer; its value after a call is not kept. -/
  | object (buf : buf_t)

/-- The value `*buf` of the object behind a pointer. -/
def buf_ptr.get (buf : buf_ptr) (s : link_t) : buf_t :=
  match buf with
  | buf_ptr.txbuf => s.txbuf
  | buf_ptr.object b => b

/-- The assignment `*buf = b`: the globals afterwards and the pointer. -/
def buf_ptr.put (buf : buf_ptr) (s : link_t) (b : buf_t) : link_t × buf_ptr :=
  match buf with
  | buf_ptr.txbuf => ({ s with txbuf := b }, buf_ptr.txbuf)
  | buf_ptr.object _ => (s, buf_ptr.object b)

/-- The function `arp_out(buf, ip)` with `buf` a pointer: `ethernet_out` writes the frame
into `*buf`, and `map_set` copies `*buf`. -/
def ByRef.arp_out (s : link_t) (buf : buf_ptr) (ip : ip_t) : link_t :=
  -- Step1
  match s.arp_table ip with
  | some mac =>
    let r := ethernet_out s (buf.get s) mac NET_PROTOCOL_IP
    (buf.put r.1 r.2).1
  | none =>
    -- Step2
    match s.arp_buf ip with
    | some _ => s
    | none =>
      -- Step3
      arp_req { s with arp_buf := map_set s.arp_buf ip (buf.get s) } ip

/-- The globals of the sending path. -/
structure stack_t where
  /-- The globals of the link layer, `txbuf` and `net_if_ip` among them. -/
  link : link_t
  /-- The `static int fragment_id` of `ip_out`. -/
  fragment_id : Nat
  /-- The storage of the automatic `buf_t` objects of `ip_out` before `buf_init`. -/
  frag_buf : buf_t
  /-- The calls `arp_out(buf, ip)` made so far, oldest first, each with the value of
  `*buf` at the call. -/
  handed : List Event

/-- The function `ip_fragment_out(buf, ip, protocol, id, offset, mf)` with `buf` a pointer
and the call of `arp_out` carried out.  The header is written into `*buf` as in
`ip_fragment_out` above. -/
def ByRef.ip_fragment_out (st : stack_t) (buf : buf_ptr) (ip : ip_t) (protocol : Nat)
    (id : Nat) (offset : Nat) (mf : Nat) : stack_t :=
  let offset := offset % 65536
  -- Step1
  let b := buf_add_header (buf.get st.link) sizeof_ip_hdr_t
  -- Step2
  let ip_hdr := b.data
  let total_len := b.len % 65536
  let ihl := (sizeof_ip_hdr_t / 4) % 256
  let b := { b with
    payload := store8 b.payload ip_hdr (load8 b.payload ip_hdr % 16 + 16 * (4 % 16)) }
  let b := { b with
    payload := store8 b.payload ip_hdr (load8 b.payload ip_hdr / 16 * 16 + ihl % 16) }
  let b := { b with payload := store8 b.payload (ip_hdr + 1) 0 }
  let b := { b with payload := store16 b.payload (ip_hdr + 2) (swap16 total_len) }
  let b := { b with payload := store16 b.payload (ip_hdr + 4) (swap16 id) }
  let flags_fragment := (if mf ≠ 0 then IP_MORE_FRAGMENT else 0) ||| (offset >>> 3)
  let b := { b with payload := store16 b.payload (ip_hdr + 6) (swap16 flags_fragment) }
  let b := { b with payload := store8 b.payload (ip_hdr + 8) 64 }
  let b := { b with payload := store8 b.payload (ip_hdr + 9) protocol }
  let b := { b with payload := store16 b.payload (ip_hdr + 10) 0 }
  let b := { b with payload := memcpy_ip b.payload (ip_hdr + 12) st.link.net_if_ip }
  let b := { b with payload := memcpy_ip b.payload (ip_hdr + 16) ip }
  -- Step3
  let b := { b with
    payload := store16 b.payload (ip_hdr + 10) (checksum16 b.payload ip_hdr (ihl * 4)) }
  let w := buf.put st.link b
  -- Step4
  { st with link := ByRef.arp_out w.1 w.2 ip, handed := st.handed ++ [Event.arp_out b ip] }

/-- The loop `while (remaining > fragment_payload_len)` of `ip_out` followed by the
sending of the last fragment, with `buf` a pointer: `buf->data` and the bytes behind it
are read in every iteration, after the calls made before.  The first argument bounds the
number of iterations. -/
def ByRef.ip_out_loop (buf : buf_ptr) (ip : ip_t) (protocol id fragment_payload_len : Nat) :
    Nat → stack_t → Nat → Nat → stack_t
  | 0, st, _, _ => st
  | fuel + 1, st, offset, remaining =>
    if remaining > fragment_payload_len then
      let frag_buf := buf_init st.frag_buf fragment_payload_len
      let frag_buf := { frag_buf with
        payload := memcpy frag_buf.payload frag_buf.data (buf.get st.link).payload
          ((buf.get st.link).data + offset) fragment_payload_len }
      let st := ByRef.ip_fragment_out st (buf_ptr.object frag_buf) ip protocol id offset 1
      ByRef.ip_out_loop buf ip protocol id fragment_payload_len fuel st
        (offset + fragment_payload_len) (remaining - fragment_payload_len)
    else
      let last_frag := buf_init st.frag_buf remaining
      let last_frag := { last_frag with
        payload := memcpy last_frag.payload last_frag.data (buf.get st.link).payload
          ((buf.get st.link).data + offset) remaining }
      ByRef.ip_fragment_out st (buf_ptr.object last_frag) ip protocol id offset 0

/-- The function `ip_out(buf, ip, protocol)` with `buf` a pointer; `buf->len` is read
once, into `remaining`. -/
def ByRef.ip_out (st : stack_t) (buf : buf_ptr) (ip : ip_t) (protocol : Nat) : stack_t :=
  let ip_header_len := sizeof_ip_hdr_t
  let max_total_len := ETHERNET_MAX_TRANSPORT_UNIT
  let max_payload_len := max_total_len - ip_header_len
  if (buf.get st.link).len > max_payload_len then
    let id := st.fragment_id
    let remaining := (buf.get st.link).len
    let st := { st with fragment_id := st.fragment_id + 1 }
    let fragment_payload_len := max_payload_len / 8 * 8
    ByRef.ip_out_loop buf ip protocol id fragment_payload_len (remaining + 1) st 0 remaining
  else
    ByRef.ip_fragment_out st buf ip protocol 0 0 0

/-- The globals of the IP layer that correspond to those of the sending path: the same
local address, `fragment_id`, `txbuf` and storage of automatic objects, and as trace the
calls of `arp_out`; no UDP port is open. -/
def stack_t.net (st : stack_t) : net_t :=
  ⟨st.link.net_if_ip, fun _ => none, st.fragment_id, st.link.txbuf, st.frag_buf, st.handed⟩

/-- A payload of 3000 bytes in `txbuf`, byte `i` being `i mod 251`, as a caller of
`ip_out` leaves it: the window starts at address 0. -/
def example_payload : buf_t := ⟨3000, 0, fun i => u8 (i.toNat % 251)⟩

/-- The sending path in an example: the link layer of `example_link` (local address
192.168.1.2, empty ARP table, nothing pending) with `example_payload` in `txbuf`. -/
def example_stack : stack_t :=
  ⟨{ example_link with txbuf := example_payload }, 0, ⟨0, 0, fun _ => 0⟩, []⟩

/-- The same with 10.0.0.1 resolved to 02:00:00:00:00:01 in the ARP table. -/
def example_stack_resolved : stack_t :=
  ⟨{ example_link with
      txbuf := example_payload,
      arp_table := map_set example_link.arp_table ![10, 0, 0, 1] ![2, 0, 0, 0, 0, 1] },
    0, ⟨0, 0, fun _ => 0⟩, []⟩

/-! ## Lemmas and theorems -/

@[simp] theorem u8_val (n : Nat) : (u8 n).val = n % 256 := rfl

theorem bytes_length (m : mem_t) (a : Int) (n : Nat) : (bytes m a n).length = n := by
  simp [bytes]

theorem bytes_zero (m : mem_t) (a : Int) : bytes m a 0 = [] := rfl

theorem bytes_succ (m : mem_t) (a : Int) (n : Nat) :
    bytes m a (n + 1) = (m a).val :: bytes m (a + 1) n := by
  simp only [bytes, List.range_succ_eq_map, List.map_cons, List.map_map]
  refine congrArg₂ _ (by simp) (List.map_congr_left fun k _ => ?_)
  simp only [Function.comp, Nat.succ_eq_add_one, Nat.cast_add, Nat.cast_one]
  congr 2
  omega

theorem checksum16_fold_eq (fuel : Nat) : ∀ s, s ≤ fuel → s < 4294967296 →
    checksum16_fold fuel s = ones_fold s := by
  induction fuel with
  | zero => intro s h _; have : s = 0 := by omega
            subst this; rfl
  | succ f ih =>
    intro s h hs
    unfold checksum16_fold
    split
    · rename_i hc
      have h1 : (s / 65536 + s % 65536) % 4294967296 = s / 65536 + s % 65536 := by omega
      rw [h1, ih _ (by omega) (by omega)]
      unfold ones_fold
      split <;> split <;> omega
    · rename_i hc
      unfold ones_fold
      split <;> omega

theorem rfc1071_fold_eq (fuel : Nat) : ∀ s, s ≤ fuel → rfc1071_fold fuel s = ones_fold s := by
  induction fuel with
  | zero => intro s h; have : s = 0 := by omega
            subst this; rfl
  | succ f ih =>
    intro s h
    unfold rfc1071_fold
    split
    · rw [ih _ (by omega)]
      unfold ones_fold
      split <;> split <;> omega
    · unfold ones_fold
      split <;> omega

theorem ones_fold_le (s : Nat) : ones_fold s ≤ 65535 := by
  unfold ones_fold; split <;> omega

theorem checksum16_sum_eq (m : mem_t) (n : Nat) : ∀ (a : Int) (s : Nat),
    checksum16_sum m n a (s % 4294967296) = (s + word_sum m n a) % 4294967296 := by
  induction n using Nat.strong_induction_on with
  | _ n ih =>
    intro a s
    match n with
    | 0 => simp [checksum16_sum, word_sum]
    | 1 => simp only [checksum16_sum, word_sum]; omega
    | k + 2 =>
      simp only [checksum16_sum, word_sum]
      rw [ih k (by omega) (a + 2) (s % 4294967296 + load16 m a)]
      omega

theorem load16_lt (m : mem_t) (a : Int) : load16 m a < 65536 := by
  unfold load16; have := (m a).isLt; have := (m (a + 1)).isLt; omega

theorem load8_lt (m : mem_t) (a : Int) : load8 m a < 256 := (m a).isLt

theorem word_sum_le (m : mem_t) (n : Nat) : ∀ a : Int,
    word_sum m n a ≤ 65535 * (n / 2) + 255 * (n % 2) := by
  induction n using Nat.strong_induction_on with
  | _ n ih =>
    intro a
    match n with
    | 0 => simp [word_sum]
    | 1 => have := load8_lt m a; simp only [word_sum]; omega
    | k + 2 =>
      have := load16_lt m a
      have := ih k (by omega) (a + 2)
      simp only [word_sum]
      omega

theorem word_sum_lt (m : mem_t) (n : Nat) (a : Int) (h : n ≤ 65535) :
    word_sum m n a < 4294967296 := by
  have := word_sum_le m n a
  omega

theorem checksum16_eq (m : mem_t) (a : Int) (n : Nat) (h : n ≤ 65535) :
    checksum16 m a n = 65535 - ones_fold (word_sum m n a) := by
  have h1 : checksum16_sum m n a 0 = word_sum m n a := by
    have := checksum16_sum_eq m n a 0
    have := word_sum_lt m n a h
    simp only [Nat.zero_mod, Nat.zero_add] at *
    omega
  have h2 := word_sum_lt m n a h
  unfold checksum16
  simp only [h1]
  rw [checksum16_fold_eq _ _ (le_refl _) h2]
  have := ones_fold_le (word_sum m n a)
  omega


theorem store8_apply (m : mem_t) (a : Int) (v : Nat) (i : Int) :
    store8 m a v i = if i = a then u8 v else m i := rfl

theorem store16_apply (m : mem_t) (a : Int) (v : Nat) (i : Int) :
    store16 m a v i = if i = a + 1 then u8 (v / 256) else if i = a then u8 v else m i := rfl

theorem store16_of_ne (m : mem_t) (a : Int) (v : Nat) (i : Int) (h1 : i ≠ a) (h2 : i ≠ a + 1) :
    store16 m a v i = m i := by
  simp [store16_apply, h1, h2]

theorem load16_store16 (m : mem_t) (a : Int) (v : Nat) :
    load16 (store16 m a v) a = v % 65536 := by
  simp only [load16, store16_apply]
  simp only [if_true, show ¬ (a = a + 1) by omega, if_false, u8_val]
  omega

theorem word_sum_congr (m1 m2 : mem_t) (n : Nat) : ∀ (a1 a2 : Int),
    (∀ k : Nat, k < n → m1 (a1 + k) = m2 (a2 + k)) → word_sum m1 n a1 = word_sum m2 n a2 := by
  induction n using Nat.strong_induction_on with
  | _ n ih =>
    intro a1 a2 h
    match n with
    | 0 => rfl
    | 1 =>
      have h0 := h 0 (by omega)
      simp only [Nat.cast_zero, add_zero] at h0
      simp only [word_sum, load8, h0]
    | j + 2 =>
      have h0 := h 0 (by omega)
      have h1 := h 1 (by omega)
      simp only [Nat.cast_zero, add_zero, Nat.cast_one] at h0 h1
      have hr := ih j (by omega) (a1 + 2) (a2 + 2) (fun k hk => by
        have := h (k + 2) (by omega)
        simp only [Nat.cast_add, Nat.cast_ofNat] at this
        rw [show a1 + 2 + (k : Int) = a1 + ((k : Int) + 2) by omega,
          show a2 + 2 + (k : Int) = a2 + ((k : Int) + 2) by omega]
        exact this)
      simp only [word_sum, load16, h0, h1, hr]

theorem word_sum_store16 (m : mem_t) (v : Nat) (n : Nat) : ∀ (a : Int) (k : Nat),
    2 * k + 2 ≤ n →
    word_sum (store16 m (a + 2 * k) v) n a + load16 m (a + 2 * k)
      = word_sum m n a + v % 65536 := by
  induction n using Nat.strong_induction_on with
  | _ n ih =>
    intro a k hk
    match n with
    | 0 => omega
    | 1 => omega
    | j + 2 =>
      match k with
      | 0 =>
        simp only [Nat.cast_zero, mul_zero, add_zero, word_sum]
        rw [load16_store16]
        have : word_sum (store16 m a v) j (a + 2) = word_sum m j (a + 2) :=
          word_sum_congr _ _ j _ _ (fun i _ => store16_of_ne _ _ _ _ (by omega) (by omega))
        omega
      | i + 1 =>
        have := ih j (by omega) (a + 2) i (by omega)
        have e : a + 2 + 2 * (i : Int) = a + 2 * ((i + 1 : Nat) : Int) := by
          push_cast; omega
        rw [e] at this
        simp only [word_sum]
        have hl : load16 (store16 m (a + 2 * ((i + 1 : Nat) : Int)) v) a = load16 m a := by
          simp only [load16]
          rw [store16_of_ne _ _ _ _ (by push_cast; omega) (by push_cast; omega),
            store16_of_ne _ _ _ _ (by push_cast; omega) (by push_cast; omega)]
        rw [hl]
        omega

theorem ones_fold_complement (s : Nat) : ones_fold (s + (65535 - ones_fold s)) = 65535 := by
  unfold ones_fold
  split <;> split <;> omega


/-- Storing the checksum of a region into a zero 2-byte field at an even offset makes the
checksum of the region zero. -/
theorem checksum16_store_checksum (m : mem_t) (data : Int) (len k : Nat)
    (hlen : len ≤ 65535) (hk : 2 * k + 2 ≤ len) (hz : load16 m (data + 2 * k) = 0) :
    checksum16 (store16 m (data + 2 * k) (checksum16 m data len)) data len = 0 := by
  have h0 := checksum16_eq m data len hlen
  have hs := word_sum_store16 m (checksum16 m data len) len data k hk
  rw [hz] at hs
  rw [checksum16_eq _ data len hlen]
  have hf := ones_fold_le (word_sum m len data)
  have hc := ones_fold_complement (word_sum m len data)
  have e : word_sum (store16 m (data + 2 * k) (checksum16 m data len)) len data
      = word_sum m len data + (65535 - ones_fold (word_sum m len data)) := by
    rw [h0] at hs ⊢
    omega
  rw [e, hc]

/-- C1: checksum round trip.  For every storage, every region of `len ≤ 65535` bytes
(even or odd) and every 2-byte field at an even offset `2 * k` inside the region: zero
the field, compute `checksum16` over the region, store the result into the field in
host order, and `checksum16` over the region is `0x0000`. -/
theorem checksum16_round_trip (m : mem_t) (data : Int) (len k : Nat)
    (hlen : len ≤ 65535) (hk : 2 * k + 2 ≤ len) :
    checksum16
      (store16 (store16 m (data + 2 * k) 0) (data + 2 * k)
        (checksum16 (store16 m (data + 2 * k) 0) data len)) data len = 0 := by
  have hz : load16 (store16 m (data + 2 * k) 0) (data + 2 * k) = 0 := by
    rw [load16_store16]
  exact checksum16_store_checksum (store16 m (data + 2 * k) 0) data len k hlen hk hz

/-- Witness of C1: an ICMP echo request of odd length 11 with its checksum field at
offset 2. -/
theorem checksum16_round_trip_witness :
    checksum16
      (store16 (store16 (ofList [8, 0, 1, 2, 0, 7, 0, 3, 97, 98, 99]) (0 + 2 * (1 : Nat)) 0)
        (0 + 2 * (1 : Nat))
        (checksum16 (store16 (ofList [8, 0, 1, 2, 0, 7, 0, 3, 97, 98, 99]) (0 + 2 * (1 : Nat)) 0)
          0 11)) 0 11 = 0 :=
  checksum16_round_trip _ 0 11 1 (by decide) (by decide)


theorem rfc1071_sum_bytes (m : mem_t) (n : Nat) : ∀ a : Int,
    rfc1071_sum (bytes m a n) % 65535 = (256 * word_sum m n a) % 65535
      ∧ (rfc1071_sum (bytes m a n) = 0 ↔ word_sum m n a = 0) := by
  induction n using Nat.strong_induction_on with
  | _ n ih =>
    intro a
    match n with
    | 0 => simp [bytes_zero, rfc1071_sum, word_sum]
    | 1 =>
      rw [show (1 : Nat) = 0 + 1 from rfl, bytes_succ, bytes_zero]
      simp only [rfc1071_sum, word_sum, load8]
      have := (m a).isLt
      refine ⟨trivial, ?_, ?_⟩ <;> intro h <;> omega
    | j + 2 =>
      obtain ⟨h1, h2⟩ := ih j (by omega) (a + 2)
      rw [bytes_succ, bytes_succ, show a + 1 + 1 = a + 2 by omega]
      simp only [rfc1071_sum, word_sum, load16]
      have := (m a).isLt
      have := (m (a + 1)).isLt
      omega

theorem swap_complement (w b : Nat) (h1 : b % 65535 = (256 * w) % 65535)
    (h2 : b = 0 ↔ w = 0) :
    (65535 - ones_fold w) % 256 = (65535 - ones_fold b) / 256
      ∧ (65535 - ones_fold w) / 256 = (65535 - ones_fold b) % 256 := by
  by_cases hw : w = 0
  · have hb : b = 0 := h2.mpr hw
    subst hw; subst hb
    decide
  · have hb : b ≠ 0 := fun h => hw (h2.mp h)
    have hf1 : 1 ≤ ones_fold w ∧ ones_fold w ≤ 65535
        ∧ ones_fold w % 65535 = w % 65535 := by
      unfold ones_fold; rw [if_neg hw]; omega
    have hg1 : 1 ≤ ones_fold b ∧ ones_fold b ≤ 65535
        ∧ ones_fold b % 65535 = b % 65535 := by
      unfold ones_fold; rw [if_neg hb]; omega
    generalize ones_fold w = f at hf1 ⊢
    generalize ones_fold b = g at hg1 ⊢
    have k1 : (256 * w) % 65535 = (256 * f) % 65535 := by
      rw [Nat.mul_mod 256 w, Nat.mul_mod 256 f, hf1.2.2]
    have k2 : (256 * f) % 65535 = (256 * (f % 256) + f / 256) % 65535 := by
      have : 256 * f = (256 * (f % 256) + f / 256) + 65535 * (f / 256) := by omega
      rw [this, Nat.add_mul_mod_self_left]
    have k3 : g % 65535 = (256 * (f % 256) + f / 256) % 65535 := by
      rw [hg1.2.2, h1, k1, k2]
    have k4 : g = 256 * (f % 256) + f / 256 := by
      obtain ⟨g1, g2, -⟩ := hg1
      obtain ⟨f1, f2, -⟩ := hf1
      clear k1 k2 h1 h2 hw hb
      omega
    obtain ⟨f1, f2, -⟩ := hf1
    clear k1 k2 k3 h1 h2 hw hb hg1
    subst k4
    obtain ⟨lo, hi, l1, l2, rfl⟩ : ∃ lo hi, lo < 256 ∧ hi < 256 ∧ f = lo + 256 * hi :=
      ⟨f % 256, f / 256, by omega, by omega, by omega⟩
    have e1 : (lo + 256 * hi) % 256 = lo := by omega
    have e2 : (lo + 256 * hi) / 256 = hi := by omega
    have e3 : 65535 - (lo + 256 * hi) = (255 - lo) + 256 * (255 - hi) := by omega
    have e4 : 65535 - (256 * lo + hi) = (255 - hi) + 256 * (255 - lo) := by omega
    rw [e1, e2, e3, e4]
    have x1 : 255 - lo < 256 := by omega
    have y1 : 255 - hi < 256 := by omega
    clear e1 e2 e3 e4 f1 f2 l1 l2
    generalize 255 - lo = x at x1 ⊢
    generalize 255 - hi = y at y1 ⊢
    have a1 : (x + 256 * y) % 256 = x := by omega
    have a2 : (x + 256 * y) / 256 = y := by omega
    have a3 : (y + 256 * x) % 256 = y := by omega
    have a4 : (y + 256 * x) / 256 = x := by omega
    rw [a1, a2, a3, a4]
    exact ⟨rfl, rfl⟩

/-- C2: `checksum16` reproduces the RFC 1071 checksum on the wire.  For every region of
`len ≤ 65535` bytes the exact sum of the words stays below `2^32`, so the 32-bit
accumulator holds it without wrapping, and the two bytes of the result stored in host
(little-endian) order are the big-endian encoding of the reference checksum of the
region's bytes. -/
theorem checksum16_is_rfc1071 (m : mem_t) (data : Int) (len : Nat) (hlen : len ≤ 65535) :
    word_sum m len data < 4294967296
      ∧ checksum16_sum m len data 0 = word_sum m len data
      ∧ [checksum16 m data len % 256, checksum16 m data len / 256]
          = [rfc1071 (bytes m data len) / 256, rfc1071 (bytes m data len) % 256] := by
  have hlt := word_sum_lt m len data hlen
  refine ⟨hlt, ?_, ?_⟩
  · have := checksum16_sum_eq m len data 0
    simp only [Nat.zero_mod, Nat.zero_add] at this
    omega
  · obtain ⟨h1, h2⟩ := rfc1071_sum_bytes m len data
    obtain ⟨h3, h4⟩ := swap_complement _ _ h1 h2
    rw [checksum16_eq m data len hlen]
    unfold rfc1071
    rw [rfc1071_fold_eq _ _ (le_refl _), h3, h4]

/-- Witness of C2: the three bytes `01 02 03`. -/
theorem checksum16_is_rfc1071_witness :
    3 ≤ 65535 ∧ (word_sum (ofList [1, 2, 3]) 3 0 < 4294967296
      ∧ checksum16_sum (ofList [1, 2, 3]) 3 0 0 = word_sum (ofList [1, 2, 3]) 3 0
      ∧ [checksum16 (ofList [1, 2, 3]) 0 3 % 256, checksum16 (ofList [1, 2, 3]) 0 3 / 256]
          = [rfc1071 (bytes (ofList [1, 2, 3]) 0 3) / 256,
              rfc1071 (bytes (ofList [1, 2, 3]) 0 3) % 256]) :=
  ⟨by decide, checksum16_is_rfc1071 _ 0 3 (by decide)⟩


theorem bytes_congr (m1 m2 : mem_t) (a1 a2 : Int) (n : Nat)
    (h : ∀ k : Nat, k < n → m1 (a1 + k) = m2 (a2 + k)) : bytes m1 a1 n = bytes m2 a2 n := by
  unfold bytes
  refine List.map_congr_left fun k hk => ?_
  rw [h k (List.mem_range.mp hk)]

theorem bytes_get (m : mem_t) (a : Int) (n k : Nat) (hk : k < n) :
    (bytes m a n).getD k 0 = (m (a + k)).val := by
  unfold bytes
  rw [List.getD_eq_getElem _ _ (by simpa using hk)]
  simp

theorem eq_of_bytes_eq (m1 m2 : mem_t) (a1 a2 : Int) (n : Nat)
    (h : bytes m1 a1 n = bytes m2 a2 n) (k : Nat) (hk : k < n) : m1 (a1 + k) = m2 (a2 + k) := by
  have := congrArg (fun l => l.getD k 0) h
  simp only [bytes_get _ _ _ _ hk] at this
  exact Fin.ext this

theorem bytes_append (m : mem_t) (a : Int) (p q : Nat) :
    bytes m a (p + q) = bytes m a p ++ bytes m (a + p) q := by
  induction p generalizing a with
  | zero => simp [bytes_zero]
  | succ p ih =>
    rw [show p + 1 + q = (p + q) + 1 by omega, bytes_succ, bytes_succ, ih]
    rw [show a + 1 + (p : Int) = a + ((p + 1 : Nat) : Int) by push_cast; omega]
    rfl

theorem bytes_lt (m : mem_t) (a : Int) (n : Nat) : ∀ x ∈ bytes m a n, x < 256 := by
  intro x hx
  unfold bytes at hx
  obtain ⟨k, -, rfl⟩ := List.mem_map.mp hx
  exact (m _).isLt

theorem ofList_cons (x : Nat) (l : List Nat) (k : Nat) :
    ofList (x :: l) (1 + k) = ofList l k := by
  simp only [ofList]
  rw [if_pos (by omega), if_pos (by omega)]
  have : ((1 : Int) + (k : Int)).toNat = k + 1 := by omega
  rw [this, Int.toNat_ofNat, List.getD_cons_succ]

theorem bytes_ofList (l : List Nat) (h : ∀ x ∈ l, x < 256) :
    bytes (ofList l) 0 l.length = l := by
  induction l with
  | nil => rfl
  | cons x l ih =>
    rw [List.length_cons, bytes_succ]
    have h0 : ((ofList (x :: l)) 0).val = x := by
      have := h x (List.mem_cons_self _ _)
      simp only [ofList, le_refl, if_true, Int.toNat_zero, List.getD_cons_zero, u8_val]
      omega
    rw [h0, show (0 : Int) + 1 = 1 from rfl]
    have := bytes_congr (ofList (x :: l)) (ofList l) 1 0 l.length (fun k _ => by
      rw [ofList_cons, zero_add])
    rw [this, ih (fun y hy => h y (List.mem_cons_of_mem _ hy))]

theorem word_sum_bytes (m1 m2 : mem_t) (a1 a2 : Int) (n : Nat)
    (h : bytes m1 a1 n = bytes m2 a2 n) : word_sum m1 n a1 = word_sum m2 n a2 :=
  word_sum_congr m1 m2 n a1 a2 (eq_of_bytes_eq m1 m2 a1 a2 n h)

theorem checksum16_bytes (m1 m2 : mem_t) (a1 a2 : Int) (n : Nat)
    (h : bytes m1 a1 n = bytes m2 a2 n) : checksum16 m1 a1 n = checksum16 m2 a2 n := by
  have e : checksum16_sum m1 n a1 0 = checksum16_sum m2 n a2 0 := by
    have h1 := checksum16_sum_eq m1 n a1 0
    have h2 := checksum16_sum_eq m2 n a2 0
    rw [word_sum_bytes m1 m2 a1 a2 n h] at h1
    simp only [Nat.zero_mod] at h1 h2
    rw [h1, h2]
  unfold checksum16
  simp only [e]

theorem memcpy_apply (dm : mem_t) (dst : Int) (sm : mem_t) (src : Int) (n : Nat) (i : Int) :
    memcpy dm dst sm src n i = if dst ≤ i ∧ i < dst + n then sm (src + (i - dst)) else dm i := rfl

theorem memset0_apply (dm : mem_t) (dst : Int) (n : Nat) (i : Int) :
    memset0 dm dst n i = if dst ≤ i ∧ i < dst + n then 0 else dm i := rfl

theorem memcpy_ip_apply (dm : mem_t) (dst : Int) (ip : ip_t) (i : Int) :
    memcpy_ip dm dst ip i = if i = dst + 3 then ip 3 else if i = dst + 2 then ip 2
      else if i = dst + 1 then ip 1 else if i = dst then ip 0 else dm i := rfl

theorem bytes_eq_of_forall (m : mem_t) (a : Int) (n : Nat) (l : List Nat) (hl : l.length = n)
    (h : ∀ k : Nat, k < n → (m (a + k)).val = l.getD k 0) : bytes m a n = l := by
  apply List.ext_getElem (by rw [bytes_length, hl])
  intro k h1 h2
  have hk : k < n := by rwa [bytes_length] at h1
  have e1 := bytes_get m a n k hk
  rw [List.getD_eq_getElem _ _ h1] at e1
  rw [e1, h k hk, List.getD_eq_getElem _ _ h2]

theorem store8_of_ne (m : mem_t) (a : Int) (v : Nat) (i : Int) (h : i ≠ a) :
    store8 m a v i = m i := by
  simp [store8_apply, h]

theorem memcpy_ip_of_not (dm : mem_t) (dst : Int) (ip : ip_t) (i : Int)
    (h : i < dst ∨ dst + 4 ≤ i) : memcpy_ip dm dst ip i = dm i := by
  simp only [memcpy_ip_apply]
  rw [if_neg (by omega), if_neg (by omega), if_neg (by omega), if_neg (by omega)]

theorem memcpy_of_not (dm : mem_t) (dst : Int) (sm : mem_t) (src : Int) (n : Nat) (i : Int)
    (h : i < dst ∨ dst + n ≤ i) : memcpy dm dst sm src n i = dm i := by
  rw [memcpy_apply, if_neg (by omega)]

theorem memcpy_of_mem (dm : mem_t) (dst : Int) (sm : mem_t) (src : Int) (n : Nat) (k : Nat)
    (h : k < n) : memcpy dm dst sm src n (dst + k) = sm (src + k) := by
  rw [memcpy_apply, if_pos (by omega)]
  congr 1
  omega

theorem memset0_of_not (dm : mem_t) (dst : Int) (n : Nat) (i : Int)
    (h : i < dst ∨ dst + n ≤ i) : memset0 dm dst n i = dm i := by
  rw [memset0_apply, if_neg (by omega)]

/-- The storage that `transport_checksum` leaves: the saved 12 bytes are copied back over
the pseudo-header, so every byte of `p` is back. -/
theorem pseudo_header_restore (p : mem_t) (ph : Int) (src_ip dst_ip : ip_t) (protocol n : Nat)
    (i : Int) :
    memcpy
      (store16 (store8 (store8 (memcpy_ip (memcpy_ip p ph src_ip) (ph + 4) dst_ip)
        (ph + 8) 0) (ph + 9) protocol) (ph + 10) n)
      ph (memcpy (fun _ => 0) 0 p ph 12) 0 12 i = p i := by
  by_cases h : ph ≤ i ∧ i < ph + 12
  · rw [memcpy_apply, if_pos (by omega), memcpy_apply, if_pos (by omega)]
    congr 1
    omega
  · rw [memcpy_of_not _ _ _ _ _ _ (by omega), store16_of_ne _ _ _ _ (by omega) (by omega),
      store8_of_ne _ _ _ _ (by omega), store8_of_ne _ _ _ _ (by omega),
      memcpy_ip_of_not _ _ _ _ (by omega), memcpy_ip_of_not _ _ _ _ (by omega)]

theorem transport_checksum_buf (protocol : Nat) (buf : buf_t) (src_ip dst_ip : ip_t) :
    (transport_checksum protocol buf src_ip dst_ip).2.len = buf.len
    ∧ (transport_checksum protocol buf src_ip dst_ip).2.data = buf.data
    ∧ ∀ i : Int, i ≠ buf.data + buf.len →
        (transport_checksum protocol buf src_ip dst_ip).2.payload i = buf.payload i := by
  by_cases hp : buf.len % 2 = 0
  · simp only [transport_checksum, hp, ne_eq, not_true_eq_false, if_false, buf_add_header,
      buf_remove_header, sizeof_peso_hdr_t, show ¬ (buf.len + 12 < 12) by omega]
    refine ⟨by omega, by push_cast; omega, fun i _ => ?_⟩
    exact pseudo_header_restore _ _ _ _ _ _ i
  · simp only [transport_checksum, hp, ne_eq, not_false_eq_true, if_true, if_false,
      buf_add_header, buf_remove_header, buf_add_padding, buf_remove_padding,
      sizeof_peso_hdr_t, show ¬ (buf.len + 1 + 12 < 12) by omega, one_ne_zero,
      show ¬ (buf.len + 1 + 12 - 12 < 1) by omega]
    refine ⟨by omega, by push_cast; omega, fun i hi => ?_⟩
    rw [pseudo_header_restore, memset0_of_not _ _ _ _ (by omega)]

/-- C3: `transport_checksum` is side-effect free on the buffer.  For every buffer (of
even or odd length), protocol and pair of addresses, the buffer that `transport_checksum`
leaves has the same length, the same window position and the same segment bytes, and the
12 bytes in front of the segment, which the pseudo-header overwrote, hold their original
values; indeed every byte of the storage other than the one just past the segment (where
the padding byte of an odd segment is written) is unchanged. -/
theorem transport_checksum_side_effect_free (protocol : Nat) (buf : buf_t)
    (src_ip dst_ip : ip_t) :
    (transport_checksum protocol buf src_ip dst_ip).2.len = buf.len
    ∧ (transport_checksum protocol buf src_ip dst_ip).2.data = buf.data
    ∧ (transport_checksum protocol buf src_ip dst_ip).2.bytes = buf.bytes
    ∧ bytes (transport_checksum protocol buf src_ip dst_ip).2.payload (buf.data - 12) 12
        = bytes buf.payload (buf.data - 12) 12
    ∧ ∀ i : Int, i ≠ buf.data + buf.len →
        (transport_checksum protocol buf src_ip dst_ip).2.payload i = buf.payload i := by
  obtain ⟨h1, h2, h3⟩ := transport_checksum_buf protocol buf src_ip dst_ip
  refine ⟨h1, h2, ?_, ?_, h3⟩
  · unfold buf_t.bytes
    rw [h1, h2]
    exact bytes_congr _ _ _ _ _ (fun k hk => h3 _ (by omega))
  · exact bytes_congr _ _ _ _ _ (fun k hk => h3 _ (by omega))

theorem swap16_lo (n : Nat) : swap16 n % 256 = n / 256 % 256 := by
  unfold swap16; omega

theorem swap16_hi (n : Nat) : swap16 n / 256 % 256 = n % 256 := by
  unfold swap16
  have h1 : (n % 256 * 256 + n / 256 % 256) / 256 = n % 256 := by omega
  rw [h1]
  omega

theorem swap16_lt (n : Nat) : swap16 n < 65536 := by
  unfold swap16; omega

theorem swap16_swap16 (n : Nat) (h : n < 65536) : swap16 (swap16 n) = n := by
  have h1 := swap16_lo n
  have h2 := swap16_hi n
  generalize swap16 n = y at h1 h2 ⊢
  unfold swap16
  omega

theorem pseudo_header_bytes (p : mem_t) (ph : Int) (src_ip dst_ip : ip_t) (protocol n q : Nat)
    (hp : protocol < 256) (hn : n ≤ 65535) :
    bytes (store16 (store8 (store8 (memcpy_ip (memcpy_ip p ph src_ip) (ph + 4) dst_ip)
        (ph + 8) 0) (ph + 9) protocol) (ph + 10) (swap16 n)) ph (12 + q)
      = pseudo_header src_ip dst_ip protocol n ++ bytes p (ph + 12) q := by
  rw [bytes_append]
  congr 1
  · apply bytes_eq_of_forall _ _ 12 (pseudo_header src_ip dst_ip protocol n) rfl
    intro k hk
    simp only [store16_apply, store8_apply, memcpy_ip_apply, pseudo_header]
    interval_cases k <;> simp [add_assoc, swap16_lo, swap16_hi] <;> omega
  · apply bytes_congr
    intro k _
    rw [store16_of_ne _ _ _ _ (by push_cast; omega) (by push_cast; omega),
      store8_of_ne _ _ _ _ (by push_cast; omega), store8_of_ne _ _ _ _ (by push_cast; omega),
      memcpy_ip_of_not _ _ _ _ (by push_cast; omega), memcpy_ip_of_not _ _ _ _ (by push_cast; omega)]
    simp only [Nat.cast_ofNat]

theorem pseudo_header_lt (src_ip dst_ip : ip_t) (protocol n : Nat) (hp : protocol < 256)
    (hn : n ≤ 65535) : ∀ x ∈ pseudo_header src_ip dst_ip protocol n, x < 256 := by
  intro x hx
  simp only [pseudo_header, List.mem_cons, List.mem_singleton, List.not_mem_nil, or_false] at hx
  have := (src_ip 0).isLt; have := (src_ip 1).isLt; have := (src_ip 2).isLt
  have := (src_ip 3).isLt; have := (dst_ip 0).isLt; have := (dst_ip 1).isLt
  have := (dst_ip 2).isLt; have := (dst_ip 3).isLt
  omega

theorem checksum16_of_bytes (m : mem_t) (a : Int) (n : Nat) (l : List Nat)
    (h : bytes m a n = l) : checksum16 m a n = checksum16 (ofList l) 0 n := by
  apply checksum16_bytes
  have hl : l.length = n := by rw [← h, bytes_length]
  have hlt : ∀ x ∈ l, x < 256 := by rw [← h]; exact bytes_lt m a n
  rw [h, ← hl, bytes_ofList l hlt]

/-- C4: `transport_checksum` equals the reference pseudo-header checksum.  For every
segment of `n ≤ 65535` bytes and every protocol number below 256, the result is
`checksum16` over the 12-byte pseudo-header (whose length field is `n`), followed by the
`n` segment bytes, followed by one zero byte when `n` is odd. -/
theorem transport_checksum_eq_reference (protocol : Nat) (buf : buf_t) (src_ip dst_ip : ip_t)
    (hp : protocol < 256) (hn : buf.len ≤ 65535) :
    (transport_checksum protocol buf src_ip dst_ip).1
      = checksum16
          (ofList (pseudo_header src_ip dst_ip protocol buf.len ++ buf.bytes
            ++ (if buf.len % 2 = 1 then [0] else [])))
          0 (12 + buf.len + buf.len % 2) := by
  by_cases hpar : buf.len % 2 = 0
  · have h1 : ¬ (buf.len % 2 = 1) := by omega
    rw [if_neg h1, List.append_nil, hpar, Nat.add_zero]
    simp only [transport_checksum, hpar, ne_eq, not_true_eq_false, if_false, buf_add_header,
      sizeof_peso_hdr_t, Nat.add_sub_cancel, Nat.sub_zero]
    rw [show buf.len + 12 = 12 + buf.len by omega]
    apply checksum16_of_bytes
    rw [pseudo_header_bytes _ _ _ _ _ _ _ hp hn]
    congr 1
    unfold buf_t.bytes
    apply bytes_congr
    intro k _
    congr 1
    push_cast
    omega
  · have h1 : buf.len % 2 = 1 := by omega
    rw [if_pos h1, h1]
    simp only [transport_checksum, hpar, ne_eq, not_false_eq_true, if_true, buf_add_header,
      buf_add_padding, sizeof_peso_hdr_t]
    rw [show buf.len + 1 + 12 - 12 - 1 = buf.len by omega,
      show buf.len + 1 + 12 = 12 + (buf.len + 1) by omega,
      show 12 + buf.len + 1 = 12 + (buf.len + 1) by omega]
    apply checksum16_of_bytes
    rw [pseudo_header_bytes _ _ _ _ _ _ _ hp hn, List.append_assoc]
    congr 1
    unfold buf_t.bytes
    rw [bytes_append]
    congr 1
    · apply bytes_congr
      intro k hk
      rw [memset0_of_not _ _ _ _ (by push_cast; omega)]
      congr 1
      push_cast
      omega
    · rw [show (1 : Nat) = 0 + 1 from rfl, bytes_succ, bytes_zero, memset0_apply,
        if_pos (by push_cast; omega)]
      rfl

/-- Witness of C4: the odd segment `01 02 03` of protocol 17 between 10.0.0.1 and
10.0.0.2. -/
theorem transport_checksum_eq_reference_witness :
    (transport_checksum 17 ⟨3, 0, ofList [1, 2, 3]⟩ ![10, 0, 0, 1] ![10, 0, 0, 2]).1
      = checksum16
          (ofList (pseudo_header ![10, 0, 0, 1] ![10, 0, 0, 2] 17 3
            ++ (⟨3, 0, ofList [1, 2, 3]⟩ : buf_t).bytes ++ (if 3 % 2 = 1 then [0] else [])))
          0 (12 + 3 + 3 % 2) :=
  transport_checksum_eq_reference 17 ⟨3, 0, ofList [1, 2, 3]⟩ ![10, 0, 0, 1] ![10, 0, 0, 2]
    (by decide) (by decide)

theorem sent_append (t1 t2 : List Event) : sent (t1 ++ t2) = sent t1 ++ sent t2 := by
  induction t1 with
  | nil => rfl
  | cons e t ih => cases e <;> simp [sent, ih]

theorem handled_append (t1 t2 : List Event) :
    handled (t1 ++ t2) = handled t1 ++ handled t2 := by
  induction t1 with
  | nil => rfl
  | cons e t ih => cases e <;> simp [handled, ih]

theorem load8_store8 (m : mem_t) (a : Int) (v : Nat) : load8 (store8 m a v) a = v % 256 := by
  simp [load8, store8_apply]

/-- The storage after step 2 of `ip_fragment_out`, before the checksum is stored. -/
theorem ip_header_bytes0 (p : mem_t) (h : Int) (src_ip dst_ip : ip_t)
    (total_len id ff protocol : Nat) (hp : protocol < 256) (ht : total_len < 65536)
    (hf : ff < 65536) :
    bytes
      (memcpy_ip (memcpy_ip (store16 (store8 (store8 (store16 (store16 (store16 (store8
        (store8 (store8 p h (load8 p h % 16 + 16 * (4 % 16)))
          h (load8 (store8 p h (load8 p h % 16 + 16 * (4 % 16))) h / 16 * 16 + 5 % 16))
        (h + 1) 0) (h + 2) (swap16 total_len)) (h + 4) (swap16 id)) (h + 6) (swap16 ff))
        (h + 8) 64) (h + 9) protocol) (h + 10) 0) (h + 12) src_ip) (h + 16) dst_ip) h 20
      = ip_header src_ip dst_ip total_len id ff protocol 0 := by
  apply bytes_eq_of_forall _ _ 20 (ip_header src_ip dst_ip total_len id ff protocol 0) rfl
  intro k hk
  rw [load8_store8]
  simp only [store16_apply, store8_apply, memcpy_ip_apply, ip_header]
  have := load8_lt p h
  interval_cases k <;> simp [add_assoc, swap16_lo, swap16_hi] <;> omega

theorem more_fragment_or (mf x : Nat) (hx : x < 8192) :
    ((if mf ≠ 0 then IP_MORE_FRAGMENT else 0) ||| x) = (if mf ≠ 0 then 8192 else 0) + x := by
  split
  · have h := Nat.mul_add_lt_is_or (show x < 2 ^ 13 by omega) 1
    simp only [Nat.mul_one] at h
    exact h.symm
  · simp

theorem checksum_field_bytes (m : mem_t) (h : Int) (c : Nat) (hc : c < 65536)
    (src_ip dst_ip : ip_t) (total_len id ff protocol : Nat)
    (hb : bytes m h 20 = ip_header src_ip dst_ip total_len id ff protocol 0) :
    bytes (store16 m (h + 10) c) h 20 = ip_header src_ip dst_ip total_len id ff protocol c := by
  apply bytes_eq_of_forall _ _ 20 (ip_header src_ip dst_ip total_len id ff protocol c) rfl
  intro k hk
  have hm : ∀ j : Nat, j < 20 →
      (m (h + j)).val = (ip_header src_ip dst_ip total_len id ff protocol 0).getD j 0 :=
    fun j hj => by rw [← hb, bytes_get _ _ _ _ hj]
  have e10 : (store16 m (h + 10) c (h + ((10 : Nat) : Int))).val = c % 256 := by
    simp [store16_apply]
  have e11 : (store16 m (h + 10) c (h + ((11 : Nat) : Int))).val = c / 256 := by
    simp [store16_apply, add_assoc]
    omega
  interval_cases k <;>
    first
    | exact e10
    | exact e11
    | (rw [store16_of_ne _ _ _ _ (by push_cast; omega) (by push_cast; omega), hm _ (by omega)]
       rfl)

theorem checksum16_lt (m : mem_t) (a : Int) (n : Nat) : checksum16 m a n < 65536 := by
  unfold checksum16
  exact Nat.mod_lt _ (by decide)

theorem ip_header_checksum_bytes (m : mem_t) (h : Int) (src_ip dst_ip : ip_t)
    (total_len id ff protocol : Nat)
    (hb : bytes m h 20 = ip_header src_ip dst_ip total_len id ff protocol 0) :
    bytes (store16 m (h + 10) (checksum16 m h 20)) h 20
      = ip_header src_ip dst_ip total_len id ff protocol
          (checksum16 (ofList (ip_header src_ip dst_ip total_len id ff protocol 0)) 0 20) := by
  rw [← checksum16_of_bytes _ _ _ _ hb]
  exact checksum_field_bytes _ _ _ (checksum16_lt _ _ _) _ _ _ _ _ _ hb

/-- What `ip_fragment_out` does: it hands one packet to the ARP resolver, the payload
preceded by the 20-byte header. -/
theorem ip_fragment_out_eq (s : net_t) (buf : buf_t) (ip : ip_t) (protocol id offset mf : Nat)
    (hp : protocol < 256) (hl : buf.len + 20 < 65536) (ho : offset < 65536) :
    ∃ pkt : buf_t,
      ip_fragment_out s buf ip protocol id offset mf
        = { s with trace := s.trace ++ [Event.arp_out pkt ip] }
      ∧ pkt.len = buf.len + 20 ∧ pkt.data = buf.data - 20
      ∧ pkt.bytes = ip_packet s.net_if_ip ip protocol id offset mf buf.bytes := by
  refine ⟨_, rfl, rfl, rfl, ?_⟩
  simp only [buf_add_header, sizeof_ip_hdr_t, buf_t.bytes, ip_packet, bytes_length]
  rw [Nat.mod_eq_of_lt ho, Nat.mod_eq_of_lt hl, show offset >>> 3 = offset / 8 from Nat.shiftRight_eq_div_pow offset 3,
    more_fragment_or _ _ (by omega), show buf.len + 20 = 20 + buf.len by omega, bytes_append]
  have hf : (if mf ≠ 0 then 8192 else 0) + offset / 8 < 65536 := by
    split <;> omega
  have h0 := ip_header_bytes0 buf.payload (buf.data - 20) s.net_if_ip ip (20 + buf.len) id
    ((if mf ≠ 0 then 8192 else 0) + offset / 8) protocol hp (by omega) hf
  congr 1
  · exact ip_header_checksum_bytes _ _ _ _ _ _ _ _ h0
  · apply bytes_congr
    intro k _
    rw [store16_of_ne _ _ _ _ (by push_cast; omega) (by push_cast; omega),
      memcpy_ip_of_not _ _ _ _ (by push_cast; omega),
      memcpy_ip_of_not _ _ _ _ (by push_cast; omega),
      store16_of_ne _ _ _ _ (by push_cast; omega) (by push_cast; omega),
      store8_of_ne _ _ _ _ (by push_cast; omega), store8_of_ne _ _ _ _ (by push_cast; omega),
      store16_of_ne _ _ _ _ (by push_cast; omega) (by push_cast; omega),
      store16_of_ne _ _ _ _ (by push_cast; omega) (by push_cast; omega),
      store16_of_ne _ _ _ _ (by push_cast; omega) (by push_cast; omega),
      store8_of_ne _ _ _ _ (by push_cast; omega), store8_of_ne _ _ _ _ (by push_cast; omega),
      store8_of_ne _ _ _ _ (by push_cast; omega)]
    congr 1
    push_cast
    omega


theorem bytes_drop_take (m : mem_t) (a : Int) (l o n : Nat) (h : o + n ≤ l) :
    ((bytes m a l).drop o).take n = bytes m (a + o) n := by
  have e1 : bytes m a l = bytes m a o ++ bytes m (a + o) (l - o) := by
    rw [← bytes_append]; congr 1; omega
  have e2 : bytes m (a + o) (l - o) = bytes m (a + o) n ++ bytes m (a + o + n) (l - o - n) := by
    rw [← bytes_append]; congr 1; omega
  rw [e1, List.drop_left' (bytes_length _ _ _), e2, List.take_left' (bytes_length _ _ _)]

theorem ip_out_frag_bytes (s : net_t) (buf : buf_t) (offset n : Nat)
    (h : offset + n ≤ buf.len) :
    (ip_out_frag s buf offset n).bytes = (buf.bytes.drop offset).take n := by
  unfold buf_t.bytes
  rw [bytes_drop_take _ _ _ _ _ h]
  simp only [ip_out_frag, buf_init]
  apply bytes_congr
  intro k hk
  rw [memcpy_of_mem _ _ _ _ _ _ hk]

theorem ip_out_frag_len (s : net_t) (buf : buf_t) (offset n : Nat) :
    (ip_out_frag s buf offset n).len = n := rfl

/-- The packets of the fragments of `remaining` bytes from `offset` on. -/
theorem ip_out_loop_eq (buf : buf_t) (ip : ip_t) (protocol id : Nat) (hp : protocol < 256)
    (hl : buf.len ≤ 65515) (fuel : Nat) :
    ∀ (s : net_t) (offset remaining : Nat), remaining < fuel → 0 < remaining →
      offset + remaining = buf.len →
      ∃ evs : List Event,
        ip_out_loop buf ip protocol id 1480 fuel s offset remaining
          = { s with trace := s.trace ++ evs }
        ∧ evs.length = (remaining + 1479) / 1480
        ∧ sent evs = (List.range ((remaining + 1479) / 1480)).map (fun k =>
            (ip_packet s.net_if_ip ip protocol id (offset + 1480 * k)
              (if k + 1 < (remaining + 1479) / 1480 then 1 else 0)
              ((buf.bytes.drop (offset + 1480 * k)).take 1480), ip)) := by
  induction fuel with
  | zero => intro s offset remaining h; omega
  | succ fuel ih =>
    intro s offset remaining hf hr ho
    unfold ip_out_loop
    by_cases hc : remaining > 1480
    · rw [if_pos hc]
      obtain ⟨pkt, e1, -, -, e2⟩ := ip_fragment_out_eq s (ip_out_frag s buf offset 1480) ip
        protocol id offset 1 hp (by rw [ip_out_frag_len]; omega) (by omega)
      simp only [e1]
      obtain ⟨evs, e3, e4, e5⟩ := ih { s with trace := s.trace ++ [Event.arp_out pkt ip] }
        (offset + 1480) (remaining - 1480) (by omega) (by omega) (by omega)
      refine ⟨Event.arp_out pkt ip :: evs, ?_, ?_, ?_⟩
      · rw [e3]; simp
      · rw [List.length_cons, e4]; omega
      · have hN : (remaining + 1479) / 1480 = (remaining - 1480 + 1479) / 1480 + 1 := by omega
        rw [hN, List.range_succ_eq_map, List.map_cons, List.map_map]
        simp only [sent, e5, e2, ip_out_frag_bytes s buf offset 1480 (by omega)]
        congr 1
        · have : 0 + 1 < (remaining - 1480 + 1479) / 1480 + 1 := by omega
          simp only [Nat.mul_zero, Nat.add_zero, if_pos this]
        · apply List.map_congr_left
          intro k _
          simp only [Function.comp, Nat.succ_eq_add_one, Nat.add_lt_add_iff_right]
          rw [show offset + 1480 + 1480 * k = offset + 1480 * (k + 1) by omega]
    · rw [if_neg hc]
      obtain ⟨pkt, e1, -, -, e2⟩ := ip_fragment_out_eq s (ip_out_frag s buf offset remaining) ip
        protocol id offset 0 hp (by rw [ip_out_frag_len]; omega) (by omega)
      simp only [e1]
      refine ⟨[Event.arp_out pkt ip], rfl, ?_, ?_⟩
      · rw [List.length_singleton]; omega
      · have hN : (remaining + 1479) / 1480 = 1 := by omega
        rw [hN]
        simp only [sent, e2, ip_out_frag_bytes s buf offset remaining (by omega),
          show List.range 1 = [0] from rfl,
          List.map_cons, List.map_nil, Nat.mul_zero, Nat.add_zero, lt_irrefl, if_false]
        have hlen : (buf.bytes.drop offset).length = remaining := by
          rw [List.length_drop, buf_t.bytes, bytes_length]; omega
        rw [List.take_of_length_le (by omega), List.take_of_length_le (by omega)]


theorem chunks_flatten (n : Nat) : ∀ l : List Nat, l.length = n →
    ((List.range ((l.length + 1479) / 1480)).map
      (fun k => (l.drop (1480 * k)).take 1480)).flatten = l := by
  induction n using Nat.strong_induction_on with
  | _ n ih =>
    intro l hl
    by_cases h0 : l.length = 0
    · have : l = [] := List.length_eq_zero.mp h0
      subst this
      rfl
    · have hN : (l.length + 1479) / 1480 = ((l.drop 1480).length + 1479) / 1480 + 1 := by
        rw [List.length_drop]; omega
      rw [hN, List.range_succ_eq_map, List.map_cons, List.map_map, List.flatten_cons]
      have e : (List.map ((fun k => (l.drop (1480 * k)).take 1480) ∘ Nat.succ)
            (List.range (((l.drop 1480).length + 1479) / 1480)))
          = (List.range (((l.drop 1480).length + 1479) / 1480)).map
              (fun k => ((l.drop 1480).drop (1480 * k)).take 1480) := by
        apply List.map_congr_left
        intro k _
        simp only [Function.comp, Nat.succ_eq_add_one, List.drop_drop]
        rw [show 1480 * (k + 1) = 1480 + 1480 * k by omega]
      rw [e, ih (l.drop 1480).length (by rw [List.length_drop]; omega) (l.drop 1480) rfl]
      simp

/-- Fragmentation by `ip_out` with the value of the buffer, that is when no call made
during `ip_out` writes the source buffer.  For every payload of length `L` with
`1480 < L ≤ 65515` and every protocol number below 256, `ip_out` takes one new
identification from `fragment_id` and hands exactly `N = ⌈L / 1480⌉` packets to the ARP
resolver, all for the given destination, in order; packet `k` is the IPv4 packet with
that one identification, byte offset `1480 * k`, the more-fragments flag set exactly when
`k` is not the last, and the payload bytes `[1480 * k, min (1480 * (k + 1)) L)`.  The
payloads concatenated give the original payload; the offset field is `185 * k`, which is
below `2^13`, so that the flags + offset word the code builds with a bitwise or is the
flag plus the offset; every payload but the last has 1480 bytes and the last one is not
empty. -/
theorem ip_out_fragments (s : net_t) (buf : buf_t) (ip : ip_t) (protocol : Nat)
    (hp : protocol < 256) (h1 : 1480 < buf.len) (h2 : buf.len ≤ 65515) :
    ∃ evs : List Event,
      ip_out s buf ip protocol
        = { s with fragment_id := s.fragment_id + 1, trace := s.trace ++ evs }
      ∧ evs.length = (buf.len + 1479) / 1480
      ∧ sent evs = (List.range ((buf.len + 1479) / 1480)).map (fun k =>
          (ip_packet s.net_if_ip ip protocol s.fragment_id (1480 * k)
            (if k + 1 < (buf.len + 1479) / 1480 then 1 else 0)
            ((buf.bytes.drop (1480 * k)).take 1480), ip))
      ∧ ((List.range ((buf.len + 1479) / 1480)).map
          (fun k => (buf.bytes.drop (1480 * k)).take 1480)).flatten = buf.bytes
      ∧ ∀ k, k < (buf.len + 1479) / 1480 →
          1480 * k / 8 = 185 * k ∧ 185 * k < 8192
          ∧ ((if k + 1 < (buf.len + 1479) / 1480 then IP_MORE_FRAGMENT else 0)
                ||| ((1480 * k) >>> 3))
              = (if k + 1 < (buf.len + 1479) / 1480 then 8192 else 0) + 185 * k
          ∧ ((buf.bytes.drop (1480 * k)).take 1480).length
              = (if k + 1 < (buf.len + 1479) / 1480 then 1480 else buf.len - 1480 * k)
          ∧ 0 < ((buf.bytes.drop (1480 * k)).take 1480).length := by
  have hlen : buf.bytes.length = buf.len := bytes_length _ _ _
  obtain ⟨evs, e1, e2, e3⟩ := ip_out_loop_eq buf ip protocol s.fragment_id hp h2 (buf.len + 1)
    { s with fragment_id := s.fragment_id + 1 } 0 buf.len (by omega) (by omega) (by omega)
  refine ⟨evs, ?_, e2, ?_, ?_, ?_⟩
  · unfold ip_out
    simp only [ETHERNET_MAX_TRANSPORT_UNIT, sizeof_ip_hdr_t]
    rw [if_pos (by omega)]
    exact e1
  · rw [e3]
    apply List.map_congr_left
    intro k _
    simp only [Nat.zero_add]
  · have := chunks_flatten buf.len buf.bytes hlen
    rw [hlen] at this
    exact this
  · intro k hk
    have hk1 : 1480 * k / 8 = 185 * k := by omega
    refine ⟨hk1, by omega, ?_, ?_, ?_⟩
    · rw [Nat.shiftRight_eq_div_pow, show 1480 * k / 2 ^ 3 = 185 * k by omega]
      by_cases hh : k + 1 < (buf.len + 1479) / 1480
      · rw [if_pos hh, if_pos hh]
        have := more_fragment_or 1 (185 * k) (by omega)
        rwa [if_pos (by decide), if_pos (by decide)] at this
      · rw [if_neg hh, if_neg hh, Nat.zero_or, Nat.zero_add]
    · rw [List.length_take, List.length_drop, hlen]
      split <;> omega
    · rw [List.length_take, List.length_drop, hlen]
      omega


/-- Example of `ip_out_fragments`: a payload of 3000 bytes is sent as three fragments. -/
theorem ip_out_fragments_witness :
    ∃ evs : List Event,
      ip_out example_state ⟨3000, 0, fun _ => 7⟩ ![10, 0, 0, 1] 17
        = { example_state with
            fragment_id := example_state.fragment_id + 1, trace := example_state.trace ++ evs }
      ∧ evs.length = (3000 + 1479) / 1480
      ∧ sent evs = (List.range ((3000 + 1479) / 1480)).map (fun k =>
          (ip_packet example_state.net_if_ip ![10, 0, 0, 1] 17 example_state.fragment_id
            (1480 * k) (if k + 1 < (3000 + 1479) / 1480 then 1 else 0)
            (((⟨3000, 0, fun _ => 7⟩ : buf_t).bytes.drop (1480 * k)).take 1480), ![10, 0, 0, 1]))
      ∧ ((List.range ((3000 + 1479) / 1480)).map
          (fun k => ((⟨3000, 0, fun _ => 7⟩ : buf_t).bytes.drop (1480 * k)).take 1480)).flatten
          = (⟨3000, 0, fun _ => 7⟩ : buf_t).bytes
      ∧ ∀ k, k < (3000 + 1479) / 1480 →
          1480 * k / 8 = 185 * k ∧ 185 * k < 8192
          ∧ ((if k + 1 < (3000 + 1479) / 1480 then IP_MORE_FRAGMENT else 0)
                ||| ((1480 * k) >>> 3))
              = (if k + 1 < (3000 + 1479) / 1480 then 8192 else 0) + 185 * k
          ∧ (((⟨3000, 0, fun _ => 7⟩ : buf_t).bytes.drop (1480 * k)).take 1480).length
              = (if k + 1 < (3000 + 1479) / 1480 then 1480 else 3000 - 1480 * k)
          ∧ 0 < (((⟨3000, 0, fun _ => 7⟩ : buf_t).bytes.drop (1480 * k)).take 1480).length :=
  ip_out_fragments example_state ⟨3000, 0, fun _ => 7⟩ ![10, 0, 0, 1] 17
    (by decide) (by decide) (by decide)

/-- C6: `ip_out` without fragmentation.  For every payload of length `L ≤ 1480`
(including exactly 1480) and every protocol number below 256, `ip_out` hands exactly one
packet to the ARP resolver, for the given destination, and changes nothing else; the
packet is the payload preceded by the 20-byte header with version 4 and header length 5
(byte `0x45`), TOS 0, total length `20 + L` in network order, identification 0,
flags + fragment offset 0, TTL 64, the protocol, the local and the given address, and as
checksum `checksum16` of these 20 bytes taken with a zero checksum field. -/
theorem ip_out_single (s : net_t) (buf : buf_t) (ip : ip_t) (protocol : Nat)
    (hp : protocol < 256) (hl : buf.len ≤ 1480) :
    ∃ pkt : buf_t,
      ip_out s buf ip protocol = { s with trace := s.trace ++ [Event.arp_out pkt ip] }
      ∧ pkt.bytes =
          [69, 0, (20 + buf.len) / 256, (20 + buf.len) % 256, 0, 0, 0, 0, 64, protocol,
            checksum16 (ofList ([69, 0, (20 + buf.len) / 256, (20 + buf.len) % 256, 0, 0, 0, 0,
              64, protocol, 0, 0,
              (s.net_if_ip 0).val, (s.net_if_ip 1).val, (s.net_if_ip 2).val, (s.net_if_ip 3).val,
              (ip 0).val, (ip 1).val, (ip 2).val, (ip 3).val])) 0 20 % 256,
            checksum16 (ofList ([69, 0, (20 + buf.len) / 256, (20 + buf.len) % 256, 0, 0, 0, 0,
              64, protocol, 0, 0,
              (s.net_if_ip 0).val, (s.net_if_ip 1).val, (s.net_if_ip 2).val, (s.net_if_ip 3).val,
              (ip 0).val, (ip 1).val, (ip 2).val, (ip 3).val])) 0 20 / 256,
            (s.net_if_ip 0).val, (s.net_if_ip 1).val, (s.net_if_ip 2).val, (s.net_if_ip 3).val,
            (ip 0).val, (ip 1).val, (ip 2).val, (ip 3).val] ++ buf.bytes := by
  obtain ⟨pkt, e1, -, -, e2⟩ := ip_fragment_out_eq s buf ip protocol 0 0 0 hp (by omega)
    (by decide)
  refine ⟨pkt, ?_, ?_⟩
  · unfold ip_out
    simp only [ETHERNET_MAX_TRANSPORT_UNIT, sizeof_ip_hdr_t]
    rw [if_neg (by omega)]
    exact e1
  · rw [e2]
    simp [ip_packet, ip_header, buf_t.bytes, bytes_length]

/-- Witness of C6: the three bytes `01 02 03` sent with protocol 17 to 10.0.0.1. -/
theorem ip_out_single_witness :
    (sent (ip_out example_state (example_buf [1, 2, 3]) ![10, 0, 0, 1] 17).trace).map Prod.fst
      = [[69, 0, 0, 23, 0, 0, 0, 0, 64, 17, 175, 43, 192, 168, 1, 2, 10, 0, 0, 1, 1, 2, 3]] := by
  obtain ⟨pkt, e1, e2⟩ := ip_out_single example_state (example_buf [1, 2, 3]) ![10, 0, 0, 1] 17
    (by decide) (by decide)
  rw [e1]
  simp only [example_state, List.nil_append, sent, List.map_cons, List.map_nil, e2]
  decide


/-- C7: `ip_in` drops every structurally invalid or misaddressed packet silently.  For
every buffer that is shorter than 20 bytes, or whose version is not 4, or whose
header-length field is below 5, or whose declared total length exceeds the buffer
length, or whose stored header checksum differs from `checksum16` of the header taken
with a zeroed checksum field, or whose destination differs from the local address,
`ip_in` leaves the state as it is: nothing is handed to the dispatch registry, no
handler runs and no packet is sent. -/
theorem ip_in_drops_invalid (s : net_t) (buf : buf_t)
    (h : buf.len < 20
      ∨ load8 buf.payload buf.data / 16 ≠ 4
      ∨ load8 buf.payload buf.data % 16 < 5
      ∨ swap16 (load16 buf.payload (buf.data + 2)) > buf.len
      ∨ load16 buf.payload (buf.data + 10)
          ≠ checksum16 (store16 buf.payload (buf.data + 10) 0) buf.data
              (load8 buf.payload buf.data % 16 * 4)
      ∨ load_ip buf.payload (buf.data + 16) ≠ s.net_if_ip) :
    (ip_in s buf).1 = s := by
  unfold ip_in
  simp only [sizeof_ip_hdr_t, IP_VERSION_4]
  split
  · rfl
  · rename_i h1
    split
    · rfl
    · rename_i h2
      have e0 : load8 (store16 buf.payload (buf.data + 10) 0) buf.data
          = load8 buf.payload buf.data := by
        unfold load8
        rw [store16_of_ne _ _ _ _ (by omega) (by omega)]
      simp only [e0]
      split
      · rfl
      · rename_i h3
        have e1 : ∀ v, store16 (store16 buf.payload (buf.data + 10) 0) (buf.data + 10) v
            = store16 buf.payload (buf.data + 10) v := by
          intro v
          funext i
          simp only [store16_apply]
          split_ifs <;> rfl
        have e2 : store16 buf.payload (buf.data + 10) (load16 buf.payload (buf.data + 10))
            = buf.payload := by
          funext i
          simp only [store16_apply, load16]
          split_ifs with c1 c2
          · subst c1; apply Fin.ext; simp only [u8_val]
            have := (buf.payload (buf.data + 10)).isLt
            have := (buf.payload (buf.data + 10 + 1)).isLt
            omega
          · subst c2; apply Fin.ext; simp only [u8_val]
            have := (buf.payload (buf.data + 10)).isLt
            omega
          · rfl
        simp only [e1, e2]
        split
        · rfl
        · rename_i h4
          exfalso
          rcases h with h | h | h | h | h | h
          · omega
          · exact h2 (Or.inl h)
          · exact h2 (Or.inr (Or.inr h))
          · exact h2 (Or.inr (Or.inl h))
          · exact h3 (Ne.symm h)
          · exact h4 h

/-- Witness of C7: a 20-byte packet of version 4 addressed to the local host whose header
checksum field is wrong. -/
theorem ip_in_drops_invalid_witness :
    (ip_in example_state (example_buf
      [69, 0, 0, 20, 0, 0, 0, 0, 64, 1, 0, 0, 10, 0, 0, 1, 192, 168, 1, 2])).1 = example_state :=
  ip_in_drops_invalid _ _ (Or.inr (Or.inr (Or.inr (Or.inr (Or.inl (by decide))))))


/-- The reply that `icmp_resp` builds in `txbuf`. -/
theorem icmp_resp_eq (s : net_t) (req_buf : buf_t) (src_ip : ip_t)
    (h8 : 8 ≤ req_buf.len) (hn : req_buf.len ≤ 65535) :
    ∃ reply : buf_t,
      icmp_resp s req_buf src_ip
        = ip_out { s with txbuf := reply } reply src_ip NET_PROTOCOL_ICMP
      ∧ reply.len = req_buf.len
      ∧ reply.bytes.getD 0 0 = ICMP_TYPE_ECHO_REPLY
      ∧ (∀ k, k < req_buf.len → k ≠ 0 → k ≠ 2 → k ≠ 3 →
          reply.bytes.getD k 0 = req_buf.bytes.getD k 0)
      ∧ checksum16 reply.payload reply.data reply.len = 0 := by
  refine ⟨_, rfl, rfl, ?_, ?_, ?_⟩
  · simp only [buf_t.bytes, buf_init]
    rw [bytes_get _ _ _ _ (by omega)]
    simp [store16_apply, store8_apply, ICMP_TYPE_ECHO_REPLY]
  · intro k hk k0 k2 k3
    simp only [buf_t.bytes, buf_init]
    rw [bytes_get _ _ _ _ hk, bytes_get _ _ _ _ hk,
      store16_of_ne _ _ _ _ (by omega) (by omega), store16_of_ne _ _ _ _ (by omega) (by omega),
      store8_of_ne _ _ _ _ (by omega), memcpy_of_mem _ _ _ _ _ _ hk]
  · simp only [buf_init]
    have := checksum16_store_checksum
      (store16 (store8 (memcpy s.txbuf.payload 0 req_buf.payload req_buf.data req_buf.len) 0
        ICMP_TYPE_ECHO_REPLY) (0 + 2 * ((1 : Nat) : Int)) 0) 0 req_buf.len 1 hn (by omega)
      (load16_store16 _ _ _)
    simpa using this

/-- C8: ICMP echo reply.  A message shorter than 8 bytes and a message of at least 8
bytes whose type is not echo request leave the state as it is (nothing is sent).  For an
echo request of `n ≥ 8` bytes (even or odd; `n ≤ 65535`, as in every IPv4 datagram)
received from `src_ip`, `icmp_in` makes exactly one call of `ip_out`, to `src_ip` with
protocol ICMP, of the reply built in `txbuf`: it has length `n`, type 0 (echo reply),
every byte other than the type byte and the two checksum bytes equal to that byte of the
request, and `checksum16` over the whole reply is 0; when `n ≤ 1480` this call hands
exactly one packet, the reply in an IPv4 header, to the ARP resolver for `src_ip`. -/
theorem icmp_in_echo_reply (s : net_t) (buf : buf_t) (src_ip : ip_t) :
    (buf.len < 8 → icmp_in s buf src_ip = s)
    ∧ (8 ≤ buf.len → load8 buf.payload buf.data ≠ ICMP_TYPE_ECHO_REQUEST →
        icmp_in s buf src_ip = s)
    ∧ (8 ≤ buf.len → buf.len ≤ 65535 → load8 buf.payload buf.data = ICMP_TYPE_ECHO_REQUEST →
        ∃ reply : buf_t,
          icmp_in s buf src_ip
            = ip_out { s with txbuf := reply } reply src_ip NET_PROTOCOL_ICMP
          ∧ reply.len = buf.len
          ∧ reply.bytes.getD 0 0 = ICMP_TYPE_ECHO_REPLY
          ∧ (∀ k, k < buf.len → k ≠ 0 → k ≠ 2 → k ≠ 3 →
              reply.bytes.getD k 0 = buf.bytes.getD k 0)
          ∧ checksum16 reply.payload reply.data reply.len = 0
          ∧ (buf.len ≤ 1480 → ∃ pkt : buf_t,
              icmp_in s buf src_ip
                = { s with txbuf := reply, trace := s.trace ++ [Event.arp_out pkt src_ip] }
              ∧ pkt.bytes
                  = ip_packet s.net_if_ip src_ip NET_PROTOCOL_ICMP 0 0 0 reply.bytes)) := by
  refine ⟨fun h => ?_, fun h ht => ?_, fun h hn ht => ?_⟩
  · unfold icmp_in
    rw [if_pos (by simpa [sizeof_icmp_hdr_t] using h)]
  · unfold icmp_in
    rw [if_neg (by simp only [sizeof_icmp_hdr_t]; omega)]
    simp only [if_neg ht]
  · have e : icmp_in s buf src_ip = icmp_resp s buf src_ip := by
      unfold icmp_in
      rw [if_neg (by simp only [sizeof_icmp_hdr_t]; omega)]
      simp only [if_pos ht]
    obtain ⟨reply, r1, r2, r3, r4, r5⟩ := icmp_resp_eq s buf src_ip h hn
    refine ⟨reply, e.trans r1, r2, r3, r4, r5, fun h1480 => ?_⟩
    obtain ⟨pkt, p1, -, -, p2⟩ := ip_fragment_out_eq { s with txbuf := reply } reply src_ip
      NET_PROTOCOL_ICMP 0 0 0 (by decide) (by omega) (by decide)
    refine ⟨pkt, ?_, p2⟩
    rw [e, r1]
    unfold ip_out
    simp only [ETHERNET_MAX_TRANSPORT_UNIT, sizeof_ip_hdr_t]
    rw [if_neg (by omega)]
    exact p1

/-- Witness of C8: the echo request with identifier 7, sequence 3 and data "abc". -/
theorem icmp_in_echo_reply_witness :
    ∃ reply : buf_t,
      icmp_in example_state (example_buf [8, 0, 51, 147, 0, 7, 0, 3, 97, 98, 99]) ![10, 0, 0, 1]
        = ip_out { example_state with txbuf := reply } reply ![10, 0, 0, 1] NET_PROTOCOL_ICMP
      ∧ reply.len = (example_buf [8, 0, 51, 147, 0, 7, 0, 3, 97, 98, 99]).len
      ∧ reply.bytes.getD 0 0 = ICMP_TYPE_ECHO_REPLY
      ∧ (∀ k, k < (example_buf [8, 0, 51, 147, 0, 7, 0, 3, 97, 98, 99]).len →
          k ≠ 0 → k ≠ 2 → k ≠ 3 →
          reply.bytes.getD k 0
            = (example_buf [8, 0, 51, 147, 0, 7, 0, 3, 97, 98, 99]).bytes.getD k 0)
      ∧ checksum16 reply.payload reply.data reply.len = 0
      ∧ ((example_buf [8, 0, 51, 147, 0, 7, 0, 3, 97, 98, 99]).len ≤ 1480 → ∃ pkt : buf_t,
          icmp_in example_state (example_buf [8, 0, 51, 147, 0, 7, 0, 3, 97, 98, 99])
              ![10, 0, 0, 1]
            = { example_state with
                txbuf := reply, trace := example_state.trace ++ [Event.arp_out pkt ![10, 0, 0, 1]] }
          ∧ pkt.bytes
              = ip_packet example_state.net_if_ip ![10, 0, 0, 1] NET_PROTOCOL_ICMP 0 0 0
                  reply.bytes) :=
  (icmp_in_echo_reply example_state (example_buf [8, 0, 51, 147, 0, 7, 0, 3, 97, 98, 99])
    ![10, 0, 0, 1]).2.2 (by decide) (by decide) (by decide)

/-- The echo request with identifier 7, sequence 3 and data "abc", evaluated: the one
packet handed to the ARP resolver carries the reply `00 00 3b 93 00 07 00 03 61 62 63`,
whose checksum validates. -/
theorem icmp_echo_example :
    sent (icmp_in example_state (example_buf [8, 0, 51, 147, 0, 7, 0, 3, 97, 98, 99])
        ![10, 0, 0, 1]).trace
      = [([69, 0, 0, 31, 0, 0, 0, 0, 64, 1, 175, 51, 192, 168, 1, 2, 10, 0, 0, 1,
            0, 0, 59, 147, 0, 7, 0, 3, 97, 98, 99], ![10, 0, 0, 1])]
      ∧ checksum16 (ofList [0, 0, 59, 147, 0, 7, 0, 3, 97, 98, 99]) 0 11 = 0
      ∧ checksum16 (ofList [8, 0, 51, 147, 0, 7, 0, 3, 97, 98, 99]) 0 11 = 0 := by
  decide


theorem bytes_take (m : mem_t) (a : Int) (l n : Nat) (h : n ≤ l) :
    (bytes m a l).take n = bytes m a n := by
  have := bytes_drop_take m a l 0 n (by omega)
  simpa using this

/-- The message that `icmp_unreachable` builds in `txbuf`, with `hl` the declared header
length of the original packet in bytes. -/
theorem icmp_unreachable_bytes (t p : mem_t) (d : Int) (code hl : Nat) (hc : code < 256)
    (hh : hl ≤ 60) :
    ∃ m0 : mem_t,
      m0 = memcpy (memcpy (store16 (store16 (store16 (store8 (store8 t 0 ICMP_TYPE_UNREACH)
          (0 + 1) code) (0 + 2) 0) (0 + 4) 0) (0 + 6) 0)
          (0 + (sizeof_icmp_hdr_t : Nat)) p d hl)
          (0 + (sizeof_icmp_hdr_t : Nat) + hl) p (d + hl) 8
      ∧ bytes (store16 m0 (0 + 2) (checksum16 m0 0 (sizeof_icmp_hdr_t + (hl + 8)))) 0
            (sizeof_icmp_hdr_t + (hl + 8))
          = [3, code, checksum16 m0 0 (sizeof_icmp_hdr_t + (hl + 8)) % 256,
              checksum16 m0 0 (sizeof_icmp_hdr_t + (hl + 8)) / 256, 0, 0, 0, 0]
            ++ bytes p d (hl + 8)
      ∧ checksum16 (store16 m0 (0 + 2) (checksum16 m0 0 (sizeof_icmp_hdr_t + (hl + 8)))) 0
          (sizeof_icmp_hdr_t + (hl + 8)) = 0 := by
  have hz : ∀ i : Int, i < 8 →
      memcpy (memcpy (store16 (store16 (store16 (store8 (store8 t 0 ICMP_TYPE_UNREACH)
          (0 + 1) code) (0 + 2) 0) (0 + 4) 0) (0 + 6) 0)
          (0 + (sizeof_icmp_hdr_t : Nat)) p d hl)
          (0 + (sizeof_icmp_hdr_t : Nat) + hl) p (d + hl) 8 i
        = store16 (store16 (store16 (store8 (store8 t 0 ICMP_TYPE_UNREACH)
          (0 + 1) code) (0 + 2) 0) (0 + 4) 0) (0 + 6) 0 i := by
    intro i hi
    rw [memcpy_of_not _ _ _ _ _ _ (by simp only [sizeof_icmp_hdr_t]; omega),
      memcpy_of_not _ _ _ _ _ _ (by simp only [sizeof_icmp_hdr_t]; omega)]
  refine ⟨_, rfl, ?_, ?_⟩
  · generalize hcd : checksum16 _ 0 (sizeof_icmp_hdr_t + (hl + 8)) = c
    have hc16 : c < 65536 := hcd ▸ checksum16_lt _ _ _
    rw [bytes_append]
    congr 1
    · refine bytes_eq_of_forall _ _ 8 [3, code, c % 256, c / 256, 0, 0, 0, 0] rfl ?_
      intro k hk
      simp only [store16_apply, hz _ (show (0 : Int) + (k : Nat) < 8 by omega)]
      simp only [store16_apply, store8_apply, ICMP_TYPE_UNREACH]
      interval_cases k <;> simp <;> omega
    · apply bytes_congr
      intro k hk
      rw [store16_of_ne _ _ _ _ (by simp only [sizeof_icmp_hdr_t]; omega)
        (by simp only [sizeof_icmp_hdr_t]; omega)]
      simp only [sizeof_icmp_hdr_t]
      by_cases hk2 : k < hl
      · rw [memcpy_of_not _ _ _ _ _ _ (by omega), memcpy_apply, if_pos (by omega)]
        congr 1
        omega
      · rw [memcpy_apply, if_pos (by omega)]
        congr 1
        omega
  · have hz0 : load16 (memcpy (memcpy (store16 (store16 (store16 (store8 (store8 t 0
          ICMP_TYPE_UNREACH) (0 + 1) code) (0 + 2) 0) (0 + 4) 0) (0 + 6) 0)
          (0 + (sizeof_icmp_hdr_t : Nat)) p d hl)
          (0 + (sizeof_icmp_hdr_t : Nat) + hl) p (d + hl) 8) (0 + 2 * ((1 : Nat) : Int)) = 0 := by
      unfold load16
      rw [hz _ (by omega), hz _ (by omega)]
      simp [store16_apply, store8_apply]
    have := checksum16_store_checksum _ 0 (sizeof_icmp_hdr_t + (hl + 8)) 1
      (by simp only [sizeof_icmp_hdr_t]; omega) (by simp only [sizeof_icmp_hdr_t]; omega) hz0
    simpa using this

/-- C9: the format of the message of `icmp_unreachable`.  For every original packet
whose header-length field is `h` and that holds at least `4 * h + 8` bytes, and every
code below 256, `icmp_unreachable` builds in `txbuf` one message of `8 + 4 * h + 8`
bytes and hands it, in one IPv4 packet of protocol ICMP, to the ARP resolver for
`src_ip`; the message has type 3 (destination unreachable), the given code, zero
identifier and sequence fields, as data the first `4 * h` bytes of the original packet
followed by the next 8 bytes, and `checksum16` over the whole message is 0. -/
theorem icmp_unreachable_format (s : net_t) (recv_buf : buf_t) (src_ip : ip_t) (code : Nat)
    (hc : code < 256)
    (hlen : 4 * (load8 recv_buf.payload recv_buf.data % 16) + 8 ≤ recv_buf.len) :
    ∃ (msg pkt : buf_t) (c : Nat),
      icmp_unreachable s recv_buf src_ip code
        = { s with txbuf := msg, trace := s.trace ++ [Event.arp_out pkt src_ip] }
      ∧ pkt.bytes = ip_packet s.net_if_ip src_ip NET_PROTOCOL_ICMP 0 0 0 msg.bytes
      ∧ msg.len = 8 + 4 * (load8 recv_buf.payload recv_buf.data % 16) + 8
      ∧ msg.bytes = [ICMP_TYPE_UNREACH, code, c % 256, c / 256, 0, 0, 0, 0]
          ++ recv_buf.bytes.take (4 * (load8 recv_buf.payload recv_buf.data % 16))
          ++ (recv_buf.bytes.drop (4 * (load8 recv_buf.payload recv_buf.data % 16))).take 8
      ∧ checksum16 msg.payload msg.data msg.len = 0 := by
  obtain ⟨m0, hm0, hb, hck⟩ := icmp_unreachable_bytes s.txbuf.payload recv_buf.payload
    recv_buf.data code (load8 recv_buf.payload recv_buf.data % 16 * 4) hc (by omega)
  have e : icmp_unreachable s recv_buf src_ip code
      = ip_out { s with txbuf := ⟨sizeof_icmp_hdr_t
            + (load8 recv_buf.payload recv_buf.data % 16 * 4 + 8), 0,
          store16 m0 (0 + 2) (checksum16 m0 0 (sizeof_icmp_hdr_t
            + (load8 recv_buf.payload recv_buf.data % 16 * 4 + 8)))⟩ }
          ⟨sizeof_icmp_hdr_t + (load8 recv_buf.payload recv_buf.data % 16 * 4 + 8), 0,
          store16 m0 (0 + 2) (checksum16 m0 0 (sizeof_icmp_hdr_t
            + (load8 recv_buf.payload recv_buf.data % 16 * 4 + 8)))⟩ src_ip NET_PROTOCOL_ICMP := by
    subst hm0
    rfl
  obtain ⟨pkt, p1, -, -, p2⟩ := ip_fragment_out_eq { s with txbuf := ⟨sizeof_icmp_hdr_t
            + (load8 recv_buf.payload recv_buf.data % 16 * 4 + 8), 0,
          store16 m0 (0 + 2) (checksum16 m0 0 (sizeof_icmp_hdr_t
            + (load8 recv_buf.payload recv_buf.data % 16 * 4 + 8)))⟩ }
          ⟨sizeof_icmp_hdr_t + (load8 recv_buf.payload recv_buf.data % 16 * 4 + 8), 0,
          store16 m0 (0 + 2) (checksum16 m0 0 (sizeof_icmp_hdr_t
            + (load8 recv_buf.payload recv_buf.data % 16 * 4 + 8)))⟩ src_ip NET_PROTOCOL_ICMP
          0 0 0 (by decide) (by simp only [sizeof_icmp_hdr_t]; omega) (by decide)
  refine ⟨_, pkt, checksum16 m0 0 (sizeof_icmp_hdr_t
    + (load8 recv_buf.payload recv_buf.data % 16 * 4 + 8)), ?_, p2, ?_, ?_, hck⟩
  · rw [e]
    unfold ip_out
    simp only [ETHERNET_MAX_TRANSPORT_UNIT, sizeof_ip_hdr_t, sizeof_icmp_hdr_t]
    rw [if_neg (by omega)]
    exact p1
  · simp only [sizeof_icmp_hdr_t]; omega
  · unfold buf_t.bytes
    rw [hb, List.append_assoc]
    congr 1
    rw [bytes_append, bytes_take _ _ _ _ (by omega), bytes_drop_take _ _ _ _ _ (by omega)]
    congr 2 <;> omega

/-- Witness of C9: a 28-byte original packet (header-length field 5) and the code "port
unreachable". -/
theorem icmp_unreachable_format_witness :
    ∃ (msg pkt : buf_t) (c : Nat),
      icmp_unreachable example_state (example_buf
          [69, 0, 0, 28, 0, 0, 0, 0, 64, 17, 0, 0, 10, 0, 0, 1, 192, 168, 1, 2,
            4, 210, 0, 53, 0, 8, 0, 0]) ![10, 0, 0, 1] 3
        = { example_state with
            txbuf := msg, trace := example_state.trace ++ [Event.arp_out pkt ![10, 0, 0, 1]] }
      ∧ pkt.bytes
          = ip_packet example_state.net_if_ip ![10, 0, 0, 1] NET_PROTOCOL_ICMP 0 0 0 msg.bytes
      ∧ msg.len = 8 + 4 * (load8 (example_buf
          [69, 0, 0, 28, 0, 0, 0, 0, 64, 17, 0, 0, 10, 0, 0, 1, 192, 168, 1, 2,
            4, 210, 0, 53, 0, 8, 0, 0]).payload 0 % 16) + 8
      ∧ msg.bytes = [ICMP_TYPE_UNREACH, 3, c % 256, c / 256, 0, 0, 0, 0]
          ++ (example_buf
              [69, 0, 0, 28, 0, 0, 0, 0, 64, 17, 0, 0, 10, 0, 0, 1, 192, 168, 1, 2,
                4, 210, 0, 53, 0, 8, 0, 0]).bytes.take (4 * (load8 (example_buf
              [69, 0, 0, 28, 0, 0, 0, 0, 64, 17, 0, 0, 10, 0, 0, 1, 192, 168, 1, 2,
                4, 210, 0, 53, 0, 8, 0, 0]).payload 0 % 16))
          ++ ((example_buf
              [69, 0, 0, 28, 0, 0, 0, 0, 64, 17, 0, 0, 10, 0, 0, 1, 192, 168, 1, 2,
                4, 210, 0, 53, 0, 8, 0, 0]).bytes.drop (4 * (load8 (example_buf
              [69, 0, 0, 28, 0, 0, 0, 0, 64, 17, 0, 0, 10, 0, 0, 1, 192, 168, 1, 2,
                4, 210, 0, 53, 0, 8, 0, 0]).payload 0 % 16))).take 8
      ∧ checksum16 msg.payload msg.data msg.len = 0 :=
  icmp_unreachable_format example_state (example_buf
      [69, 0, 0, 28, 0, 0, 0, 0, 64, 17, 0, 0, 10, 0, 0, 1, 192, 168, 1, 2,
        4, 210, 0, 53, 0, 8, 0, 0]) ![10, 0, 0, 1] 3 (by decide) (by decide)


/-- C10 (the code at the failing input): an accepted IPv4 packet with header-length
field 6 (one 4-byte option) carrying a UDP datagram for a closed port.  `udp_in`
re-attaches `sizeof(ip_hdr_t)` = 20 bytes, not the 24 bytes of the header that `ip_in`
removed, so `icmp_unreachable` reads the header-length field from byte 4 of the original
packet (here 0) and the data of the ICMP message are the 8 bytes `[4, 12)` of the
original packet, not its 24-byte header followed by the first 8 bytes of the UDP
segment. -/
theorem udp_closed_port_ip_options :
    dispatched (ip_in example_state (example_buf
        [70, 0, 0, 32, 0, 0, 0, 0, 64, 17, 172, 33, 10, 0, 0, 1, 192, 168, 1, 2, 1, 1, 1, 0,
          4, 210, 0, 53, 0, 8, 0, 0])).1.trace
      = [([4, 210, 0, 53, 0, 8, 0, 0], 17, ![10, 0, 0, 1])]
    ∧ sent (ip_in example_state (example_buf
        [70, 0, 0, 32, 0, 0, 0, 0, 64, 17, 172, 33, 10, 0, 0, 1, 192, 168, 1, 2, 1, 1, 1, 0,
          4, 210, 0, 53, 0, 8, 0, 0])).1.trace
      = [([69, 0, 0, 36, 0, 0, 0, 0, 64, 1, 175, 46, 192, 168, 1, 2, 10, 0, 0, 1,
            3, 3, 16, 202, 0, 0, 0, 0,
            0, 0, 0, 0, 64, 17, 172, 33], ![10, 0, 0, 1])]
    ∧ [0, 0, 0, 0, 64, 17, 172, 33]
      ≠ [70, 0, 0, 32, 0, 0, 0, 0, 64, 17, 172, 33, 10, 0, 0, 1, 192, 168, 1, 2, 1, 1, 1, 0,
          4, 210, 0, 53, 0, 8, 0, 0] := by
  decide

/-- The same datagram in a packet without options (header-length field 5): the data of
the ICMP port-unreachable message are the 20-byte header followed by the first 8 bytes
of the UDP segment. -/
theorem udp_closed_port_no_options_example :
    sent (ip_in example_state (example_buf
        [69, 0, 0, 28, 0, 0, 0, 0, 64, 17, 175, 38, 10, 0, 0, 1, 192, 168, 1, 2,
          4, 210, 0, 53, 0, 8, 0, 0])).1.trace
      = [([69, 0, 0, 56, 0, 0, 0, 0, 64, 1, 175, 26, 192, 168, 1, 2, 10, 0, 0, 1,
            3, 3, 247, 237, 0, 0, 0, 0,
            69, 0, 0, 28, 0, 0, 0, 0, 64, 17, 175, 38, 10, 0, 0, 1, 192, 168, 1, 2,
            4, 210, 0, 53, 0, 8, 0, 0], ![10, 0, 0, 1])] := by
  decide


set_option maxRecDepth 100000 in
theorem ip_prefix_match_byte_zero : ∀ f : Fin 256,
    ip_prefix_match_byte 8 f.val 0
      = (decide (leading_zeros f.val 8 0 < 8), leading_zeros f.val 8 0) := by
  decide

set_option maxRecDepth 100000 in
theorem leading_zeros_eq_eight : ∀ f : Fin 256, leading_zeros f.val 8 0 = 8 ↔ f.val = 0 := by
  decide

theorem leading_zeros_le (f : Nat) (n : Nat) : ∀ j, leading_zeros f n j ≤ n := by
  induction n with
  | zero => intro j; simp [leading_zeros]
  | succ n ih =>
    intro j
    unfold leading_zeros
    split
    · omega
    · have := ih (j + 1); omega

theorem ip_prefix_match_byte_count (j : Nat) : ∀ (f c : Nat), c + j ≤ 255 →
    ip_prefix_match_byte j f c
      = ((ip_prefix_match_byte j f 0).1, c + (ip_prefix_match_byte j f 0).2) := by
  induction j with
  | zero => intro f c _; simp [ip_prefix_match_byte]
  | succ j ih =>
    intro f c hc
    unfold ip_prefix_match_byte
    split
    · simp
    · rw [ih _ _ (by omega), ih _ ((0 + 1) % 256) (by omega)]
      simp only [Prod.mk.injEq, true_and]
      omega

theorem xor_lt_256 (x y : uint8_t) : x.val ^^^ y.val < 256 :=
  Nat.xor_lt_two_pow (n := 8) x.isLt y.isLt

/-- One byte of `ip_prefix_match`: `count` grows by the number of leading zero bits of the
exclusive or, and the function returns unless all 8 bits are zero. -/
theorem ip_prefix_match_byte_eq (x y : uint8_t) (c : Nat) (hc : c + 8 ≤ 255) :
    ip_prefix_match_byte 8 (x.val ^^^ y.val) c
      = (decide (leading_zeros (x.val ^^^ y.val) 8 0 < 8),
          c + leading_zeros (x.val ^^^ y.val) 8 0) := by
  have h := ip_prefix_match_byte_zero ⟨x.val ^^^ y.val, xor_lt_256 x y⟩
  rw [ip_prefix_match_byte_count 8 _ c hc, h]

theorem agree_from_add (a b : ip_t) (n r : Nat) : ∀ k,
    agree_from a b (n + r) k
      = if agree_from a b n k = n then n + agree_from a b r (k + n) else agree_from a b n k := by
  induction n with
  | zero => intro k; simp [agree_from]
  | succ n ih =>
    intro k
    have e : ∀ m j, agree_from a b (m + 1) j
        = if ip_bit a j = ip_bit b j then 1 + agree_from a b m (j + 1) else 0 :=
      fun _ _ => rfl
    rw [show n + 1 + r = (n + r) + 1 by omega, e (n + r), e n]
    by_cases h : ip_bit a k = ip_bit b k
    · rw [if_pos h, if_pos h, ih (k + 1)]
      split
      · rename_i h1
        rw [if_pos (by omega), show k + 1 + n = k + (n + 1) by omega]
        omega
      · rename_i h1
        rw [if_neg (by omega)]
    · rw [if_neg h, if_neg h, if_neg (by omega)]

theorem agree_from_le (a b : ip_t) (n : Nat) : ∀ k, agree_from a b n k ≤ n := by
  induction n with
  | zero => intro k; simp [agree_from]
  | succ n ih =>
    intro k
    unfold agree_from
    split
    · have := ih (k + 1); omega
    · omega

theorem testBit_eq_iff_xor (x y j : Nat) :
    (x.testBit j = y.testBit j) ↔ ¬ ((x ^^^ y).testBit j = true) := by
  rw [Nat.testBit_xor]
  cases x.testBit j <;> cases y.testBit j <;> simp

/-- Eight bits of the reference count inside one byte. -/
theorem agree_from_byte (a b : ip_t) (i : Fin 4) :
    agree_from a b 8 (8 * i.val) = leading_zeros ((a i).val ^^^ (b i).val) 8 0 := by
  have key : ∀ j, j < 8 → (ip_bit a (8 * i.val + j) = ip_bit b (8 * i.val + j)
      ↔ ¬ (((a i).val ^^^ (b i).val).testBit (7 - j) = true)) := by
    intro j hj
    have e1 : (⟨(8 * i.val + j) / 8 % 4, Nat.mod_lt _ (by decide)⟩ : Fin 4) = i := by
      apply Fin.ext
      have := i.isLt
      simp only
      omega
    have e2 : (8 * i.val + j) % 8 = j := by omega
    unfold ip_bit
    rw [e1, e2]
    exact testBit_eq_iff_xor _ _ _
  have step : ∀ n j, n + j = 8 →
      agree_from a b n (8 * i.val + j) = leading_zeros ((a i).val ^^^ (b i).val) n j := by
    intro n
    induction n with
    | zero => intro j _; rfl
    | succ n ih =>
      intro j hj
      unfold agree_from leading_zeros
      by_cases h : ip_bit a (8 * i.val + j) = ip_bit b (8 * i.val + j)
      · rw [if_pos h, if_neg ((key j (by omega)).mp h), show 8 * i.val + j + 1 = 8 * i.val + (j + 1) by omega,
          ih (j + 1) (by omega)]
      · rw [if_neg h, if_pos (by
          by_contra hc
          exact h ((key j (by omega)).mpr hc))]
  exact step 8 0 rfl

theorem ip_prefix_match_eq (a b : ip_t) :
    ip_prefix_match a b
      = if leading_zeros ((a 0).val ^^^ (b 0).val) 8 0 < 8 then
          leading_zeros ((a 0).val ^^^ (b 0).val) 8 0
        else if leading_zeros ((a 1).val ^^^ (b 1).val) 8 0 < 8 then
          8 + leading_zeros ((a 1).val ^^^ (b 1).val) 8 0
        else if leading_zeros ((a 2).val ^^^ (b 2).val) 8 0 < 8 then
          16 + leading_zeros ((a 2).val ^^^ (b 2).val) 8 0
        else 24 + leading_zeros ((a 3).val ^^^ (b 3).val) 8 0 := by
  have l0 := leading_zeros_le ((a 0).val ^^^ (b 0).val) 8 0
  have l1 := leading_zeros_le ((a 1).val ^^^ (b 1).val) 8 0
  have l2 := leading_zeros_le ((a 2).val ^^^ (b 2).val) 8 0
  have l3 := leading_zeros_le ((a 3).val ^^^ (b 3).val) 8 0
  simp only [ip_prefix_match, ip_prefix_match_loop]
  rw [ip_prefix_match_byte_eq (a 0) (b 0) 0 (by decide)]
  by_cases h0 : leading_zeros ((a 0).val ^^^ (b 0).val) 8 0 < 8
  · simp [h0]
  · simp only [h0, decide_False, Bool.false_eq_true, if_false]
    rw [ip_prefix_match_byte_eq (a 1) (b 1) _ (by omega)]
    by_cases h1 : leading_zeros ((a 1).val ^^^ (b 1).val) 8 0 < 8
    · simp only [h1, decide_True, if_true]
      omega
    · simp only [h1, decide_False, Bool.false_eq_true, if_false]
      rw [ip_prefix_match_byte_eq (a 2) (b 2) _ (by omega)]
      by_cases h2 : leading_zeros ((a 2).val ^^^ (b 2).val) 8 0 < 8
      · simp only [h2, decide_True, if_true]
        omega
      · simp only [h2, decide_False, Bool.false_eq_true, if_false]
        rw [ip_prefix_match_byte_eq (a 3) (b 3) _ (by omega)]
        by_cases h3 : leading_zeros ((a 3).val ^^^ (b 3).val) 8 0 < 8
        · simp only [h3, decide_True, if_true]
          omega
        · simp only [h3, decide_False, Bool.false_eq_true, if_false]
          omega

theorem agree_from_32 (a b : ip_t) :
    agree_from a b 32 0
      = if leading_zeros ((a 0).val ^^^ (b 0).val) 8 0 = 8 then
          8 + (if leading_zeros ((a 1).val ^^^ (b 1).val) 8 0 = 8 then
            8 + (if leading_zeros ((a 2).val ^^^ (b 2).val) 8 0 = 8 then
              8 + leading_zeros ((a 3).val ^^^ (b 3).val) 8 0
              else leading_zeros ((a 2).val ^^^ (b 2).val) 8 0)
            else leading_zeros ((a 1).val ^^^ (b 1).val) 8 0)
        else leading_zeros ((a 0).val ^^^ (b 0).val) 8 0 := by
  have b0 := agree_from_byte a b 0
  have b1 := agree_from_byte a b 1
  have b2 := agree_from_byte a b 2
  have b3 := agree_from_byte a b 3
  simp only [Fin.val_zero, Fin.val_one, Fin.val_two, Nat.mul_zero, Nat.mul_one] at b0 b1 b2
  have e3 : ((3 : Fin 4) : Nat) = 3 := rfl
  rw [e3] at b3
  rw [show (32 : Nat) = 8 + 24 from rfl, agree_from_add, b0,
    show (24 : Nat) = 8 + 16 from rfl, agree_from_add, show 0 + 8 = 8 from rfl, b1,
    show (16 : Nat) = 8 + 8 from rfl, agree_from_add, show 8 + 8 = 8 * 2 from rfl, b2,
    show 8 * 2 + 8 = 8 * 3 from rfl, b3]

/-- C18: `ip_prefix_match` is symmetric.  For every pair of addresses the value for
`(a, b)` is the value for `(b, a)`; it is the number of leading bits, the most
significant bit of byte 0 first, in which the two addresses agree; it is at most 32, and
it is 32 exactly when the addresses are equal. -/
theorem ip_prefix_match_symmetric (a b : ip_t) :
    ip_prefix_match a b = ip_prefix_match b a
    ∧ ip_prefix_match a b = agree_from a b 32 0
    ∧ ip_prefix_match a b ≤ 32
    ∧ (ip_prefix_match a b = 32 ↔ a = b) := by
  have l0 := leading_zeros_le ((a 0).val ^^^ (b 0).val) 8 0
  have l1 := leading_zeros_le ((a 1).val ^^^ (b 1).val) 8 0
  have l2 := leading_zeros_le ((a 2).val ^^^ (b 2).val) 8 0
  have l3 := leading_zeros_le ((a 3).val ^^^ (b 3).val) 8 0
  have z : ∀ i : Fin 4, leading_zeros ((a i).val ^^^ (b i).val) 8 0 = 8 ↔ a i = b i := by
    intro i
    rw [leading_zeros_eq_eight ⟨(a i).val ^^^ (b i).val, xor_lt_256 _ _⟩]
    simp only [Nat.xor_eq_zero]
    exact ⟨fun h => Fin.ext h, fun h => congrArg Fin.val h⟩
  refine ⟨?_, ?_, ?_, ?_⟩
  · rw [ip_prefix_match_eq a b, ip_prefix_match_eq b a]
    simp only [Nat.xor_comm (b 0).val, Nat.xor_comm (b 1).val, Nat.xor_comm (b 2).val,
      Nat.xor_comm (b 3).val]
  · rw [ip_prefix_match_eq, agree_from_32]
    split_ifs <;> omega
  · rw [ip_prefix_match_eq]
    split_ifs <;> omega
  · rw [ip_prefix_match_eq]
    constructor
    · intro h
      have h0 : leading_zeros ((a 0).val ^^^ (b 0).val) 8 0 = 8 := by
        split_ifs at h <;> omega
      have h1 : leading_zeros ((a 1).val ^^^ (b 1).val) 8 0 = 8 := by
        split_ifs at h <;> omega
      have h2 : leading_zeros ((a 2).val ^^^ (b 2).val) 8 0 = 8 := by
        split_ifs at h <;> omega
      have h3 : leading_zeros ((a 3).val ^^^ (b 3).val) 8 0 = 8 := by
        split_ifs at h <;> omega
      funext i
      fin_cases i
      · exact (z 0).mp h0
      · exact (z 1).mp h1
      · exact (z 2).mp h2
      · exact (z 3).mp h3
    · intro h
      have h0 := (z 0).mpr (congrFun h 0)
      have h1 := (z 1).mpr (congrFun h 1)
      have h2 := (z 2).mpr (congrFun h 2)
      have h3 := (z 3).mpr (congrFun h 3)
      rw [h0, h1, h2, h3]
      rfl


/-- What `ip_in` leaves in the header checksum field when verification fails: the field
was zeroed for the computation and the function returns without writing it back. -/
theorem ip_in_checksum_mismatch (s : net_t) (buf : buf_t)
    (h1 : 20 ≤ buf.len) (h2 : load8 buf.payload buf.data / 16 = 4)
    (h3 : 5 ≤ load8 buf.payload buf.data % 16)
    (h4 : swap16 (load16 buf.payload (buf.data + 2)) ≤ buf.len)
    (h5 : checksum16 (store16 buf.payload (buf.data + 10) 0) buf.data
        (load8 buf.payload buf.data % 16 * 4) ≠ load16 buf.payload (buf.data + 10)) :
    ip_in s buf = (s, { buf with payload := store16 buf.payload (buf.data + 10) 0 }) := by
  have e0 : load8 (store16 buf.payload (buf.data + 10) 0) buf.data
      = load8 buf.payload buf.data := by
    unfold load8
    rw [store16_of_ne _ _ _ _ (by omega) (by omega)]
  unfold ip_in
  simp only [sizeof_ip_hdr_t, IP_VERSION_4]
  rw [if_neg (by omega), if_neg (by omega)]
  simp only [e0]
  rw [if_pos h5]

/-- C19 (the code at the failing input): a 20-byte packet of version 4 with header-length
field 5 and total length 20 whose header checksum field holds `12 34` while the checksum
of the header is `af 3e`.  It reaches checksum verification and is discarded, and the
checksum field that `ip_in` leaves is `00 00`, not `12 34`. -/
theorem ip_in_leaves_checksum_zeroed :
    (example_buf [69, 0, 0, 20, 0, 0, 0, 0, 64, 1, 18, 52, 10, 0, 0, 1, 192, 168, 1, 2]).bytes
      = [69, 0, 0, 20, 0, 0, 0, 0, 64, 1, 18, 52, 10, 0, 0, 1, 192, 168, 1, 2]
    ∧ (ip_in example_state (example_buf
        [69, 0, 0, 20, 0, 0, 0, 0, 64, 1, 18, 52, 10, 0, 0, 1, 192, 168, 1, 2])).1
      = example_state
    ∧ (ip_in example_state (example_buf
        [69, 0, 0, 20, 0, 0, 0, 0, 64, 1, 18, 52, 10, 0, 0, 1, 192, 168, 1, 2])).2.bytes
      = [69, 0, 0, 20, 0, 0, 0, 0, 64, 1, 0, 0, 10, 0, 0, 1, 192, 168, 1, 2]
    ∧ checksum16 (ofList [69, 0, 0, 20, 0, 0, 0, 0, 64, 1, 0, 0, 10, 0, 0, 1, 192, 168, 1, 2])
        0 20 = 16047 := by
  refine ⟨by decide, ?_, ?_, by decide⟩
  · rw [ip_in_checksum_mismatch _ _ (by decide) (by decide) (by decide) (by decide) (by decide)]
  · rw [ip_in_checksum_mismatch _ _ (by decide) (by decide) (by decide) (by decide) (by decide)]
    decide


/-- The value of `transport_checksum`: `checksum16` over the pseudo-header, the segment
and the padding byte of an odd segment. -/
theorem transport_checksum_fst (protocol : Nat) (buf : buf_t) (src_ip dst_ip : ip_t)
    (hp : protocol < 256) (hn : buf.len ≤ 65535) :
    (transport_checksum protocol buf src_ip dst_ip).1
      = checksum16
          (ofList (pseudo_header src_ip dst_ip protocol buf.len ++ buf.bytes
            ++ (if buf.len % 2 = 1 then [0] else [])))
          0 (12 + buf.len + buf.len % 2) := by
  have hw : ∀ k : Nat, buf.payload (buf.data - (12 : Nat) + (12 : Nat) + k)
      = buf.payload (buf.data + k) := by
    intro k; congr 1; omega
  by_cases hpar : buf.len % 2 = 0
  · rw [if_neg (by omega), List.append_nil, hpar, Nat.add_zero]
    simp only [transport_checksum, hpar, ne_eq, not_true_eq_false, if_false, buf_add_header,
      sizeof_peso_hdr_t, Nat.add_sub_cancel, Nat.sub_zero]
    rw [show buf.len + 12 = 12 + buf.len by omega]
    apply checksum16_of_bytes
    rw [pseudo_header_bytes _ _ _ _ _ _ _ hp hn]
    exact congrArg _ (bytes_congr _ _ _ _ _ (fun k _ => hw k))
  · have h1 : buf.len % 2 = 1 := by omega
    rw [if_pos h1, h1]
    simp only [transport_checksum, hpar, ne_eq, not_false_eq_true, if_true, buf_add_header,
      buf_add_padding, sizeof_peso_hdr_t]
    rw [show buf.len + 1 + 12 - 12 - 1 = buf.len by omega,
      show buf.len + 1 + 12 = 12 + (buf.len + 1) by omega,
      show 12 + buf.len + 1 = 12 + (buf.len + 1) by omega]
    apply checksum16_of_bytes
    rw [pseudo_header_bytes _ _ _ _ _ _ _ hp hn, List.append_assoc]
    refine congrArg _ ?_
    unfold buf_t.bytes
    rw [bytes_append]
    congr 1
    · apply bytes_congr
      intro k hk
      rw [memset0_of_not _ _ _ _ (by push_cast; omega)]
      exact hw k
    · rw [show (1 : Nat) = 0 + 1 from rfl, bytes_succ, bytes_zero, memset0_apply,
        if_pos (by push_cast; omega)]
      rfl

/-- The value of `transport_checksum` depends on the segment bytes only. -/
theorem transport_checksum_congr (protocol : Nat) (b1 b2 : buf_t) (src_ip dst_ip : ip_t)
    (hp : protocol < 256) (hn : b1.len ≤ 65535) (hb : b1.bytes = b2.bytes) :
    (transport_checksum protocol b1 src_ip dst_ip).1
      = (transport_checksum protocol b2 src_ip dst_ip).1 := by
  have hl : b1.len = b2.len := by
    have := congrArg List.length hb
    simpa [buf_t.bytes, bytes_length] using this
  rw [transport_checksum_fst _ _ _ _ hp hn, transport_checksum_fst _ _ _ _ hp (hl ▸ hn), hb, hl]


theorem bytes_drop (m : mem_t) (a : Int) (l o : Nat) (h : o ≤ l) :
    (bytes m a l).drop o = bytes m (a + o) (l - o) := by
  have e1 : bytes m a l = bytes m a o ++ bytes m (a + o) (l - o) := by
    rw [← bytes_append]; congr 1; omega
  rw [e1, List.drop_left' (bytes_length _ _ _)]

/-- The buffer that `udp_in` has after the checksum computation and the write-back of the
received checksum: same window, and same bytes except possibly the one just past the
window. -/
theorem udp_in_restore (buf : buf_t) (src_ip dst_ip : ip_t) :
    ∃ b : buf_t,
      b = { (transport_checksum NET_PROTOCOL_UDP
              { buf with payload := store16 buf.payload (buf.data + 6) 0 } src_ip dst_ip).2 with
            payload := store16 (transport_checksum NET_PROTOCOL_UDP
              { buf with payload := store16 buf.payload (buf.data + 6) 0 } src_ip dst_ip).2.payload
              (buf.data + 6) (load16 buf.payload (buf.data + 6)) }
      ∧ b.len = buf.len ∧ b.data = buf.data
      ∧ ∀ i : Int, i ≠ buf.data + buf.len → b.payload i = buf.payload i := by
  obtain ⟨h1, h2, h3⟩ := transport_checksum_buf NET_PROTOCOL_UDP
    { buf with payload := store16 buf.payload (buf.data + 6) 0 } src_ip dst_ip
  refine ⟨_, rfl, h1, h2, fun i hi => ?_⟩
  simp only [store16_apply]
  split_ifs with c1 c2
  · subst c1
    apply Fin.ext
    simp only [u8_val, load16]
    have := (buf.payload (buf.data + 6)).isLt
    have := (buf.payload (buf.data + 6 + 1)).isLt
    omega
  · subst c2
    apply Fin.ext
    simp only [u8_val, load16]
    have := (buf.payload (buf.data + 6)).isLt
    omega
  · rw [h3 i hi]
    exact store16_of_ne _ _ _ _ c2 c1

theorem udp_in_short (s : net_t) (buf : buf_t) (src_ip : ip_t) (h : buf.len < 8) :
    udp_in s buf src_ip = (s, buf) := by
  unfold udp_in
  rw [if_pos (by simpa [sizeof_udp_hdr_t] using h)]

theorem udp_in_bad_length (s : net_t) (buf : buf_t) (src_ip : ip_t)
    (h : swap16 (load16 buf.payload (buf.data + 4)) > buf.len) :
    udp_in s buf src_ip = (s, buf) := by
  unfold udp_in
  split
  · rfl
  · simp only [if_pos h]

theorem udp_in_bad_checksum (s : net_t) (buf : buf_t) (src_ip : ip_t)
    (h0 : load16 buf.payload (buf.data + 6) ≠ 0)
    (h1 : load16 buf.payload (buf.data + 6)
      ≠ (transport_checksum NET_PROTOCOL_UDP
          { buf with payload := store16 buf.payload (buf.data + 6) 0 } src_ip s.net_if_ip).1) :
    (udp_in s buf src_ip).1 = s := by
  unfold udp_in
  split
  · rfl
  · by_cases hlen : swap16 (load16 buf.payload (buf.data + 4)) > buf.len
    · simp only [if_pos hlen]
    · simp only [if_neg hlen, if_pos (And.intro h0 h1)]

/-- The accepting path of `udp_in`. -/
theorem udp_in_accept (s : net_t) (buf : buf_t) (src_ip : ip_t)
    (h8 : 8 ≤ buf.len) (hl : swap16 (load16 buf.payload (buf.data + 4)) ≤ buf.len)
    (hc : load16 buf.payload (buf.data + 6) = 0
      ∨ load16 buf.payload (buf.data + 6)
        = (transport_checksum NET_PROTOCOL_UDP
            { buf with payload := store16 buf.payload (buf.data + 6) 0 } src_ip s.net_if_ip).1) :
    ∃ b : buf_t, b.len = buf.len ∧ b.data = buf.data
      ∧ (∀ i : Int, i ≠ buf.data + buf.len → b.payload i = buf.payload i)
      ∧ udp_in s buf src_ip
        = match s.udp_table (swap16 (load16 buf.payload (buf.data + 2))) with
          | none =>
            (icmp_unreachable s (buf_add_header b sizeof_ip_hdr_t) src_ip ICMP_CODE_PORT_UNREACH,
              buf_add_header b sizeof_ip_hdr_t)
          | some handle =>
            ({ s with trace := s.trace ++ [Event.udp_handler handle
                (buf_remove_header b sizeof_udp_hdr_t) src_ip
                (swap16 (load16 buf.payload buf.data))] },
              buf_remove_header b sizeof_udp_hdr_t) := by
  obtain ⟨b, hb, b1, b2, b3⟩ := udp_in_restore buf src_ip s.net_if_ip
  refine ⟨b, b1, b2, b3, ?_⟩
  unfold udp_in
  rw [if_neg (by simp only [sizeof_udp_hdr_t]; omega)]
  simp only [if_neg (not_lt.mpr hl)]
  rw [if_neg (by
    intro hh
    rcases hc with hc | hc
    · exact hh.1 hc
    · exact hh.2 hc)]
  rw [← hb]


/-- What `icmp_unreachable` does: one message, in one IPv4 packet handed to the ARP
resolver for `src_ip`, quoting the bytes that follow the pointer it was given. -/
theorem icmp_unreachable_eq (s : net_t) (recv_buf : buf_t) (src_ip : ip_t) (code : Nat)
    (hc : code < 256) :
    ∃ (msg pkt : buf_t) (c : Nat),
      icmp_unreachable s recv_buf src_ip code
        = { s with txbuf := msg, trace := s.trace ++ [Event.arp_out pkt src_ip] }
      ∧ pkt.bytes = ip_packet s.net_if_ip src_ip NET_PROTOCOL_ICMP 0 0 0 msg.bytes
      ∧ msg.bytes = [ICMP_TYPE_UNREACH, code, c % 256, c / 256, 0, 0, 0, 0]
          ++ bytes recv_buf.payload recv_buf.data
              (load8 recv_buf.payload recv_buf.data % 16 * 4 + 8)
      ∧ checksum16 msg.payload msg.data msg.len = 0 := by
  obtain ⟨m0, hm0, hb, hck⟩ := icmp_unreachable_bytes s.txbuf.payload recv_buf.payload
    recv_buf.data code (load8 recv_buf.payload recv_buf.data % 16 * 4) hc (by omega)
  have e : icmp_unreachable s recv_buf src_ip code
      = ip_out { s with txbuf := ⟨sizeof_icmp_hdr_t
            + (load8 recv_buf.payload recv_buf.data % 16 * 4 + 8), 0,
          store16 m0 (0 + 2) (checksum16 m0 0 (sizeof_icmp_hdr_t
            + (load8 recv_buf.payload recv_buf.data % 16 * 4 + 8)))⟩ }
          ⟨sizeof_icmp_hdr_t + (load8 recv_buf.payload recv_buf.data % 16 * 4 + 8), 0,
          store16 m0 (0 + 2) (checksum16 m0 0 (sizeof_icmp_hdr_t
            + (load8 recv_buf.payload recv_buf.data % 16 * 4 + 8)))⟩ src_ip NET_PROTOCOL_ICMP := by
    subst hm0
    rfl
  obtain ⟨pkt, p1, -, -, p2⟩ := ip_fragment_out_eq { s with txbuf := ⟨sizeof_icmp_hdr_t
            + (load8 recv_buf.payload recv_buf.data % 16 * 4 + 8), 0,
          store16 m0 (0 + 2) (checksum16 m0 0 (sizeof_icmp_hdr_t
            + (load8 recv_buf.payload recv_buf.data % 16 * 4 + 8)))⟩ }
          ⟨sizeof_icmp_hdr_t + (load8 recv_buf.payload recv_buf.data % 16 * 4 + 8), 0,
          store16 m0 (0 + 2) (checksum16 m0 0 (sizeof_icmp_hdr_t
            + (load8 recv_buf.payload recv_buf.data % 16 * 4 + 8)))⟩ src_ip NET_PROTOCOL_ICMP
          0 0 0 (by decide) (by simp only [sizeof_icmp_hdr_t]; omega) (by decide)
  refine ⟨_, pkt, checksum16 m0 0 (sizeof_icmp_hdr_t
    + (load8 recv_buf.payload recv_buf.data % 16 * 4 + 8)), ?_, p2, hb, hck⟩
  rw [e]
  unfold ip_out
  simp only [ETHERNET_MAX_TRANSPORT_UNIT, sizeof_ip_hdr_t, sizeof_icmp_hdr_t]
  rw [if_neg (by omega)]
  exact p1

/-- C12: the acceptance policy of `udp_in`.  A datagram shorter than 8 bytes, a datagram
whose declared total length exceeds the received length, and a datagram whose checksum
field is not zero and differs from `transport_checksum` of the datagram taken with a
zeroed checksum field (source `src_ip`, destination the local address) leave the state
as it is: no handler runs and no ICMP message is sent.  A datagram that passes the length
checks and has a zero checksum field is accepted whatever it holds: when a handler is
registered for its destination port, that handler is called once with the bytes after
the header, and when none is registered exactly one ICMP message of type 3 and code 3
(port unreachable) is sent to `src_ip`. -/
theorem udp_in_acceptance (s : net_t) (buf : buf_t) (src_ip : ip_t) :
    (buf.len < 8 → (udp_in s buf src_ip).1 = s)
    ∧ (swap16 (load16 buf.payload (buf.data + 4)) > buf.len → (udp_in s buf src_ip).1 = s)
    ∧ (load16 buf.payload (buf.data + 6) ≠ 0 →
        load16 buf.payload (buf.data + 6)
          ≠ (transport_checksum NET_PROTOCOL_UDP
              { buf with payload := store16 buf.payload (buf.data + 6) 0 }
              src_ip s.net_if_ip).1 →
        (udp_in s buf src_ip).1 = s)
    ∧ (8 ≤ buf.len → swap16 (load16 buf.payload (buf.data + 4)) ≤ buf.len →
        load16 buf.payload (buf.data + 6) = 0 →
        (∀ handle, s.udp_table (swap16 (load16 buf.payload (buf.data + 2))) = some handle →
          ∃ hbuf : buf_t,
            (udp_in s buf src_ip).1
              = { s with trace := s.trace ++ [Event.udp_handler handle hbuf src_ip
                  (swap16 (load16 buf.payload buf.data))] }
            ∧ hbuf.len = buf.len - 8 ∧ hbuf.bytes = buf.bytes.drop 8)
        ∧ (s.udp_table (swap16 (load16 buf.payload (buf.data + 2))) = none →
          ∃ (msg pkt : buf_t) (c : Nat) (quote : List Nat),
            (udp_in s buf src_ip).1
              = { s with txbuf := msg, trace := s.trace ++ [Event.arp_out pkt src_ip] }
            ∧ pkt.bytes = ip_packet s.net_if_ip src_ip NET_PROTOCOL_ICMP 0 0 0 msg.bytes
            ∧ msg.bytes = [ICMP_TYPE_UNREACH, ICMP_CODE_PORT_UNREACH, c % 256, c / 256,
                0, 0, 0, 0] ++ quote)) := by
  refine ⟨fun h => ?_, fun h => ?_, fun h0 h1 => udp_in_bad_checksum s buf src_ip h0 h1,
    fun h8 hl hz => ?_⟩
  · rw [udp_in_short s buf src_ip h]
  · rw [udp_in_bad_length s buf src_ip h]
  · obtain ⟨b, b1, b2, b3, e⟩ := udp_in_accept s buf src_ip h8 hl (Or.inl hz)
    refine ⟨fun handle hh => ?_, fun hh => ?_⟩
    · rw [e, hh]
      refine ⟨buf_remove_header b sizeof_udp_hdr_t, rfl, ?_, ?_⟩
      · simp only [buf_remove_header, sizeof_udp_hdr_t]
        rw [if_neg (by omega)]
        simp only [b1]
      · simp only [buf_remove_header, sizeof_udp_hdr_t, buf_t.bytes]
        rw [if_neg (by omega), bytes_drop _ _ _ _ h8]
        simp only [b1, b2]
        apply bytes_congr
        intro k hk
        exact b3 _ (by omega)
    · rw [e, hh]
      obtain ⟨msg, pkt, c, r1, r2, r3, -⟩ := icmp_unreachable_eq s
        (buf_add_header b sizeof_ip_hdr_t) src_ip ICMP_CODE_PORT_UNREACH (by decide)
      exact ⟨msg, pkt, c, _, r1, r2, r3⟩

/-- Witness of C12: an 8-byte datagram from port 1234 to the closed port 53 with a zero
checksum field is answered with port unreachable. -/
theorem udp_in_acceptance_witness :
    ∃ (msg pkt : buf_t) (c : Nat) (quote : List Nat),
      (udp_in example_state (example_buf [4, 210, 0, 53, 0, 8, 0, 0]) ![10, 0, 0, 1]).1
        = { example_state with
            txbuf := msg, trace := example_state.trace ++ [Event.arp_out pkt ![10, 0, 0, 1]] }
      ∧ pkt.bytes
          = ip_packet example_state.net_if_ip ![10, 0, 0, 1] NET_PROTOCOL_ICMP 0 0 0 msg.bytes
      ∧ msg.bytes = [ICMP_TYPE_UNREACH, ICMP_CODE_PORT_UNREACH, c % 256, c / 256,
          0, 0, 0, 0] ++ quote :=
  ((udp_in_acceptance example_state (example_buf [4, 210, 0, 53, 0, 8, 0, 0])
    ![10, 0, 0, 1]).2.2.2 (by decide) (by decide) (by decide)).2 (by decide)


theorem swap16_be (x : Nat) (h : x < 65536) : swap16 (x / 256 + 256 * (x % 256)) = x := by
  unfold swap16
  have e1 : (x / 256 + 256 * (x % 256)) % 256 = x / 256 := by omega
  have e2 : (x / 256 + 256 * (x % 256)) / 256 % 256 = x % 256 := by omega
  rw [e1, e2]
  omega

theorem bytes_split (m : mem_t) (a : Int) (p q : Nat) (l1 l2 : List Nat)
    (h : bytes m a (p + q) = l1 ++ l2) (hl : l1.length = p) :
    bytes m a p = l1 ∧ bytes m (a + p) q = l2 := by
  rw [bytes_append] at h
  exact List.append_inj h (by rw [bytes_length, hl])

/-- The bytes of a UDP segment after its checksum field is overwritten. -/
theorem udp_header_store (m : mem_t) (a : Int) (n sp dp tl c c2 : Nat) (hc2 : c2 < 65536)
    (payload : List Nat)
    (h : bytes m a (8 + n) = udp_header sp dp tl c ++ payload) :
    bytes (store16 m (a + 6) c2) a (8 + n) = udp_header sp dp tl c2 ++ payload := by
  obtain ⟨h1, h2⟩ := bytes_split m a 8 n _ _ h rfl
  rw [bytes_append]
  congr 1
  · apply bytes_eq_of_forall _ _ 8 (udp_header sp dp tl c2) rfl
    intro k hk
    have hm : ∀ j : Nat, j < 8 → (m (a + j)).val = (udp_header sp dp tl c).getD j 0 :=
      fun j hj => by rw [← h1, bytes_get _ _ _ _ hj]
    have e6 : (store16 m (a + 6) c2 (a + ((6 : Nat) : Int))).val = c2 % 256 := by
      simp [store16_apply]
    have e7 : (store16 m (a + 6) c2 (a + ((7 : Nat) : Int))).val = c2 / 256 := by
      simp [store16_apply, add_assoc]
      omega
    interval_cases k <;>
      first
      | exact e6
      | exact e7
      | (rw [store16_of_ne _ _ _ _ (by push_cast; omega) (by push_cast; omega), hm _ (by omega)]
         rfl)
  · rw [← h2]
    apply bytes_congr
    intro k _
    rw [store16_of_ne _ _ _ _ (by push_cast; omega) (by push_cast; omega)]

theorem bytes_memcpy_prefix (dm : mem_t) (dst : Int) (sm : mem_t) (src : Int) (n q : Nat) :
    bytes (memcpy dm dst sm src n) dst (n + q) = bytes sm src n ++ bytes dm (dst + n) q := by
  rw [bytes_append]
  congr 1
  · exact bytes_congr _ _ _ _ _ (fun k hk => memcpy_of_mem _ _ _ _ _ _ hk)
  · exact bytes_congr _ _ _ _ _ (fun k _ => memcpy_of_not _ _ _ _ _ _ (by omega))

theorem udp_hdr_bytes (sp dp tl : Nat) (hsp : sp < 65536) (hdp : dp < 65536)
    (htl : tl < 65536) :
    bytes (store16 (store16 (store16 (store16 (fun _ => 0) 0 (swap16 sp)) 2 (swap16 dp)) 4
        (swap16 tl)) 6 0) 0 8 = udp_header sp dp tl 0 := by
  apply bytes_eq_of_forall _ _ 8 (udp_header sp dp tl 0) rfl
  intro k hk
  simp only [store16_apply, udp_header]
  interval_cases k <;> simp [swap16_lo, swap16_hi] <;> omega

/-- The segment that `udp_out` builds. -/
theorem udp_out_buf_eq (s : net_t) (buf : buf_t) (src_port dst_port : Nat) (dst_ip : ip_t)
    (hn : buf.len + 8 ≤ 65535) (hsp : src_port < 65536) (hdp : dst_port < 65536) :
    ∃ (seg0 : buf_t) (c : Nat),
      c = (transport_checksum NET_PROTOCOL_UDP seg0 s.net_if_ip dst_ip).1
      ∧ seg0.len = buf.len + 8
      ∧ seg0.bytes = udp_header src_port dst_port (buf.len + 8) 0 ++ buf.bytes
      ∧ (udp_out_buf s buf src_port dst_ip dst_port).len = buf.len + 8
      ∧ (udp_out_buf s buf src_port dst_ip dst_port).bytes
          = udp_header src_port dst_port (buf.len + 8) c ++ buf.bytes := by
  have hh := udp_hdr_bytes src_port dst_port (buf.len + 8) hsp hdp (by omega)
  have hrest : bytes buf.payload (buf.data - (8 : Nat) + (8 : Nat)) buf.len
      = bytes buf.payload buf.data buf.len := by
    congr 1
    omega
  obtain ⟨hdr0, hhdr⟩ : ∃ h : mem_t, h = store16 (store16 (store16 (store16 (fun _ => 0) 0
      (swap16 src_port)) 2 (swap16 dst_port)) 4 (swap16 (buf.len + 8))) 6 0 := ⟨_, rfl⟩
  obtain ⟨seg0, hseg⟩ : ∃ b : buf_t, b = ⟨buf.len + 8, buf.data - (8 : Nat),
      memcpy buf.payload (buf.data - (8 : Nat)) hdr0 0 8⟩ := ⟨_, rfl⟩
  have e : udp_out_buf s buf src_port dst_ip dst_port
      = ⟨(transport_checksum NET_PROTOCOL_UDP seg0 s.net_if_ip dst_ip).2.len,
          (transport_checksum NET_PROTOCOL_UDP seg0 s.net_if_ip dst_ip).2.data,
          memcpy (transport_checksum NET_PROTOCOL_UDP seg0 s.net_if_ip dst_ip).2.payload
            (transport_checksum NET_PROTOCOL_UDP seg0 s.net_if_ip dst_ip).2.data
            (store16 hdr0 6 (transport_checksum NET_PROTOCOL_UDP seg0 s.net_if_ip dst_ip).1)
            0 8⟩ := by
    subst hseg hhdr
    rfl
  obtain ⟨t1, t2, t3⟩ := transport_checksum_buf NET_PROTOCOL_UDP seg0 s.net_if_ip dst_ip
  have s1 : seg0.len = buf.len + 8 := by rw [hseg]
  have s2 : seg0.data = buf.data - (8 : Nat) := by rw [hseg]
  have s3 : seg0.payload = memcpy buf.payload (buf.data - (8 : Nat)) hdr0 0 8 := by rw [hseg]
  rw [← hhdr] at hh
  refine ⟨seg0, _, rfl, s1, ?_, ?_, ?_⟩
  · unfold buf_t.bytes
    rw [s1, s2, s3, show buf.len + 8 = 8 + buf.len by omega, bytes_memcpy_prefix, hrest,
      show 8 + buf.len = buf.len + 8 by omega, hh]
  · rw [e]
    exact t1.trans s1
  · rw [e]
    unfold buf_t.bytes
    simp only
    rw [t1, t2, s1, s2, show buf.len + 8 = 8 + buf.len by omega, bytes_memcpy_prefix]
    congr 1
    · have := udp_header_store hdr0 0 0 src_port dst_port (8 + buf.len) 0
        (transport_checksum NET_PROTOCOL_UDP seg0 s.net_if_ip dst_ip).1 (by
            unfold transport_checksum
            exact checksum16_lt _ _ _) [] (by
              rw [show 8 + buf.len = buf.len + 8 by omega]
              simpa using hh)
      simpa using this
    · rw [← hrest]
      apply bytes_congr
      intro k hk
      rw [t3 _ (by rw [s1, s2]; push_cast; omega), s3]
      exact memcpy_of_not _ _ _ _ _ _ (by omega)


theorem transport_checksum_lt (protocol : Nat) (buf : buf_t) (src_ip dst_ip : ip_t) :
    (transport_checksum protocol buf src_ip dst_ip).1 < 65536 := by
  unfold transport_checksum
  exact checksum16_lt _ _ _

/-- What `udp_in` does with a segment that holds a correct header: the handler registered
for the destination port is called once with the payload. -/
theorem udp_in_segment (s : net_t) (rbuf : buf_t) (src_ip : ip_t)
    (sp dp c handle : Nat) (payload : List Nat)
    (hsp : sp < 65536) (hdp : dp < 65536) (hl : payload.length + 8 ≤ 65535)
    (hb : rbuf.bytes = udp_header sp dp (payload.length + 8) c ++ payload)
    (hc : c = (transport_checksum NET_PROTOCOL_UDP
        { rbuf with payload := store16 rbuf.payload (rbuf.data + 6) 0 } src_ip s.net_if_ip).1)
    (hreg : s.udp_table dp = some handle) :
    ∃ hbuf : buf_t,
      udp_in s rbuf src_ip
        = ({ s with trace := s.trace ++ [Event.udp_handler handle hbuf src_ip sp] }, hbuf)
      ∧ hbuf.len = payload.length ∧ hbuf.bytes = payload := by
  have hlen : rbuf.len = 8 + payload.length := by
    have := congrArg List.length hb
    simp only [buf_t.bytes, bytes_length, List.length_append, udp_header, List.length_cons,
      List.length_nil] at this
    omega
  have hb' : bytes rbuf.payload rbuf.data (8 + payload.length)
      = udp_header sp dp (payload.length + 8) c ++ payload := by
    rw [← hlen]; exact hb
  obtain ⟨h8, hp⟩ := bytes_split _ _ 8 payload.length _ _ hb' rfl
  have hm : ∀ j : Nat, j < 8 →
      (rbuf.payload (rbuf.data + j)).val = (udp_header sp dp (payload.length + 8) c).getD j 0 :=
    fun j hj => by rw [← h8, bytes_get _ _ _ _ hj]
  have c16 : c < 65536 := hc ▸ transport_checksum_lt _ _ _ _
  have m0 := hm 0 (by decide)
  have m1 := hm 1 (by decide)
  have m2 := hm 2 (by decide)
  have m3 := hm 3 (by decide)
  have m4 := hm 4 (by decide)
  have m5 := hm 5 (by decide)
  have m6 := hm 6 (by decide)
  have m7 := hm 7 (by decide)
  simp only [udp_header, List.getD_cons_zero, List.getD_cons_succ, Nat.cast_zero, add_zero,
    Nat.cast_one, Nat.cast_ofNat] at m0 m1 m2 m3 m4 m5 m6 m7
  have p0 : swap16 (load16 rbuf.payload rbuf.data) = sp := by
    unfold load16; rw [m0, m1]; exact swap16_be sp hsp
  have p2 : swap16 (load16 rbuf.payload (rbuf.data + 2)) = dp := by
    unfold load16; rw [m2, show rbuf.data + 2 + 1 = rbuf.data + 3 by omega, m3]
    exact swap16_be dp hdp
  have p4 : swap16 (load16 rbuf.payload (rbuf.data + 4)) = payload.length + 8 := by
    unfold load16; rw [m4, show rbuf.data + 4 + 1 = rbuf.data + 5 by omega, m5]
    exact swap16_be _ (by omega)
  have p6 : load16 rbuf.payload (rbuf.data + 6) = c := by
    unfold load16; rw [m6, show rbuf.data + 6 + 1 = rbuf.data + 7 by omega, m7]
    omega
  obtain ⟨b, b1, b2, b3, e⟩ := udp_in_accept s rbuf src_ip (by omega) (by rw [p4]; omega)
    (Or.inr (by rw [p6]; exact hc))
  rw [p2, hreg, p0] at e
  refine ⟨buf_remove_header b sizeof_udp_hdr_t, e, ?_, ?_⟩
  · simp only [buf_remove_header, sizeof_udp_hdr_t]
    rw [if_neg (by omega)]
    simp only [b1]
    omega
  · simp only [buf_remove_header, sizeof_udp_hdr_t, buf_t.bytes]
    rw [if_neg (by omega)]
    simp only [b1, b2]
    rw [← hp, hlen, show 8 + payload.length - 8 = payload.length by omega]
    apply bytes_congr
    intro k hk
    exact b3 _ (by omega)

/-- C11: UDP send/receive round trip.  For every payload of `n ≤ 65527` bytes, every pair
of 16-bit ports and every pair of hosts, `udp_out` at the host with local address `A`
hands to `ip_out`, for the destination `B` and with protocol UDP, a segment of `n + 8`
bytes whose header holds the ports and the total length `n + 8` in network byte order and
whose remaining bytes are the payload.  Every buffer holding these segment bytes, given
to `udp_in` at the host with local address `B` with `src_ip = A` while a handler is
registered for the destination port, passes the length and checksum checks; the only
effect is one call of that handler, with exactly the payload bytes, length `n`, source
address `A` and the source port, so that no ICMP message is sent. -/
theorem udp_round_trip (sA sB : net_t) (buf rbuf : buf_t) (src_port dst_port handle : Nat)
    (hn : buf.len ≤ 65527) (hsp : src_port < 65536) (hdp : dst_port < 65536)
    (hreg : sB.udp_table dst_port = some handle)
    (hr : rbuf.bytes = (udp_out_buf sA buf src_port sB.net_if_ip dst_port).bytes) :
    udp_out sA buf src_port sB.net_if_ip dst_port
      = ip_out sA (udp_out_buf sA buf src_port sB.net_if_ip dst_port) sB.net_if_ip
          NET_PROTOCOL_UDP
    ∧ (udp_out_buf sA buf src_port sB.net_if_ip dst_port).len = buf.len + 8
    ∧ (udp_out_buf sA buf src_port sB.net_if_ip dst_port).bytes.take 6
        = [src_port / 256, src_port % 256, dst_port / 256, dst_port % 256,
            (buf.len + 8) / 256, (buf.len + 8) % 256]
    ∧ (udp_out_buf sA buf src_port sB.net_if_ip dst_port).bytes.drop 8 = buf.bytes
    ∧ ∃ hbuf : buf_t,
        udp_in sB rbuf sA.net_if_ip
          = ({ sB with trace := sB.trace
                ++ [Event.udp_handler handle hbuf sA.net_if_ip src_port] }, hbuf)
        ∧ hbuf.len = buf.len ∧ hbuf.bytes = buf.bytes := by
  obtain ⟨seg0, c, hc, l0, b0, l1, b1⟩ := udp_out_buf_eq sA buf src_port dst_port sB.net_if_ip
    (by omega) hsp hdp
  have hbl : buf.bytes.length = buf.len := bytes_length _ _ _
  refine ⟨rfl, l1, ?_, ?_, ?_⟩
  · rw [b1]; rfl
  · rw [b1]; rfl
  · rw [b1] at hr
    rw [← hbl] at hr
    have hz : ({ rbuf with payload := store16 rbuf.payload (rbuf.data + 6) 0 } : buf_t).bytes
        = seg0.bytes := by
      have hlen : rbuf.len = 8 + buf.bytes.length := by
        have := congrArg List.length hr
        simp only [buf_t.bytes, bytes_length, List.length_append, udp_header, List.length_cons,
          List.length_nil] at this
        omega
      have hr' : bytes rbuf.payload rbuf.data (8 + buf.bytes.length)
          = udp_header src_port dst_port (buf.bytes.length + 8) c ++ buf.bytes := by
        rw [← hlen]; exact hr
      have := udp_header_store rbuf.payload rbuf.data buf.bytes.length src_port dst_port
        (buf.bytes.length + 8) c 0 (by decide) buf.bytes hr'
      show bytes (store16 rbuf.payload (rbuf.data + 6) 0) rbuf.data rbuf.len = seg0.bytes
      rw [hlen, this, b0, hbl]
    have hcc : c = (transport_checksum NET_PROTOCOL_UDP
        { rbuf with payload := store16 rbuf.payload (rbuf.data + 6) 0 }
        sA.net_if_ip sB.net_if_ip).1 := by
      rw [hc]
      exact (transport_checksum_congr NET_PROTOCOL_UDP _ _ _ _ (by decide)
        (by
          have := congrArg List.length hz
          simp only [buf_t.bytes, bytes_length] at this
          simp only
          omega) hz).symm
    obtain ⟨hbuf, e1, e2, e3⟩ := udp_in_segment sB rbuf sA.net_if_ip src_port dst_port c handle
      buf.bytes hsp hdp (by omega) hr hcc hreg
    exact ⟨hbuf, e1, e2.trans hbl, e3⟩

/-- Witness of C11: the payload `68 69` sent from 192.168.1.2, port 1234, to port 53 of
10.0.0.1, where handler 7 is registered. -/
theorem udp_round_trip_witness :
    handled (udp_in example_state_open
        (udp_out_buf example_state (example_buf [104, 105]) 1234
          example_state_open.net_if_ip 53) example_state.net_if_ip).1.trace
      = [(7, [104, 105], 2, example_state.net_if_ip, 1234)] := by
  obtain ⟨-, -, -, -, hbuf, e1, e2, e3⟩ := udp_round_trip example_state example_state_open
    (example_buf [104, 105]) _ 1234 53 7 (by decide) (by decide) (by decide) rfl rfl
  rw [e1]
  simp only [example_state_open, List.nil_append, handled, e2, e3]
  decide


theorem dispatched_append (t1 t2 : List Event) :
    dispatched (t1 ++ t2) = dispatched t1 ++ dispatched t2 := by
  induction t1 with
  | nil => rfl
  | cons e t ih => cases e <;> simp [dispatched, ih]

theorem ip_fragment_out_dispatched (s : net_t) (buf : buf_t) (ip : ip_t)
    (protocol id offset mf : Nat) :
    dispatched (ip_fragment_out s buf ip protocol id offset mf).trace = dispatched s.trace := by
  have e : ∃ pkt, (ip_fragment_out s buf ip protocol id offset mf).trace
      = s.trace ++ [Event.arp_out pkt ip] := ⟨_, rfl⟩
  obtain ⟨pkt, e⟩ := e
  rw [e, dispatched_append]
  simp [dispatched]

theorem ip_out_loop_dispatched (buf : buf_t) (ip : ip_t) (protocol id fpl : Nat) (fuel : Nat) :
    ∀ (s : net_t) (offset remaining : Nat),
      dispatched (ip_out_loop buf ip protocol id fpl fuel s offset remaining).trace
        = dispatched s.trace := by
  induction fuel with
  | zero => intro s offset remaining; rfl
  | succ fuel ih =>
    intro s offset remaining
    unfold ip_out_loop
    split
    · simp only []
      rw [ih, ip_fragment_out_dispatched]
    · simp only []
      rw [ip_fragment_out_dispatched]

theorem ip_out_dispatched (s : net_t) (buf : buf_t) (ip : ip_t) (protocol : Nat) :
    dispatched (ip_out s buf ip protocol).trace = dispatched s.trace := by
  unfold ip_out
  simp only []
  split
  · rw [ip_out_loop_dispatched]
  · rw [ip_fragment_out_dispatched]

theorem icmp_in_dispatched (s : net_t) (buf : buf_t) (src_ip : ip_t) :
    dispatched (icmp_in s buf src_ip).trace = dispatched s.trace := by
  unfold icmp_in
  split
  · rfl
  · simp only []
    split
    · unfold icmp_resp
      simp only []
      rw [ip_out_dispatched]
    · rfl

theorem icmp_unreachable_dispatched (s : net_t) (buf : buf_t) (src_ip : ip_t) (code : Nat) :
    dispatched (icmp_unreachable s buf src_ip code).trace = dispatched s.trace := by
  unfold icmp_unreachable
  simp only []
  rw [ip_out_dispatched]

theorem udp_in_dispatched (s : net_t) (buf : buf_t) (src_ip : ip_t) :
    dispatched (udp_in s buf src_ip).1.trace = dispatched s.trace := by
  unfold udp_in
  split
  · rfl
  · simp only []
    split
    · rfl
    · split
      · rfl
      · split
        · simp only []
          rw [icmp_unreachable_dispatched]
        · simp only []
          rw [dispatched_append]
          simp [dispatched]

theorem net_in_dispatched (s : net_t) (buf : buf_t) (protocol : Nat) (src : ip_t) :
    dispatched (net_in s buf protocol src).1.trace
      = dispatched s.trace ++ [(buf.bytes, protocol, src)] := by
  have e : dispatched (s.trace ++ [Event.net_in buf protocol src])
      = dispatched s.trace ++ [(buf.bytes, protocol, src)] := by
    rw [dispatched_append]; rfl
  unfold net_in
  simp only []
  split
  · rw [icmp_in_dispatched]; exact e
  · split
    · rw [udp_in_dispatched]; exact e
    · exact e


theorem ip_header_store (m : mem_t) (h : Int) (c c2 : Nat) (hc : c2 < 65536)
    (src_ip dst_ip : ip_t) (total_len id ff protocol : Nat)
    (hb : bytes m h 20 = ip_header src_ip dst_ip total_len id ff protocol c) :
    bytes (store16 m (h + 10) c2) h 20 = ip_header src_ip dst_ip total_len id ff protocol c2 := by
  apply bytes_eq_of_forall _ _ 20 (ip_header src_ip dst_ip total_len id ff protocol c2) rfl
  intro k hk
  have hm : ∀ j : Nat, j < 20 →
      (m (h + j)).val = (ip_header src_ip dst_ip total_len id ff protocol c).getD j 0 :=
    fun j hj => by rw [← hb, bytes_get _ _ _ _ hj]
  have e10 : (store16 m (h + 10) c2 (h + ((10 : Nat) : Int))).val = c2 % 256 := by
    simp [store16_apply]
  have e11 : (store16 m (h + 10) c2 (h + ((11 : Nat) : Int))).val = c2 / 256 := by
    simp [store16_apply, add_assoc]
    omega
  interval_cases k <;>
    first
    | exact e10
    | exact e11
    | (rw [store16_of_ne _ _ _ _ (by push_cast; omega) (by push_cast; omega), hm _ (by omega)]
       rfl)

theorem store16_store16 (m : mem_t) (a : Int) (v w : Nat) :
    store16 (store16 m a v) a w = store16 m a w := by
  funext i
  simp only [store16_apply]
  split_ifs <;> rfl

theorem store16_load16 (m : mem_t) (a : Int) : store16 m a (load16 m a) = m := by
  funext i
  simp only [store16_apply, load16]
  have := (m a).isLt
  have := (m (a + 1)).isLt
  split_ifs with c1 c2
  · subst c1; apply Fin.ext; simp only [u8_val]; omega
  · subst c2; apply Fin.ext; simp only [u8_val]; omega
  · rfl

/-- The accepting path of `ip_in` for a packet with a 20-byte header: the payload is
handed to the dispatch registry, and a protocol-unreachable message follows when the
registry has no handler. -/
theorem ip_in_accept (s : net_t) (rbuf : buf_t) (src_ip : ip_t)
    (id ff protocol : Nat) (payload pad : List Nat)
    (hl : 20 + payload.length < 65536)
    (hb : rbuf.bytes = ip_header src_ip s.net_if_ip (20 + payload.length) id ff protocol
        (checksum16 (ofList (ip_header src_ip s.net_if_ip (20 + payload.length) id ff
          protocol 0)) 0 20) ++ payload ++ pad) :
    (⟨payload.length, rbuf.data + 20, rbuf.payload⟩ : buf_t).bytes = payload
    ∧ ip_in s rbuf
      = if (net_in s ⟨payload.length, rbuf.data + 20, rbuf.payload⟩ protocol src_ip).2.2 = -1
        then
          (icmp_unreachable
            (net_in s ⟨payload.length, rbuf.data + 20, rbuf.payload⟩ protocol src_ip).1
            (buf_add_header
              (net_in s ⟨payload.length, rbuf.data + 20, rbuf.payload⟩ protocol src_ip).2.1 20)
            src_ip ICMP_CODE_PROTOCOL_UNREACH,
           buf_add_header
              (net_in s ⟨payload.length, rbuf.data + 20, rbuf.payload⟩ protocol src_ip).2.1 20)
        else
          ((net_in s ⟨payload.length, rbuf.data + 20, rbuf.payload⟩ protocol src_ip).1,
           (net_in s ⟨payload.length, rbuf.data + 20, rbuf.payload⟩ protocol src_ip).2.1) := by
  have hlen : rbuf.len = 20 + (payload.length + pad.length) := by
    have := congrArg List.length hb
    simp only [buf_t.bytes, bytes_length, List.length_append, ip_header, List.length_cons,
      List.length_nil] at this
    omega
  have hb' : bytes rbuf.payload rbuf.data (20 + (payload.length + pad.length))
      = ip_header src_ip s.net_if_ip (20 + payload.length) id ff protocol
        (checksum16 (ofList (ip_header src_ip s.net_if_ip (20 + payload.length) id ff
          protocol 0)) 0 20) ++ (payload ++ pad) := by
    rw [← hlen, ← List.append_assoc]; exact hb
  obtain ⟨h20, hrest⟩ := bytes_split _ _ 20 _ _ _ hb' rfl
  obtain ⟨hpay, -⟩ := bytes_split _ _ payload.length pad.length _ _ hrest rfl
  generalize hcd : checksum16 (ofList (ip_header src_ip s.net_if_ip (20 + payload.length) id ff
          protocol 0)) 0 20 = c at h20
  have c16 : c < 65536 := hcd ▸ checksum16_lt _ _ _
  have hm : ∀ j : Nat, j < 20 → (rbuf.payload (rbuf.data + j)).val
      = (ip_header src_ip s.net_if_ip (20 + payload.length) id ff protocol c).getD j 0 :=
    fun j hj => by rw [← h20, bytes_get _ _ _ _ hj]
  have m0 := hm 0 (by decide)
  have m2 := hm 2 (by decide)
  have m3 := hm 3 (by decide)
  have m9 := hm 9 (by decide)
  have m10 := hm 10 (by decide)
  have m11 := hm 11 (by decide)
  have m12 := hm 12 (by decide)
  have m13 := hm 13 (by decide)
  have m14 := hm 14 (by decide)
  have m15 := hm 15 (by decide)
  have m16 := hm 16 (by decide)
  have m17 := hm 17 (by decide)
  have m18 := hm 18 (by decide)
  have m19 := hm 19 (by decide)
  simp only [ip_header, List.getD_cons_zero, List.getD_cons_succ, Nat.cast_zero, add_zero,
    Nat.cast_ofNat] at m0 m2 m3 m9 m10 m11 m12 m13 m14 m15 m16 m17 m18 m19
  have f0 : load8 rbuf.payload rbuf.data = 69 := m0
  have f0' : load8 (store16 rbuf.payload (rbuf.data + 10) 0) rbuf.data = 69 := by
    unfold load8
    rw [store16_of_ne _ _ _ _ (by omega) (by omega)]
    exact m0
  have f2 : swap16 (load16 rbuf.payload (rbuf.data + 2)) = 20 + payload.length := by
    unfold load16
    rw [m2, show rbuf.data + 2 + 1 = rbuf.data + 3 by omega, m3]
    exact swap16_be _ hl
  have f10 : load16 rbuf.payload (rbuf.data + 10) = c := by
    unfold load16
    rw [m10, show rbuf.data + 10 + 1 = rbuf.data + 11 by omega, m11]
    omega
  have f9 : load8 rbuf.payload (rbuf.data + 9) = protocol := m9
  have f12 : load_ip rbuf.payload (rbuf.data + 12) = src_ip := by
    funext k
    apply Fin.ext
    unfold load_ip
    fin_cases k
    · simpa using m12
    · simpa [add_assoc] using m13
    · simpa [add_assoc] using m14
    · simpa [add_assoc] using m15
  have f16 : load_ip rbuf.payload (rbuf.data + 16) = s.net_if_ip := by
    funext k
    apply Fin.ext
    unfold load_ip
    fin_cases k
    · simpa using m16
    · simpa [add_assoc] using m17
    · simpa [add_assoc] using m18
    · simpa [add_assoc] using m19
  have fck : checksum16 (store16 rbuf.payload (rbuf.data + 10) 0) rbuf.data 20 = c := by
    rw [checksum16_of_bytes _ _ _ _ (ip_header_store _ _ c 0 (by decide) _ _ _ _ _ _ h20), hcd]
  refine ⟨hpay, ?_⟩
  unfold ip_in
  simp only [sizeof_ip_hdr_t, IP_VERSION_4, IP_HDR_LEN_PER_BYTE]
  rw [if_neg (by omega)]
  simp only [f0, f0', f2, f10, store16_store16]
  rw [if_neg (by omega)]
  simp only [fck, ne_eq, not_true_eq_false, if_false]
  rw [← f10, store16_load16]
  simp only [f16, ne_eq, not_true_eq_false, if_false, f9, f12]
  have ht : (if rbuf.len > 20 + payload.length then
      buf_remove_padding { len := rbuf.len, data := rbuf.data, payload := rbuf.payload }
        (rbuf.len - (20 + payload.length))
      else { len := rbuf.len, data := rbuf.data, payload := rbuf.payload })
      = ⟨20 + payload.length, rbuf.data, rbuf.payload⟩ := by
    split
    · unfold buf_remove_padding
      rw [if_neg (by simp only; omega)]
      simp only
      congr 1
      omega
    · congr 1
      omega
  rw [ht]
  simp only [f0, f9, f12, buf_remove_header]
  rw [if_neg (show ¬ (20 + payload.length < 69 % 16 * 4 % 256) by omega)]
  simp only [show (20 + payload.length - 69 % 16 * 4 % 256) = payload.length by omega,
    show ((69 % 16 * 4 % 256 : Nat) : Int) = 20 by decide]

/-- C20: IP send/receive round trip.  For every payload of at most 1480 bytes, every
protocol number below 256, every identification, 16-bit offset and more-fragments value
and every pair of hosts, `ip_fragment_out` at the host with local address `A` hands one
packet for the destination `B` to the ARP resolver; every buffer that holds the bytes of
this packet followed by any trailing padding is accepted by `ip_in` at the host with
local address `B`: exactly one payload is handed to the dispatch registry, it consists of
exactly the original payload bytes (the padding is trimmed), and it comes with the same
protocol number and the source address `A`. -/
theorem ip_round_trip (sA sB : net_t) (buf : buf_t) (protocol id offset mf : Nat)
    (hl : buf.len ≤ 1480) (hp : protocol < 256) (ho : offset < 65536) :
    ∃ pkt : buf_t,
      ip_fragment_out sA buf sB.net_if_ip protocol id offset mf
        = { sA with trace := sA.trace ++ [Event.arp_out pkt sB.net_if_ip] }
      ∧ ∀ (rbuf : buf_t) (pad : List Nat), rbuf.bytes = pkt.bytes ++ pad →
          dispatched (ip_in sB rbuf).1.trace
            = dispatched sB.trace ++ [(buf.bytes, protocol, sA.net_if_ip)] := by
  obtain ⟨pkt, e1, -, -, e2⟩ := ip_fragment_out_eq sA buf sB.net_if_ip protocol id offset mf
    hp (by omega) ho
  refine ⟨pkt, e1, fun rbuf pad hr => ?_⟩
  have hbl : buf.bytes.length = buf.len := bytes_length _ _ _
  rw [e2] at hr
  obtain ⟨a1, a2⟩ := ip_in_accept sB rbuf sA.net_if_ip id
    ((if mf ≠ 0 then 8192 else 0) + offset / 8) protocol buf.bytes pad (by omega) hr
  rw [a2]
  split
  · simp only []
    rw [icmp_unreachable_dispatched, net_in_dispatched, a1]
  · simp only []
    rw [net_in_dispatched, a1]

/-- Witness of C20: the ICMP echo request `08 00 f7 ff 00 00 00 00` sent from 192.168.1.2
to 10.0.0.1 and received there with 18 bytes of padding. -/
theorem ip_round_trip_witness :
    ∃ pkt : buf_t,
      ip_fragment_out example_state (example_buf [8, 0, 247, 255, 0, 0, 0, 0])
          example_state_open.net_if_ip 1 0 0 0
        = { example_state with
            trace := example_state.trace ++ [Event.arp_out pkt example_state_open.net_if_ip] }
      ∧ ∀ (rbuf : buf_t) (pad : List Nat), rbuf.bytes = pkt.bytes ++ pad →
          dispatched (ip_in example_state_open rbuf).1.trace
            = dispatched example_state_open.trace
              ++ [((example_buf [8, 0, 247, 255, 0, 0, 0, 0]).bytes, 1,
                    example_state.net_if_ip)] :=
  ip_round_trip example_state example_state_open (example_buf [8, 0, 247, 255, 0, 0, 0, 0])
    1 0 0 0 (by decide) (by decide) (by decide)


theorem memcpy_mac_apply (dm : mem_t) (dst : Int) (mac : mac_t) (i : Int) :
    memcpy_mac dm dst mac i = if i = dst + 5 then mac 5 else if i = dst + 4 then mac 4
      else if i = dst + 3 then mac 3 else if i = dst + 2 then mac 2
      else if i = dst + 1 then mac 1 else if i = dst then mac 0 else dm i := rfl

theorem memcpy_mac_of_not (dm : mem_t) (dst : Int) (mac : mac_t) (i : Int)
    (h : i < dst ∨ dst + 6 ≤ i) : memcpy_mac dm dst mac i = dm i := by
  simp only [memcpy_mac_apply]
  rw [if_neg (by omega), if_neg (by omega), if_neg (by omega), if_neg (by omega),
    if_neg (by omega), if_neg (by omega)]

theorem bytes_replicate (m : mem_t) (a : Int) (n : Nat)
    (h : ∀ k : Nat, k < n → m (a + k) = 0) : bytes m a n = List.replicate n 0 := by
  apply List.ext_getElem (by simp [bytes_length])
  intro k h1 h2
  have hk : k < n := by simpa [bytes_length] using h1
  have := bytes_get m a n k hk
  rw [List.getD_eq_getElem _ _ h1] at this
  rw [this, h k hk]
  simp

/-- The window of a buffer after zero padding. -/
theorem buf_add_padding_bytes (buf : buf_t) (p : Nat) :
    (buf_add_padding buf p).bytes = buf.bytes ++ List.replicate p 0 := by
  unfold buf_add_padding buf_t.bytes
  simp only
  rw [bytes_append]
  congr 1
  · exact bytes_congr _ _ _ _ _ (fun k hk => memset0_of_not _ _ _ _ (by omega))
  · exact bytes_replicate _ _ _ (fun k hk => by rw [memset0_apply, if_pos (by omega)])

theorem buf_bytes_length (buf : buf_t) : buf.bytes.length = buf.len := bytes_length _ _ _

/-- The 14 bytes of the Ethernet header that `ethernet_out` writes. -/
theorem ether_hdr_bytes (m : mem_t) (a : Int) (dst src : mac_t) (protocol : Nat)
    (hp : protocol < 65536) :
    bytes (store16 (memcpy_mac (memcpy_mac m a dst) (a + 6) src) (a + 12) (swap16 protocol)) a 14
      = mac_bytes dst ++ mac_bytes src ++ [protocol / 256, protocol % 256] := by
  apply bytes_eq_of_forall _ _ 14
    (mac_bytes dst ++ mac_bytes src ++ [protocol / 256, protocol % 256]) rfl
  intro k hk
  simp only [store16_apply, memcpy_mac_apply, mac_bytes]
  interval_cases k <;> simp [add_assoc, swap16_lo, swap16_hi]
  omega

/-- The frame that `ethernet_out` hands to the driver. -/
theorem ethernet_out_eq (s : link_t) (buf : buf_t) (mac : mac_t) (protocol : Nat)
    (hp : protocol < 65536) :
    ∃ frame : buf_t,
      ethernet_out s buf mac protocol
        = ({ s with trace := s.trace ++ [LinkEvent.driver_send frame] }, frame)
      ∧ frame.len = 14 + max buf.len 46
      ∧ frame.bytes = ether_frame mac s.net_if_mac protocol buf.bytes := by
  obtain ⟨pb, hpb⟩ : ∃ b : buf_t, b = if buf.len < ETHERNET_MIN_TRANSPORT_UNIT then
      buf_add_padding buf (ETHERNET_MIN_TRANSPORT_UNIT - buf.len) else buf := ⟨_, rfl⟩
  have p1 : pb.len = max buf.len 46 := by
    rw [hpb]
    unfold ETHERNET_MIN_TRANSPORT_UNIT buf_add_padding
    split
    · simp only
      omega
    · omega
  have p2 : pb.bytes = buf.bytes ++ List.replicate (46 - buf.len) 0 := by
    rw [hpb]
    unfold ETHERNET_MIN_TRANSPORT_UNIT
    split
    · exact buf_add_padding_bytes _ _
    · rw [show 46 - buf.len = 0 by omega, List.replicate_zero, List.append_nil]
  refine ⟨⟨pb.len + 14, pb.data - (14 : Nat),
    store16 (memcpy_mac (memcpy_mac pb.payload (pb.data - (14 : Nat)) mac)
      (pb.data - (14 : Nat) + 6) s.net_if_mac) (pb.data - (14 : Nat) + 12) (swap16 protocol)⟩,
    ?_, ?_, ?_⟩
  · subst hpb
    rfl
  · simp only
    omega
  · unfold ether_frame
    rw [buf_bytes_length, List.append_assoc _ buf.bytes, ← p2, ← ether_hdr_bytes pb.payload (pb.data - (14 : Nat)) mac
      s.net_if_mac protocol hp]
    unfold buf_t.bytes
    simp only
    rw [show pb.len + 14 = 14 + pb.len by omega, bytes_append]
    congr 1
    apply bytes_congr
    intro k hk
    rw [store16_of_ne _ _ _ _ (by push_cast; omega) (by push_cast; omega),
      memcpy_mac_of_not _ _ _ _ (by push_cast; omega),
      memcpy_mac_of_not _ _ _ _ (by push_cast; omega)]
    congr 1
    push_cast
    omega

theorem ether_frame_length (dst src : mac_t) (protocol : Nat) (l : List Nat) :
    (ether_frame dst src protocol l).length = 14 + max l.length 46 := by
  simp [ether_frame, mac_bytes]
  omega

/-- What `ethernet_in` does with a frame as `ethernet_out` builds it, possibly followed by
further bytes in the receive buffer. -/
theorem ethernet_in_frame (s : link_t) (fbuf : buf_t) (dst src : mac_t) (protocol : Nat)
    (payload : List Nat) (hp : protocol < 65536)
    (hf : fbuf.bytes = ether_frame dst src protocol payload) :
    ∃ pbuf : buf_t,
      ethernet_in s fbuf
        = ({ s with trace := s.trace ++ [LinkEvent.net_in pbuf protocol src] }, pbuf)
      ∧ pbuf.bytes = payload ++ List.replicate (46 - payload.length) 0 := by
  have hlen : fbuf.len = 14 + max payload.length 46 := by
    rw [← buf_bytes_length, hf, ether_frame_length]
  have hsplit : bytes fbuf.payload fbuf.data (14 + max payload.length 46)
      = (mac_bytes dst ++ mac_bytes src ++ [protocol / 256, protocol % 256])
        ++ (payload ++ List.replicate (46 - payload.length) 0) := by
    rw [← hlen]
    show fbuf.bytes = _
    rw [hf]
    unfold ether_frame
    simp
  obtain ⟨h1, h2⟩ := bytes_split _ _ 14 _ _ _ hsplit rfl
  have hb : ∀ j : Nat, j < 14 → (fbuf.payload (fbuf.data + j)).val
      = (mac_bytes dst ++ mac_bytes src ++ [protocol / 256, protocol % 256]).getD j 0 :=
    fun j hj => by rw [← h1, bytes_get _ _ _ _ hj]
  have hproto : swap16 (load16 fbuf.payload (fbuf.data + 12)) = protocol := by
    have e12 := hb 12 (by omega)
    have e13 := hb 13 (by omega)
    simp [mac_bytes] at e12 e13
    unfold load16
    rw [show fbuf.data + 12 + 1 = fbuf.data + 13 by omega, e12, e13]
    exact swap16_be protocol hp
  have hsrc : load_mac fbuf.payload (fbuf.data + 6) = src := by
    funext k
    apply Fin.ext
    unfold load_mac
    have e6 := hb 6 (by omega)
    have e7 := hb 7 (by omega)
    have e8 := hb 8 (by omega)
    have e9 := hb 9 (by omega)
    have e10 := hb 10 (by omega)
    have e11 := hb 11 (by omega)
    simp [mac_bytes] at e6 e7 e8 e9 e10 e11
    fin_cases k <;> simp [add_assoc] <;> assumption
  refine ⟨buf_remove_header fbuf sizeof_ether_hdr_t, ?_, ?_⟩
  · unfold ethernet_in
    rw [if_neg (by unfold sizeof_ether_hdr_t; omega)]
    simp only [hproto, hsrc]
  · rw [← h2]
    unfold buf_remove_header sizeof_ether_hdr_t buf_t.bytes
    rw [if_neg (by omega)]
    simp only
    congr 1
    omega


theorem frames_append (t1 t2 : List LinkEvent) :
    frames (t1 ++ t2) = frames t1 ++ frames t2 := by
  induction t1 with
  | nil => rfl
  | cons e t ih => cases e <;> simp [frames, ih]

theorem link_dispatched_append (t1 t2 : List LinkEvent) :
    link_dispatched (t1 ++ t2) = link_dispatched t1 ++ link_dispatched t2 := by
  induction t1 with
  | nil => rfl
  | cons e t ih => cases e <;> simp [link_dispatched, ih]

/-- The 28 bytes of the ARP request that `arp_req` builds. -/
theorem arp_req_pkt_bytes (m : mem_t) (a : Int) (s : link_t) (target_ip : ip_t) :
    bytes (memset0 (memcpy_ip (store16 (memcpy m a (arp_init_pkt s) 0 sizeof_arp_pkt_t) (a + 6)
        (swap16 ARP_REQUEST)) (a + 24) target_ip) (a + 18) NET_MAC_LEN) a 28
      = arp_packet ARP_REQUEST s.net_if_mac s.net_if_ip (fun _ => 0) target_ip := by
  apply bytes_eq_of_forall _ _ 28
    (arp_packet ARP_REQUEST s.net_if_mac s.net_if_ip (fun _ => 0) target_ip) rfl
  intro k hk
  simp only [memset0_apply, memcpy_ip_apply, store16_apply, memcpy_apply, arp_init_pkt,
    store8_apply, memcpy_mac_apply, arp_packet, mac_bytes, ip_bytes, sizeof_arp_pkt_t,
    NET_MAC_LEN, NET_IP_LEN, ARP_REQUEST, ARP_HW_ETHER, NET_PROTOCOL_IP]
  interval_cases k <;> simp [add_assoc, swap16_lo, swap16_hi]

/-- The 28 bytes of the ARP reply that `arp_resp` builds. -/
theorem arp_resp_pkt_bytes (m : mem_t) (a : Int) (s : link_t) (target_ip : ip_t)
    (target_mac : mac_t) :
    bytes (memcpy_mac (memcpy_ip (store16 (memcpy m a (arp_init_pkt s) 0 sizeof_arp_pkt_t)
        (a + 6) (swap16 ARP_REPLY)) (a + 24) target_ip) (a + 18) target_mac) a 28
      = arp_packet ARP_REPLY s.net_if_mac s.net_if_ip target_mac target_ip := by
  apply bytes_eq_of_forall _ _ 28
    (arp_packet ARP_REPLY s.net_if_mac s.net_if_ip target_mac target_ip) rfl
  intro k hk
  simp only [memcpy_ip_apply, store16_apply, memcpy_apply, arp_init_pkt,
    store8_apply, memcpy_mac_apply, arp_packet, mac_bytes, ip_bytes, sizeof_arp_pkt_t,
    NET_MAC_LEN, NET_IP_LEN, ARP_REPLY, ARP_HW_ETHER, NET_PROTOCOL_IP]
  interval_cases k <;> simp [add_assoc, swap16_lo, swap16_hi]

/-- The effect of `arp_req`: one broadcast frame with an ARP request, left in `txbuf`. -/
theorem arp_req_eq (s : link_t) (target_ip : ip_t) :
    ∃ frame : buf_t,
      arp_req s target_ip
        = { s with txbuf := frame, trace := s.trace ++ [LinkEvent.driver_send frame] }
      ∧ frame.bytes = ether_frame (fun _ => 255) s.net_if_mac NET_PROTOCOL_ARP
          (arp_packet ARP_REQUEST s.net_if_mac s.net_if_ip (fun _ => 0) target_ip) := by
  obtain ⟨tx, htx⟩ : ∃ b : buf_t, b = ⟨0 + sizeof_arp_pkt_t, 0 - (sizeof_arp_pkt_t : Int),
    memset0 (memcpy_ip (store16 (memcpy s.txbuf.payload (0 - (sizeof_arp_pkt_t : Int))
      (arp_init_pkt s) 0 sizeof_arp_pkt_t) (0 - (sizeof_arp_pkt_t : Int) + 6)
      (swap16 ARP_REQUEST)) (0 - (sizeof_arp_pkt_t : Int) + 24) target_ip)
      (0 - (sizeof_arp_pkt_t : Int) + 18) NET_MAC_LEN⟩ := ⟨_, rfl⟩
  have e : arp_req s target_ip
      = { (ethernet_out { s with txbuf := tx } tx (fun _ => 255) NET_PROTOCOL_ARP).1 with
          txbuf := (ethernet_out { s with txbuf := tx } tx (fun _ => 255) NET_PROTOCOL_ARP).2 } := by
    subst htx
    rfl
  have hb : tx.bytes
      = arp_packet ARP_REQUEST s.net_if_mac s.net_if_ip (fun _ => 0) target_ip := by
    rw [htx]
    exact arp_req_pkt_bytes _ _ s target_ip
  obtain ⟨frame, h1, -, h3⟩ := ethernet_out_eq { s with txbuf := tx } tx (fun _ => 255)
    NET_PROTOCOL_ARP (by decide)
  refine ⟨frame, ?_, ?_⟩
  · rw [e, h1]
  · rw [h3, hb]

/-- The effect of `arp_resp`: one unicast frame with an ARP reply, left in `txbuf`. -/
theorem arp_resp_eq (s : link_t) (target_ip : ip_t) (target_mac : mac_t) :
    ∃ frame : buf_t,
      arp_resp s target_ip target_mac
        = { s with txbuf := frame, trace := s.trace ++ [LinkEvent.driver_send frame] }
      ∧ frame.bytes = ether_frame target_mac s.net_if_mac NET_PROTOCOL_ARP
          (arp_packet ARP_REPLY s.net_if_mac s.net_if_ip target_mac target_ip) := by
  obtain ⟨tx, htx⟩ : ∃ b : buf_t, b = ⟨0 + sizeof_arp_pkt_t, 0 - (sizeof_arp_pkt_t : Int),
    memcpy_mac (memcpy_ip (store16 (memcpy s.txbuf.payload (0 - (sizeof_arp_pkt_t : Int))
      (arp_init_pkt s) 0 sizeof_arp_pkt_t) (0 - (sizeof_arp_pkt_t : Int) + 6)
      (swap16 ARP_REPLY)) (0 - (sizeof_arp_pkt_t : Int) + 24) target_ip)
      (0 - (sizeof_arp_pkt_t : Int) + 18) target_mac⟩ := ⟨_, rfl⟩
  have e : arp_resp s target_ip target_mac
      = { (ethernet_out { s with txbuf := tx } tx target_mac NET_PROTOCOL_ARP).1 with
          txbuf := (ethernet_out { s with txbuf := tx } tx target_mac NET_PROTOCOL_ARP).2 } := by
    subst htx
    rfl
  have hb : tx.bytes
      = arp_packet ARP_REPLY s.net_if_mac s.net_if_ip target_mac target_ip := by
    rw [htx]
    exact arp_resp_pkt_bytes _ _ s target_ip target_mac
  obtain ⟨frame, h1, -, h3⟩ := ethernet_out_eq { s with txbuf := tx } tx target_mac
    NET_PROTOCOL_ARP (by decide)
  refine ⟨frame, ?_, ?_⟩
  · rw [e, h1]
  · rw [h3, hb]

/-- A 16-bit field read in network byte order, in terms of its two bytes. -/
theorem swap16_load16 (m : mem_t) (a : Int) :
    swap16 (load16 m a) = 256 * (m a).val + (m (a + 1)).val := by
  unfold swap16 load16
  have := (m a).isLt
  have := (m (a + 1)).isLt
  omega

/-- What `arp_in` does with a well-formed ARP packet. -/
theorem arp_in_valid (st : link_t) (buf : buf_t) (opcode : Nat) (smac tmac : mac_t)
    (sip tip : ip_t) (rest : List Nat) (hop : opcode = ARP_REQUEST ∨ opcode = ARP_REPLY)
    (hb : buf.bytes = arp_packet opcode smac sip tmac tip ++ rest) :
    arp_in st buf
      = match st.arp_buf sip with
        | some pending =>
          { (ethernet_out { st with arp_table := map_set st.arp_table sip smac } pending smac
                NET_PROTOCOL_IP).1 with
            arp_buf := map_delete st.arp_buf sip }
        | none =>
          if opcode = ARP_REQUEST ∧ tip = st.net_if_ip then
            arp_resp { st with arp_table := map_set st.arp_table sip smac } sip smac
          else { st with arp_table := map_set st.arp_table sip smac } := by
  have hlen : buf.len = 28 + rest.length := by
    rw [← buf_bytes_length, hb]
    simp [arp_packet, mac_bytes, ip_bytes]
    omega
  have hsplit : bytes buf.payload buf.data (28 + rest.length)
      = arp_packet opcode smac sip tmac tip ++ rest := by
    rw [← hlen]
    exact hb
  obtain ⟨h1, -⟩ := bytes_split _ _ 28 _ _ _ hsplit rfl
  have hk : ∀ j : Nat, j < 28 → (buf.payload (buf.data + j)).val
      = (arp_packet opcode smac sip tmac tip).getD j 0 :=
    fun j hj => by rw [← h1, bytes_get _ _ _ _ hj]
  have e0 := hk 0 (by omega)
  have e1 := hk 1 (by omega)
  have e2 := hk 2 (by omega)
  have e3 := hk 3 (by omega)
  have e4 := hk 4 (by omega)
  have e5 := hk 5 (by omega)
  have e6 := hk 6 (by omega)
  have e7 := hk 7 (by omega)
  simp [arp_packet] at e0 e1 e2 e3 e4 e5 e6 e7
  have hhw : swap16 (load16 buf.payload buf.data) = ARP_HW_ETHER := by
    rw [swap16_load16, e0, e1]
    rfl
  have hpro : swap16 (load16 buf.payload (buf.data + 2)) = NET_PROTOCOL_IP := by
    rw [swap16_load16, show buf.data + 2 + 1 = buf.data + 3 by omega, e2, e3]
    rfl
  have hop2 : swap16 (load16 buf.payload (buf.data + 6)) = opcode := by
    rw [swap16_load16, show buf.data + 6 + 1 = buf.data + 7 by omega, e6, e7]
    unfold ARP_REQUEST ARP_REPLY at hop
    omega
  have hhl : load8 buf.payload (buf.data + 4) = NET_MAC_LEN := e4
  have hpl : load8 buf.payload (buf.data + 5) = NET_IP_LEN := e5
  have hsmac : load_mac buf.payload (buf.data + 8) = smac := by
    funext k
    apply Fin.ext
    unfold load_mac
    have e8 := hk 8 (by omega)
    have e9 := hk 9 (by omega)
    have e10 := hk 10 (by omega)
    have e11 := hk 11 (by omega)
    have e12 := hk 12 (by omega)
    have e13 := hk 13 (by omega)
    simp [arp_packet, mac_bytes] at e8 e9 e10 e11 e12 e13
    fin_cases k <;> simp [add_assoc] <;> assumption
  have hsip : load_ip buf.payload (buf.data + 14) = sip := by
    funext k
    apply Fin.ext
    unfold load_ip
    have e14 := hk 14 (by omega)
    have e15 := hk 15 (by omega)
    have e16 := hk 16 (by omega)
    have e17 := hk 17 (by omega)
    simp [arp_packet, mac_bytes, ip_bytes] at e14 e15 e16 e17
    fin_cases k <;> simp [add_assoc] <;> assumption
  have htip : load_ip buf.payload (buf.data + 24) = tip := by
    funext k
    apply Fin.ext
    unfold load_ip
    have e24 := hk 24 (by omega)
    have e25 := hk 25 (by omega)
    have e26 := hk 26 (by omega)
    have e27 := hk 27 (by omega)
    simp [arp_packet, mac_bytes, ip_bytes] at e24 e25 e26 e27
    fin_cases k <;> simp [add_assoc] <;> assumption
  unfold arp_in
  rw [if_neg (by unfold sizeof_arp_pkt_t; omega)]
  simp only [hhw, hpro, hop2, hhl, hpl, hsmac, hsip, htip]
  rw [if_neg (by
    intro h
    rcases h with h | h | h | h | h
    · exact h rfl
    · exact h rfl
    · exact h rfl
    · exact h rfl
    · rcases hop with hop | hop
      · exact h.1 hop
      · exact h.2 hop)]
  cases st.arp_buf sip <;> rfl


/-- C17 (Ethernet framing).  For every payload buffer, destination MAC and 16-bit protocol,
`ethernet_out` hands the driver exactly one frame, of length 14 + max(n, 46), made of the
destination MAC, the local MAC, the protocol in network byte order, the n payload bytes
and 46 - n zero bytes; `ethernet_in` applied at any station to a buffer holding that frame
dispatches the padded payload with the same protocol number and the sender's local MAC as
source; and `ethernet_in` changes nothing (dispatches nothing) for a frame shorter than
14 bytes. -/
theorem ethernet_framing (sA sB : link_t) (buf : buf_t) (mac : mac_t) (protocol : Nat)
    (hp : protocol < 65536) :
    ∃ frame : buf_t,
      ethernet_out sA buf mac protocol
        = ({ sA with trace := sA.trace ++ [LinkEvent.driver_send frame] }, frame)
      ∧ frame.len = 14 + max buf.len 46
      ∧ frame.bytes = mac_bytes mac ++ mac_bytes sA.net_if_mac
          ++ [protocol / 256, protocol % 256] ++ buf.bytes ++ List.replicate (46 - buf.len) 0
      ∧ (∀ fbuf : buf_t, fbuf.bytes = frame.bytes →
          link_dispatched (ethernet_in sB fbuf).1.trace
            = link_dispatched sB.trace
              ++ [(buf.bytes ++ List.replicate (46 - buf.len) 0, protocol, sA.net_if_mac)])
      ∧ (∀ fbuf : buf_t, fbuf.len < 14 → ethernet_in sB fbuf = (sB, fbuf)) := by
  obtain ⟨frame, h1, h2, h3⟩ := ethernet_out_eq sA buf mac protocol hp
  refine ⟨frame, h1, h2, ?_, ?_, ?_⟩
  · rw [h3, ether_frame, buf_bytes_length]
  · intro fbuf hf
    obtain ⟨pbuf, e1, e2⟩ := ethernet_in_frame sB fbuf mac sA.net_if_mac protocol buf.bytes hp
      (hf.trans h3)
    rw [e1]
    simp only
    rw [buf_bytes_length] at e2
    rw [link_dispatched_append, ← e2]
    rfl
  · intro fbuf hf
    unfold ethernet_in
    rw [if_pos (by unfold sizeof_ether_hdr_t; exact hf)]

/-- Witness of C17: the payload `01 02 03` sent as IPv4 from 02:00:00:00:00:02 to
02:00:00:00:00:01. -/
theorem ethernet_framing_witness :
    ∃ frame : buf_t,
      ethernet_out example_link (example_buf [1, 2, 3]) ![2, 0, 0, 0, 0, 1] 2048
        = ({ example_link with
              trace := example_link.trace ++ [LinkEvent.driver_send frame] }, frame)
      ∧ frame.len = 14 + max (example_buf [1, 2, 3]).len 46
      ∧ frame.bytes = mac_bytes ![2, 0, 0, 0, 0, 1] ++ mac_bytes example_link.net_if_mac
          ++ [2048 / 256, 2048 % 256] ++ (example_buf [1, 2, 3]).bytes
          ++ List.replicate (46 - (example_buf [1, 2, 3]).len) 0
      ∧ (∀ fbuf : buf_t, fbuf.bytes = frame.bytes →
          link_dispatched (ethernet_in example_link fbuf).1.trace
            = link_dispatched example_link.trace
              ++ [((example_buf [1, 2, 3]).bytes
                    ++ List.replicate (46 - (example_buf [1, 2, 3]).len) 0, 2048,
                    example_link.net_if_mac)])
      ∧ (∀ fbuf : buf_t, fbuf.len < 14 → ethernet_in example_link fbuf = (example_link, fbuf)) :=
  ethernet_framing example_link example_link (example_buf [1, 2, 3]) ![2, 0, 0, 0, 0, 1] 2048
    (by decide)

/-- C13 (ARP single-slot pending cache).  In a state where the destination `d` has neither
an ARP table entry nor a pending entry, `arp_out(p1, d)` stores `p1` as the pending entry
for `d`, leaves the other pending entries and the ARP table as they are, and transmits
exactly one frame: a broadcast ARP request whose target IP is `d` and whose sender fields
are the local IP and MAC.  A following `arp_out(p2, d)` on the state so reached changes
nothing: no frame, the same ARP table, and the pending entry for `d` still `p1`.  The
pending cache holds one packet per destination by its type. -/
theorem arp_out_single_pending (st : link_t) (p1 : buf_t) (d : ip_t)
    (ht : st.arp_table d = none) (hb : st.arp_buf d = none) :
    ∃ frame : buf_t,
      arp_out st p1 d
        = { st with arp_buf := map_set st.arp_buf d p1, txbuf := frame,
                    trace := st.trace ++ [LinkEvent.driver_send frame] }
      ∧ frame.bytes = ether_frame (fun _ => 255) st.net_if_mac NET_PROTOCOL_ARP
          (arp_packet ARP_REQUEST st.net_if_mac st.net_if_ip (fun _ => 0) d)
      ∧ (arp_out st p1 d).arp_buf d = some p1
      ∧ (∀ ip : ip_t, ip ≠ d → (arp_out st p1 d).arp_buf ip = st.arp_buf ip)
      ∧ (arp_out st p1 d).arp_table = st.arp_table
      ∧ frames (arp_out st p1 d).trace = frames st.trace ++ [frame.bytes]
      ∧ ∀ p2 : buf_t, arp_out (arp_out st p1 d) p2 d = arp_out st p1 d := by
  obtain ⟨frame, h1, h2⟩ := arp_req_eq { st with arp_buf := map_set st.arp_buf d p1 } d
  have e : arp_out st p1 d
      = { st with arp_buf := map_set st.arp_buf d p1, txbuf := frame,
                  trace := st.trace ++ [LinkEvent.driver_send frame] } := by
    unfold arp_out
    rw [ht, hb]
    exact h1
  refine ⟨frame, e, h2, ?_, ?_, ?_, ?_, ?_⟩
  · rw [e]
    simp [map_set]
  · intro ip hip
    rw [e]
    simp [map_set, hip]
  · rw [e]
  · rw [e]
    simp only
    rw [frames_append]
    rfl
  · intro p2
    rw [e]
    unfold arp_out
    simp only [ht]
    simp [map_set]

/-- Witness of C13: a first packet for the unresolved address 10.0.0.1. -/
theorem arp_out_single_pending_witness :
    ∃ frame : buf_t,
      arp_out example_link (example_buf [1, 2, 3]) ![10, 0, 0, 1]
        = { example_link with
            arp_buf := map_set example_link.arp_buf ![10, 0, 0, 1] (example_buf [1, 2, 3]),
            txbuf := frame,
            trace := example_link.trace ++ [LinkEvent.driver_send frame] }
      ∧ frame.bytes = ether_frame (fun _ => 255) example_link.net_if_mac NET_PROTOCOL_ARP
          (arp_packet ARP_REQUEST example_link.net_if_mac example_link.net_if_ip (fun _ => 0)
            ![10, 0, 0, 1])
      ∧ (arp_out example_link (example_buf [1, 2, 3]) ![10, 0, 0, 1]).arp_buf ![10, 0, 0, 1]
          = some (example_buf [1, 2, 3])
      ∧ (∀ ip : ip_t, ip ≠ ![10, 0, 0, 1] →
          (arp_out example_link (example_buf [1, 2, 3]) ![10, 0, 0, 1]).arp_buf ip
            = example_link.arp_buf ip)
      ∧ (arp_out example_link (example_buf [1, 2, 3]) ![10, 0, 0, 1]).arp_table
          = example_link.arp_table
      ∧ frames (arp_out example_link (example_buf [1, 2, 3]) ![10, 0, 0, 1]).trace
          = frames example_link.trace ++ [frame.bytes]
      ∧ ∀ p2 : buf_t,
          arp_out (arp_out example_link (example_buf [1, 2, 3]) ![10, 0, 0, 1]) p2 ![10, 0, 0, 1]
            = arp_out example_link (example_buf [1, 2, 3]) ![10, 0, 0, 1] :=
  arp_out_single_pending example_link (example_buf [1, 2, 3]) ![10, 0, 0, 1] rfl rfl


/-- C14 (ARP resolution flush).  For every well-formed ARP packet, request or reply, whose
sender IP `sip` has a pending packet `p`, `arp_in` sets the table entry for `sip` to the
sender MAC, removes the pending entry for `sip`, and transmits exactly one frame: `p` as
an IPv4 frame to the sender MAC (no ARP reply, `txbuf` untouched).  A later `arp_out` to
`sip` is sent directly to that MAC, with no queuing and no request. -/
theorem arp_in_flushes_pending (st : link_t) (buf p : buf_t) (opcode : Nat)
    (smac tmac : mac_t) (sip tip : ip_t) (rest : List Nat)
    (hop : opcode = ARP_REQUEST ∨ opcode = ARP_REPLY)
    (hb : buf.bytes = arp_packet opcode smac sip tmac tip ++ rest)
    (hpend : st.arp_buf sip = some p) :
    ∃ frame : buf_t,
      arp_in st buf
        = { st with arp_table := map_set st.arp_table sip smac,
                    arp_buf := map_delete st.arp_buf sip,
                    trace := st.trace ++ [LinkEvent.driver_send frame] }
      ∧ frame.bytes = ether_frame smac st.net_if_mac NET_PROTOCOL_IP p.bytes
      ∧ (arp_in st buf).arp_table sip = some smac
      ∧ (arp_in st buf).arp_buf sip = none
      ∧ frames (arp_in st buf).trace = frames st.trace ++ [frame.bytes]
      ∧ ∀ q : buf_t, ∃ frame2 : buf_t,
          arp_out (arp_in st buf) q sip
            = { arp_in st buf with
                trace := (arp_in st buf).trace ++ [LinkEvent.driver_send frame2] }
          ∧ frame2.bytes = ether_frame smac st.net_if_mac NET_PROTOCOL_IP q.bytes := by
  obtain ⟨frame, h1, -, h3⟩ := ethernet_out_eq
    { st with arp_table := map_set st.arp_table sip smac } p smac NET_PROTOCOL_IP (by decide)
  have e : arp_in st buf
      = { st with arp_table := map_set st.arp_table sip smac,
                  arp_buf := map_delete st.arp_buf sip,
                  trace := st.trace ++ [LinkEvent.driver_send frame] } := by
    rw [arp_in_valid st buf opcode smac tmac sip tip rest hop hb, hpend]
    simp only
    rw [h1]
  refine ⟨frame, e, h3, ?_, ?_, ?_, ?_⟩
  · rw [e]
    simp [map_set]
  · rw [e]
    simp [map_delete]
  · rw [e]
    simp only
    rw [frames_append]
    rfl
  · intro q
    obtain ⟨frame2, g1, -, g3⟩ := ethernet_out_eq (arp_in st buf) q smac NET_PROTOCOL_IP
      (by decide)
    have hm : (arp_in st buf).net_if_mac = st.net_if_mac := by rw [e]
    have ht : (arp_in st buf).arp_table sip = some smac := by
      rw [e]
      simp [map_set]
    refine ⟨frame2, ?_, ?_⟩
    · unfold arp_out
      rw [ht]
      simp only
      rw [g1]
    · rw [g3, hm]

/-- Witness of C14: an ARP reply from 10.0.0.1 arrives while a packet for 10.0.0.1 is
pending. -/
theorem arp_in_flushes_pending_witness :
    frames (arp_in (arp_out example_link (example_buf [1, 2, 3]) ![10, 0, 0, 1])
        (example_buf (arp_packet ARP_REPLY ![2, 0, 0, 0, 0, 1] ![10, 0, 0, 1]
          ![2, 0, 0, 0, 0, 2] ![192, 168, 1, 2]))).trace
      = frames (arp_out example_link (example_buf [1, 2, 3]) ![10, 0, 0, 1]).trace
        ++ [ether_frame ![2, 0, 0, 0, 0, 1] ![2, 0, 0, 0, 0, 2] NET_PROTOCOL_IP [1, 2, 3]] := by
  obtain ⟨frame, -, h2, -, -, h5, -⟩ := arp_in_flushes_pending
    (arp_out example_link (example_buf [1, 2, 3]) ![10, 0, 0, 1])
    (example_buf (arp_packet ARP_REPLY ![2, 0, 0, 0, 0, 1] ![10, 0, 0, 1]
      ![2, 0, 0, 0, 0, 2] ![192, 168, 1, 2]))
    (example_buf [1, 2, 3]) ARP_REPLY ![2, 0, 0, 0, 0, 1] ![2, 0, 0, 0, 0, 2] ![10, 0, 0, 1]
    ![192, 168, 1, 2] [] (Or.inr rfl) (by decide) rfl
  rw [h5, h2]
  rfl

/-- C15 (`arp_in` rejects malformed packets).  For every buffer that is shorter than 28
bytes, or whose hardware type is not 1, or whose protocol type is not 0x0800, or whose
hardware length is not 6, or whose protocol length is not 4, or whose opcode is neither 1
nor 2 (all fields in network byte order), `arp_in` leaves the whole state as it is: ARP
table, pending cache and trace of transmitted frames. -/
theorem arp_in_rejects_malformed (st : link_t) (buf : buf_t)
    (h : buf.len < 28
      ∨ buf.bytes.take 2 ≠ [0, 1]
      ∨ (buf.bytes.drop 2).take 2 ≠ [8, 0]
      ∨ buf.bytes.getD 4 0 ≠ 6
      ∨ buf.bytes.getD 5 0 ≠ 4
      ∨ ((buf.bytes.drop 6).take 2 ≠ [0, 1] ∧ (buf.bytes.drop 6).take 2 ≠ [0, 2])) :
    arp_in st buf = st := by
  unfold arp_in
  by_cases hl : buf.len < sizeof_arp_pkt_t
  · rw [if_pos hl]
  · rw [if_neg hl]
    simp only
    by_cases hc : swap16 (load16 buf.payload buf.data) ≠ ARP_HW_ETHER
        ∨ swap16 (load16 buf.payload (buf.data + 2)) ≠ NET_PROTOCOL_IP
        ∨ load8 buf.payload (buf.data + 4) ≠ NET_MAC_LEN
        ∨ load8 buf.payload (buf.data + 5) ≠ NET_IP_LEN
        ∨ (swap16 (load16 buf.payload (buf.data + 6)) ≠ ARP_REQUEST
            ∧ swap16 (load16 buf.payload (buf.data + 6)) ≠ ARP_REPLY)
    · rw [if_pos hc]
    · exfalso
      unfold sizeof_arp_pkt_t at hl
      have two : ∀ o : Nat, o + 2 ≤ buf.len → (buf.bytes.drop o).take 2
          = [(buf.payload (buf.data + o)).val, (buf.payload (buf.data + o + 1)).val] := by
        intro o ho
        unfold buf_t.bytes
        rw [bytes_drop_take _ _ _ _ _ ho, bytes_succ, bytes_succ, bytes_zero]
      have t0 := two 0 (by omega)
      have t2 := two 2 (by omega)
      have t6 := two 6 (by omega)
      have t4 : buf.bytes.getD 4 0 = (buf.payload (buf.data + 4)).val :=
        bytes_get _ _ _ _ (by omega)
      have t5 : buf.bytes.getD 5 0 = (buf.payload (buf.data + 5)).val :=
        bytes_get _ _ _ _ (by omega)
      simp only [List.drop_zero, Nat.cast_zero, add_zero, Nat.cast_ofNat] at t0 t2 t6
      rw [t0, t2, t6, t4, t5] at h
      simp only [not_or, not_and_or, not_not, swap16_load16, ARP_HW_ETHER, NET_PROTOCOL_IP,
        NET_MAC_LEN, NET_IP_LEN, ARP_REQUEST, ARP_REPLY, load8] at hc
      have b0 := (buf.payload buf.data).isLt
      have b1 := (buf.payload (buf.data + 1)).isLt
      have b2 := (buf.payload (buf.data + 2)).isLt
      have b3 := (buf.payload (buf.data + 2 + 1)).isLt
      have b6 := (buf.payload (buf.data + 6)).isLt
      have b7 := (buf.payload (buf.data + 6 + 1)).isLt
      obtain ⟨c1, c2, c3, c4, c5⟩ := hc
      rcases h with h | h | h | h | h | h
      · omega
      · apply h
        rw [show (buf.payload buf.data).val = 0 by omega,
          show (buf.payload (buf.data + 1)).val = 1 by omega]
      · apply h
        rw [show (buf.payload (buf.data + 2)).val = 8 by omega,
          show (buf.payload (buf.data + 2 + 1)).val = 0 by omega]
      · exact h c3
      · exact h c4
      · rcases c5 with c5 | c5
        · apply h.1
          rw [show (buf.payload (buf.data + 6)).val = 0 by omega,
            show (buf.payload (buf.data + 6 + 1)).val = 1 by omega]
        · apply h.2
          rw [show (buf.payload (buf.data + 6)).val = 0 by omega,
            show (buf.payload (buf.data + 6 + 1)).val = 2 by omega]

/-- Witness of C15: an ARP packet with opcode 3 arrives while a packet is pending for its
sender. -/
theorem arp_in_rejects_malformed_witness :
    arp_in (arp_out example_link (example_buf [1, 2, 3]) ![10, 0, 0, 1])
        (example_buf (arp_packet 3 ![2, 0, 0, 0, 0, 1] ![10, 0, 0, 1]
          ![2, 0, 0, 0, 0, 2] ![192, 168, 1, 2]))
      = arp_out example_link (example_buf [1, 2, 3]) ![10, 0, 0, 1] :=
  arp_in_rejects_malformed _ _ (by decide)

/-- C16 (ARP reply condition).  For every well-formed ARP packet whose sender IP has no
pending entry, `arp_in` sets the table entry for the sender IP to the sender MAC and
leaves the pending cache as it is; it transmits a frame exactly when the opcode is request
and the target IP is the local IP, and the frame is then one ARP reply (Ethernet, IPv4,
lengths 6 and 4, opcode reply, the local MAC and IP as sender, the requester's MAC and IP
as target) sent unicast to the requester's MAC. -/
theorem arp_in_reply_condition (st : link_t) (buf : buf_t) (opcode : Nat)
    (smac tmac : mac_t) (sip tip : ip_t) (rest : List Nat)
    (hop : opcode = ARP_REQUEST ∨ opcode = ARP_REPLY)
    (hb : buf.bytes = arp_packet opcode smac sip tmac tip ++ rest)
    (hpend : st.arp_buf sip = none) :
    (arp_in st buf).arp_table = map_set st.arp_table sip smac
      ∧ (arp_in st buf).arp_table sip = some smac
      ∧ (arp_in st buf).arp_buf = st.arp_buf
      ∧ frames (arp_in st buf).trace
          = frames st.trace
            ++ (if opcode = ARP_REQUEST ∧ tip = st.net_if_ip then
                  [ether_frame smac st.net_if_mac NET_PROTOCOL_ARP
                    (arp_packet ARP_REPLY st.net_if_mac st.net_if_ip smac sip)]
                else [])
      ∧ (¬ (opcode = ARP_REQUEST ∧ tip = st.net_if_ip) → (arp_in st buf).trace = st.trace) := by
  have e := arp_in_valid st buf opcode smac tmac sip tip rest hop hb
  rw [hpend] at e
  simp only at e
  by_cases hc : opcode = ARP_REQUEST ∧ tip = st.net_if_ip
  · rw [if_pos hc] at e
    obtain ⟨frame, h1, h2⟩ := arp_resp_eq
      { st with arp_table := map_set st.arp_table sip smac } sip smac
    rw [h1] at e
    rw [e, if_pos hc]
    refine ⟨rfl, by simp [map_set], rfl, ?_, fun h => absurd hc h⟩
    simp only
    rw [frames_append, ← h2]
    rfl
  · rw [if_neg hc] at e
    rw [e, if_neg hc]
    exact ⟨rfl, by simp [map_set], rfl, by simp, fun _ => rfl⟩

/-- Witness of C16: an ARP request from 10.0.0.1 for the local address 192.168.1.2. -/
theorem arp_in_reply_condition_witness :
    frames (arp_in example_link (example_buf (arp_packet ARP_REQUEST ![2, 0, 0, 0, 0, 1]
        ![10, 0, 0, 1] (fun _ => 0) ![192, 168, 1, 2]))).trace
      = [ether_frame ![2, 0, 0, 0, 0, 1] ![2, 0, 0, 0, 0, 2] NET_PROTOCOL_ARP
          (arp_packet ARP_REPLY ![2, 0, 0, 0, 0, 2] ![192, 168, 1, 2] ![2, 0, 0, 0, 0, 1]
            ![10, 0, 0, 1])] :=
  (arp_in_reply_condition example_link
    (example_buf (arp_packet ARP_REQUEST ![2, 0, 0, 0, 0, 1] ![10, 0, 0, 1] (fun _ => 0)
      ![192, 168, 1, 2]))
    ARP_REQUEST ![2, 0, 0, 0, 0, 1] (fun _ => 0) ![10, 0, 0, 1] ![192, 168, 1, 2] []
    (Or.inl rfl) (by decide) rfl).2.2.2.1


/-- The accepting path of `ip_in` in terms of the checks that the code makes: a buffer of
at least 20 bytes with version 4, header-length field at least 5, total length at most the
buffer length, matching checksum over the declared header length and the local address as
destination is handed to the dispatch registry.  The declared header length is compared
neither with the total length nor with the buffer length. -/
theorem ip_in_dispatches (s : net_t) (buf : buf_t)
    (h1 : 20 ≤ buf.len) (h2 : load8 buf.payload buf.data / 16 = 4)
    (h3 : 5 ≤ load8 buf.payload buf.data % 16)
    (h4 : swap16 (load16 buf.payload (buf.data + 2)) ≤ buf.len)
    (h5 : checksum16 (store16 buf.payload (buf.data + 10) 0) buf.data
        (load8 buf.payload buf.data % 16 * 4) = load16 buf.payload (buf.data + 10))
    (h6 : load_ip buf.payload (buf.data + 16) = s.net_if_ip) :
    dispatched (ip_in s buf).1.trace
      = dispatched s.trace
        ++ [((buf_remove_header
                ⟨swap16 (load16 buf.payload (buf.data + 2)), buf.data, buf.payload⟩
                (load8 buf.payload buf.data % 16 * 4)).bytes,
              load8 buf.payload (buf.data + 9), load_ip buf.payload (buf.data + 12))] := by
  have e0 : load8 (store16 buf.payload (buf.data + 10) 0) buf.data
      = load8 buf.payload buf.data := by
    unfold load8
    rw [store16_of_ne _ _ _ _ (by omega) (by omega)]
  have hm : load8 buf.payload buf.data % 16 * 4 % 256 = load8 buf.payload buf.data % 16 * 4 := by
    omega
  have ht : (if buf.len > swap16 (load16 buf.payload (buf.data + 2)) then
      buf_remove_padding ⟨buf.len, buf.data, buf.payload⟩
        (buf.len - swap16 (load16 buf.payload (buf.data + 2)))
      else ⟨buf.len, buf.data, buf.payload⟩)
      = ⟨swap16 (load16 buf.payload (buf.data + 2)), buf.data, buf.payload⟩ := by
    split
    · unfold buf_remove_padding
      rw [if_neg (by simp only; omega)]
      simp only
      congr 1
      omega
    · congr 1
      omega
  unfold ip_in
  simp only [sizeof_ip_hdr_t, IP_VERSION_4, IP_HDR_LEN_PER_BYTE]
  rw [if_neg (by omega), if_neg (by omega)]
  simp only [e0, store16_store16, h5, ne_eq, not_true_eq_false, if_false, store16_load16, h6,
    ht, hm]
  split
  · rw [icmp_unreachable_dispatched, net_in_dispatched]
  · rw [net_in_dispatched]


/-- C21 (the code at the failing input): a 20-byte packet of version 4 whose header-length
field is 6, that is a declared header of 24 bytes, and whose total length is 20.  `ip_in`
computes the header checksum over 24 bytes, 4 of them behind the received packet, finds
it equal to the field `ae 3e`, and hands the packet to the dispatch registry although
4 * 6 > 20; as the header to remove is longer than the buffer, what is dispatched as
protocol 1 is the packet with its IP header.  With another byte behind the same 20 bytes
the packet is dropped: the outcome depends on storage outside the packet. -/
theorem ip_in_forwards_header_beyond_packet :
    (example_buf [70, 0, 0, 20, 0, 0, 0, 0, 64, 1, 174, 62, 10, 0, 0, 1, 192, 168, 1, 2]).len
      = 20
    ∧ load8 (example_buf
        [70, 0, 0, 20, 0, 0, 0, 0, 64, 1, 174, 62, 10, 0, 0, 1, 192, 168, 1, 2]).payload 0
        % 16 * 4 = 24
    ∧ swap16 (load16 (example_buf
        [70, 0, 0, 20, 0, 0, 0, 0, 64, 1, 174, 62, 10, 0, 0, 1, 192, 168, 1, 2]).payload 2)
      = 20
    ∧ dispatched (ip_in example_state (example_buf
        [70, 0, 0, 20, 0, 0, 0, 0, 64, 1, 174, 62, 10, 0, 0, 1, 192, 168, 1, 2])).1.trace
      = [([70, 0, 0, 20, 0, 0, 0, 0, 64, 1, 174, 62, 10, 0, 0, 1, 192, 168, 1, 2], 1,
          ![10, 0, 0, 1])]
    ∧ (⟨20, 0, ofList
          [70, 0, 0, 20, 0, 0, 0, 0, 64, 1, 174, 62, 10, 0, 0, 1, 192, 168, 1, 2,
            0, 0, 0, 1]⟩ : buf_t).bytes
      = [70, 0, 0, 20, 0, 0, 0, 0, 64, 1, 174, 62, 10, 0, 0, 1, 192, 168, 1, 2]
    ∧ dispatched (ip_in example_state ⟨20, 0, ofList
          [70, 0, 0, 20, 0, 0, 0, 0, 64, 1, 174, 62, 10, 0, 0, 1, 192, 168, 1, 2,
            0, 0, 0, 1]⟩).1.trace
      = [] := by
  decide


/-- For an object of its own the function `arp_out` with a pointer is `arp_out` with the
value of the buffer. -/
theorem arp_out_object (s : link_t) (b : buf_t) (ip : ip_t) :
    ByRef.arp_out s (buf_ptr.object b) ip = arp_out s b ip := by
  unfold ByRef.arp_out arp_out
  cases s.arp_table ip with
  | some mac => rfl
  | none =>
    cases s.arp_buf ip with
    | some p => rfl
    | none => rfl

/-- No branch of `arp_out` changes the local address. -/
theorem arp_out_net_if_ip (s : link_t) (b : buf_t) (ip : ip_t) :
    (arp_out s b ip).net_if_ip = s.net_if_ip := by
  unfold arp_out
  cases s.arp_table ip with
  | some mac => rfl
  | none =>
    cases s.arp_buf ip with
    | some p => rfl
    | none => rfl

/-- With the destination in the ARP table, `arp_out` for an object of its own sends the
frame from that object: `txbuf` and both maps stay as they are. -/
theorem arp_out_resolved (s : link_t) (b : buf_t) (ip : ip_t) (mac : mac_t)
    (h : s.arp_table ip = some mac) :
    (arp_out s b ip).txbuf = s.txbuf ∧ (arp_out s b ip).arp_table = s.arp_table
      ∧ (arp_out s b ip).arp_buf = s.arp_buf := by
  unfold arp_out
  rw [h]
  exact ⟨rfl, rfl, rfl⟩

/-- One call of `ip_fragment_out` for an object of its own: the packet handed to `arp_out`
is the one of `ip_fragment_out` with the value of the buffer, and `fragment_id`, the
storage of automatic objects and the local address stay as they are. -/
theorem ip_fragment_out_object (st : stack_t) (s : net_t) (f : buf_t) (ip : ip_t)
    (protocol id offset mf : Nat)
    (h1 : s.net_if_ip = st.link.net_if_ip) (h2 : s.fragment_id = st.fragment_id)
    (h3 : s.frag_buf = st.frag_buf) (h4 : s.trace = st.handed) :
    (ip_fragment_out s f ip protocol id offset mf).net_if_ip
        = (ByRef.ip_fragment_out st (buf_ptr.object f) ip protocol id offset mf).link.net_if_ip
      ∧ (ip_fragment_out s f ip protocol id offset mf).fragment_id
        = (ByRef.ip_fragment_out st (buf_ptr.object f) ip protocol id offset mf).fragment_id
      ∧ (ip_fragment_out s f ip protocol id offset mf).frag_buf
        = (ByRef.ip_fragment_out st (buf_ptr.object f) ip protocol id offset mf).frag_buf
      ∧ (ip_fragment_out s f ip protocol id offset mf).trace
        = (ByRef.ip_fragment_out st (buf_ptr.object f) ip protocol id offset mf).handed := by
  refine ⟨?_, h2, h3, ?_⟩
  · unfold ByRef.ip_fragment_out
    simp only [buf_ptr.put, buf_ptr.get]
    rw [arp_out_object, arp_out_net_if_ip]
    exact h1
  · unfold ByRef.ip_fragment_out ip_fragment_out
    simp only [buf_ptr.get]
    rw [h1, h4]

/-- One call of `ip_fragment_out` for an object of its own, with the destination in the
ARP table: `txbuf` and the ARP table stay as they are. -/
theorem ip_fragment_out_resolved (st : stack_t) (f : buf_t) (ip : ip_t)
    (protocol id offset mf : Nat) (mac : mac_t) (h : st.link.arp_table ip = some mac) :
    (ByRef.ip_fragment_out st (buf_ptr.object f) ip protocol id offset mf).link.txbuf
        = st.link.txbuf
      ∧ (ByRef.ip_fragment_out st (buf_ptr.object f) ip protocol id offset mf).link.arp_table
        = st.link.arp_table := by
  unfold ByRef.ip_fragment_out
  simp only [buf_ptr.put, buf_ptr.get]
  rw [arp_out_object]
  obtain ⟨e1, e2, -⟩ := arp_out_resolved st.link _ ip mac h
  exact ⟨e1, e2⟩

/-- The loop of `ip_out` with a pointer hands on what the loop with the value of the
buffer hands on, when `buf` is an object of its own or the destination is in the ARP
table: no call then writes `*buf`. -/
theorem ip_out_loop_by_reference (b : buf_t) (buf : buf_ptr) (ip : ip_t)
    (protocol id fpl : Nat) (fuel : Nat) :
    ∀ (st : stack_t) (s : net_t) (offset remaining : Nat),
      s.net_if_ip = st.link.net_if_ip → s.fragment_id = st.fragment_id →
      s.frag_buf = st.frag_buf → s.trace = st.handed →
      (buf = buf_ptr.object b
        ∨ (buf = buf_ptr.txbuf ∧ st.link.txbuf = b ∧ ∃ mac, st.link.arp_table ip = some mac)) →
      (ip_out_loop b ip protocol id fpl fuel s offset remaining).fragment_id
          = (ByRef.ip_out_loop buf ip protocol id fpl fuel st offset remaining).fragment_id
        ∧ (ip_out_loop b ip protocol id fpl fuel s offset remaining).trace
          = (ByRef.ip_out_loop buf ip protocol id fpl fuel st offset remaining).handed := by
  induction fuel with
  | zero =>
    intro st s offset remaining _ h2 _ h4 _
    exact ⟨h2, h4⟩
  | succ fuel ih =>
    intro st s offset remaining h1 h2 h3 h4 hsrc
    have hget : buf.get st.link = b := by
      rcases hsrc with hsrc | ⟨hsrc, ht, -⟩
      · rw [hsrc]; rfl
      · rw [hsrc]; exact ht
    unfold ip_out_loop ByRef.ip_out_loop
    by_cases hr : remaining > fpl
    · rw [if_pos hr, if_pos hr]
      simp only [ip_out_frag, hget, h3]
      obtain ⟨g1, g2, g3, g4⟩ := ip_fragment_out_object st s
        { buf_init st.frag_buf fpl with
          payload := memcpy (buf_init st.frag_buf fpl).payload (buf_init st.frag_buf fpl).data
            b.payload (b.data + offset) fpl } ip protocol id offset 1 h1 h2 h3 h4
      refine ih _ _ _ _ g1 g2 g3 g4 ?_
      rcases hsrc with hsrc | ⟨hsrc, ht, mac, hm⟩
      · exact Or.inl hsrc
      · obtain ⟨e1, e2⟩ := ip_fragment_out_resolved st
          { buf_init st.frag_buf fpl with
            payload := memcpy (buf_init st.frag_buf fpl).payload (buf_init st.frag_buf fpl).data
              b.payload (b.data + offset) fpl } ip protocol id offset 1 mac hm
        exact Or.inr ⟨hsrc, e1.trans ht, mac, by rw [e2]; exact hm⟩
    · rw [if_neg hr, if_neg hr]
      simp only [ip_out_frag, hget, h3]
      obtain ⟨-, g2, -, g4⟩ := ip_fragment_out_object st s
        { buf_init st.frag_buf remaining with
          payload := memcpy (buf_init st.frag_buf remaining).payload
            (buf_init st.frag_buf remaining).data b.payload (b.data + offset) remaining }
        ip protocol id offset 0 h1 h2 h3 h4
      exact ⟨g2, g4⟩

/-- The function `ip_out` with a pointer hands on what `ip_out` with the value of the
buffer hands on, and takes the same identification, when `buf` is an object of its own or
the destination is in the ARP table. -/
theorem ip_out_by_reference (st : stack_t) (buf : buf_ptr) (ip : ip_t) (protocol : Nat)
    (h : (∃ b, buf = buf_ptr.object b) ∨ ∃ mac, st.link.arp_table ip = some mac) :
    (ByRef.ip_out st buf ip protocol).fragment_id
        = (ip_out st.net (buf.get st.link) ip protocol).fragment_id
      ∧ (ByRef.ip_out st buf ip protocol).handed
        = (ip_out st.net (buf.get st.link) ip protocol).trace := by
  unfold ByRef.ip_out ip_out
  simp only []
  by_cases hl : (buf.get st.link).len > ETHERNET_MAX_TRANSPORT_UNIT - sizeof_ip_hdr_t
  · rw [if_pos hl, if_pos hl]
    have hsrc : buf = buf_ptr.object (buf.get st.link)
        ∨ (buf = buf_ptr.txbuf ∧ st.link.txbuf = buf.get st.link
            ∧ ∃ mac, st.link.arp_table ip = some mac) := by
      cases buf with
      | txbuf =>
        rcases h with ⟨b, hb⟩ | hm
        · cases hb
        · exact Or.inr ⟨rfl, rfl, hm⟩
      | object b => exact Or.inl rfl
    obtain ⟨e1, e2⟩ := ip_out_loop_by_reference (buf.get st.link) buf ip protocol
      st.fragment_id ((ETHERNET_MAX_TRANSPORT_UNIT - sizeof_ip_hdr_t) / 8 * 8)
      ((buf.get st.link).len + 1) { st with fragment_id := st.fragment_id + 1 }
      { st.net with fragment_id := st.net.fragment_id + 1 } 0 (buf.get st.link).len
      rfl rfl rfl rfl hsrc
    exact ⟨e1.symm, e2.symm⟩
  · rw [if_neg hl, if_neg hl]
    exact ⟨rfl, rfl⟩

/-- Fragmentation by `ip_out` with a pointer, when no call writes `*buf`.  For every
payload of length `L` with `1480 < L ≤ 65515` behind `buf` and every protocol number below
256, if `buf` is an object of its own or the destination is in the ARP table, then `ip_out`
takes one new identification and hands `⌈L / 1480⌉` packets to `arp_out`, packet `k` with
that identification, byte offset `1480 * k`, the more-fragments flag set exactly when `k`
is not the last, and the payload bytes `[1480 * k, min (1480 * (k + 1)) L)`. -/
theorem ip_out_fragments_by_reference (st : stack_t) (buf : buf_ptr) (ip : ip_t)
    (protocol : Nat) (hp : protocol < 256) (h1 : 1480 < (buf.get st.link).len)
    (h2 : (buf.get st.link).len ≤ 65515)
    (h : (∃ b, buf = buf_ptr.object b) ∨ ∃ mac, st.link.arp_table ip = some mac) :
    (ByRef.ip_out st buf ip protocol).fragment_id = st.fragment_id + 1
      ∧ sent (ByRef.ip_out st buf ip protocol).handed
        = sent st.handed
          ++ (List.range (((buf.get st.link).len + 1479) / 1480)).map (fun k =>
            (ip_packet st.link.net_if_ip ip protocol st.fragment_id (1480 * k)
              (if k + 1 < ((buf.get st.link).len + 1479) / 1480 then 1 else 0)
              (((buf.get st.link).bytes.drop (1480 * k)).take 1480), ip)) := by
  obtain ⟨e1, e2⟩ := ip_out_by_reference st buf ip protocol h
  obtain ⟨evs, g1, -, g3, -⟩ := ip_out_fragments st.net (buf.get st.link) ip protocol hp h1 h2
  rw [e1, e2, g1]
  refine ⟨rfl, ?_⟩
  simp only []
  rw [sent_append, g3]
  rfl

set_option maxRecDepth 100000 in
/-- The three fragments of the payload of 3000 bytes in `txbuf`, sent to a destination
that is in the ARP table: each carries its part of the payload. -/
theorem ip_out_fragments_by_reference_example :
    (sent (ByRef.ip_out example_stack_resolved buf_ptr.txbuf ![10, 0, 0, 1] 17).handed).map
        (fun p => (p.1.length, (p.1.drop 20).take 4, p.2))
      = [(1500, [0, 1, 2, 3], ![10, 0, 0, 1]), (1500, [225, 226, 227, 228], ![10, 0, 0, 1]),
          (60, [199, 200, 201, 202], ![10, 0, 0, 1])] := by
  rw [(ip_out_fragments_by_reference example_stack_resolved buf_ptr.txbuf ![10, 0, 0, 1] 17
    (by decide) (by decide) (by decide) (Or.inr ⟨![2, 0, 0, 0, 0, 1], rfl⟩)).2]
  decide


set_option maxRecDepth 100000 in
/-- C5 (the code at the failing input): `ip_out(&txbuf, ip, protocol)` with a payload of
3000 bytes in `txbuf` and a destination that has neither an ARP table entry nor a pending
packet.  Three packets of 1500, 1500 and 60 bytes are handed to `arp_out`.  The first
carries the payload bytes from 0 on.  For it `arp_out` stores the packet and calls
`arp_req`, which builds the ARP request in `txbuf`: `txbuf` is then 60 bytes long and
begins 42 bytes before the place where the payload began.  The second and third fragment
are copied from `buf->data + 1480` and `buf->data + 2960` of that `txbuf`; their payloads
begin with `b7 b8 b9 ba` and `9d 9e 9f a0`, where the payload has `e1 e2 e3 e4` at byte
1480 and `c7 c8 c9 ca` at byte 2960.  Only the ARP request goes to the driver. -/
theorem ip_out_fragments_source_overwritten :
    (sent (ByRef.ip_out example_stack buf_ptr.txbuf ![10, 0, 0, 1] 17).handed).map
        (fun p => (p.1.length, (p.1.drop 20).take 4, p.2))
      = [(1500, [0, 1, 2, 3], ![10, 0, 0, 1]), (1500, [183, 184, 185, 186], ![10, 0, 0, 1]),
          (60, [157, 158, 159, 160], ![10, 0, 0, 1])]
    ∧ [example_payload.bytes.take 4, (example_payload.bytes.drop 1480).take 4,
        (example_payload.bytes.drop 2960).take 4]
      = [[0, 1, 2, 3], [225, 226, 227, 228], [199, 200, 201, 202]]
    ∧ (example_stack.link.txbuf.len, example_stack.link.txbuf.data) = (3000, 0)
    ∧ ((ByRef.ip_out example_stack buf_ptr.txbuf ![10, 0, 0, 1] 17).link.txbuf.len,
        (ByRef.ip_out example_stack buf_ptr.txbuf ![10, 0, 0, 1] 17).link.txbuf.data)
      = (60, -42)
    ∧ frames (ByRef.ip_out example_stack buf_ptr.txbuf ![10, 0, 0, 1] 17).link.trace
      = [ether_frame (fun _ => 255) example_link.net_if_mac NET_PROTOCOL_ARP
          (arp_packet ARP_REQUEST example_link.net_if_mac example_link.net_if_ip (fun _ => 0)
            ![10, 0, 0, 1])] := by
  decide


end CSNet
